import Mathlib

/-!
# Verification development for the ogs5py toolkit excerpt

Shallow embeddings of the pre/post-processing routines of the ogs5py
excerpt, together with theorems settling the specified properties.

Modelling conventions:
* numpy floating-point arrays are idealised over `ℚ` (or `ℝ` where
  trigonometric functions occur); every IEEE-754 double is a (decimal)
  rational, and the properties at stake are stated "within floating
  tolerance" by the specification.
* a numpy shape is a `List ℕ` of dimension sizes; `ndim` is its length.
* Python exceptions are modelled by `Option`/`Except` results.
* text files are modelled as lists of line contents (the trailing
  newline of each line is dropped; `readline` at end of file yields
  the empty string).
-/

set_option maxRecDepth 8192

-- ====================================================================
-- DEFINITIONS
-- ====================================================================

-- ------------------------------------------------------------------
-- Restart-data file class (ic/core.py, class RFR)
-- ------------------------------------------------------------------

/-- The numpy shape of the 1-D per-node value array held by `RFR`:
an array of `N` values has shape `(N,)`. -/
def rfr_shape (data : List ℚ) : List ℕ := [data.length]

/-- `RFR.is_empty` (ic/core.py): `bool(self.data.shape) and self.data.shape[0] > 0`.
`bool` of a shape tuple is its non-emptiness, `shape[0]` its first entry. -/
def rfr_is_empty (data : List ℚ) : Bool :=
  !(rfr_shape data).isEmpty && decide (0 < (rfr_shape data).headD 0)

-- ------------------------------------------------------------------
-- Particle-table file class (pct/core.py, class PCT)
-- ------------------------------------------------------------------

/-- A numpy array modelled by its shape; the PCT shape checks under
verification depend on the shape only, never on element values. -/
structure NpArray where
  shape : List ℕ
deriving Repr, DecidableEq

/-- `PCT.check` (pct/core.py): returns `False` when `data.ndim != 2`,
else `False` when `data.shape[1] != 10`, else `True`.  `shape[1]` is read
only after the `ndim == 2` test, so the check never raises. -/
def PCT.check (data : NpArray) : Bool :=
  if data.shape.length ≠ 2 then false
  else if data.shape.getD 1 0 ≠ 10 then false
  else true

/-- `PCT.reset` (pct/core.py): `self.data = np.zeros((0, 10))`. -/
def PCT.reset : NpArray := ⟨[0, 10]⟩

-- ------------------------------------------------------------------
-- Distributed medium-property reader (gli/tools.py, load_media_prop_dist)
-- ------------------------------------------------------------------

/-- The `DATA` branch of `load_media_prop_dist` (gli/tools.py):
the numeric stream is reshaped into `(id, value)` pairs,
`data_ids = data.reshape((-1, 2))[:, 0]` (as integers),
`data_val = data.reshape((-1, 2))[:, 1]`, and the code stores
`data_val[data_ids]` — numpy fancy indexing, i.e. entry `j` of the output
is `data_val[data_ids[j]]`.  An out-of-range id raises `IndexError`,
modelled as `none`. -/
def load_media_prop_dist_data (pairs : List (ℕ × ℚ)) : Option (List ℚ) :=
  let data_ids := pairs.map Prod.fst
  let data_val := pairs.map Prod.snd
  if data_ids.all (fun i => i < data_val.length) then
    some (data_ids.map (fun i => data_val.getD i 0))
  else none

-- ------------------------------------------------------------------
-- Point-transform utilities (tools/tools.py): hull_deform
-- ------------------------------------------------------------------

/-- The `func_top` / `func_bot` argument of `hull_deform`: either absent
(`None`), a plain number, or a function of the two in-plane coordinates. -/
inductive HullFunc
  | absent
  | const (c : ℚ)
  | func (f : ℚ → ℚ → ℚ)

/-- Argument normalisation of `hull_deform` (tools/tools.py): `None`
defaults to the niveau level, and a plain number is redefined to a
constant field (`func_top_redef` / `func_bot_redef`). -/
def hull_func_eval (f : HullFunc) (niv x1 x2 : ℚ) : ℚ :=
  match f with
  | .absent => niv
  | .const c => c
  | .func g => g x1 x2

/-- `hull_deform` (tools/tools.py), per point.  The numpy version acts
elementwise on coordinate arrays; this is its action on one point.
`direction` selects which coordinate is the elevation axis `x3`;
`scale = (x3 - niv_bot)/(niv_top - niv_bot)` (division by zero unguarded,
here total `ℚ` division), and the elevation output is
`scale*(func_top(x1,x2) - func_bot(x1,x2)) + func_bot(x1,x2)`. -/
def hull_deform (x_in y_in z_in : ℚ) (niv_top niv_bot : ℚ)
    (func_top func_bot : HullFunc) (direction : String) : ℚ × ℚ × ℚ :=
  let p :=
    if direction = "x" then (y_in, z_in, x_in)
    else if direction = "y" then (x_in, z_in, y_in)
    else (x_in, y_in, z_in)
  let x1_in := p.1
  let x2_in := p.2.1
  let x3_in := p.2.2
  let scale := (x3_in - niv_bot) / (niv_top - niv_bot)
  let x3_out := scale * (hull_func_eval func_top niv_top x1_in x2_in -
                  hull_func_eval func_bot niv_bot x1_in x2_in) +
                hull_func_eval func_bot niv_bot x1_in x2_in
  if direction = "x" then (x3_out, x1_in, x2_in)
  else if direction = "y" then (x1_in, x3_out, x2_in)
  else (x1_in, x2_in, x3_out)

-- ------------------------------------------------------------------
-- Point-transform utilities (tools/tools.py): replace / unique_rows
-- ------------------------------------------------------------------

/-- Round-half-to-even to an integer (the rounding mode of `np.around`). -/
def round_half_even (q : ℚ) : ℤ :=
  if q - ⌊q⌋ < 1/2 then ⌊q⌋
  else if (1:ℚ)/2 < q - ⌊q⌋ then ⌊q⌋ + 1
  else if Even ⌊q⌋ then ⌊q⌋ else ⌊q⌋ + 1

/-- `np.around(·, decimals)` on one entry: scale by `10^decimals`, round to
the nearest integer (ties to even), scale back. -/
def np_around (decimals : ℤ) (q : ℚ) : ℚ :=
  (round_half_even (q * (10:ℚ) ^ decimals) : ℚ) / (10:ℚ) ^ decimals

/-- `np.around` applied to one row of a 2-D array. -/
def np_around_row (decimals : ℤ) (row : List ℚ) : List ℚ :=
  row.map (np_around decimals)

/-- Insertion of one element into a list already sorted by the Boolean
relation `le`; building block for the sorts below. -/
def insertB (le : α → α → Bool) (x : α) : List α → List α
  | [] => [x]
  | y :: ys => if le x y then x :: y :: ys else y :: insertB le x ys

/-- A total sort by the Boolean relation `le`.  numpy's sorts are
re-orderings making the data `le`-sorted; ties never occur at the call
sites verified here, so any correct sort has the same value. -/
def insertionSortB (le : α → α → Bool) : List α → List α
  | [] => []
  | x :: xs => insertB le x (insertionSortB le xs)

/-- Boolean `≤` on ℕ (the comparison of numpy's index sorts). -/
def natLeB (a b : ℕ) : Bool := decide (a ≤ b)

/-- `np.argsort xs`: a permutation of `range xs.length` sorting positions
by their value in `xs`. -/
def np_argsort (xs : List ℕ) : List ℕ :=
  insertionSortB (fun i j => natLeB (xs.getD i 0) (xs.getD j 0))
    (List.range xs.length)

/-- `np.searchsorted(a, v)` (side "left") for a sorted array `a`: the
number of entries strictly below `v`, i.e. the leftmost insertion point. -/
def np_searchsorted (a : List ℕ) (v : ℕ) : ℕ :=
  a.countP (fun x => decide (x < v))

/-- `replace` (tools/tools.py), at the ℕ instance used by `unique_rows`:
sort `inval` (carrying `outval` along) by `np.argsort(inval)`, then map
every entry of `arr` that occurs in `inval` (`np.in1d` mask) to the
`outval` entry found by `np.searchsorted` on the sorted `inval`. -/
def np_replace (arr inval outval : List ℕ) : List ℕ :=
  let sortIdx := np_argsort inval
  let invalS := sortIdx.map (fun i => inval.getD i 0)
  let outvalS := sortIdx.map (fun i => outval.getD i 0)
  arr.map (fun x =>
    if x ∈ inval then outvalS.getD (np_searchsorted invalS x) 0 else x)

/-- Lexicographic Boolean order on rows.  `np.unique` sorts the rounded
rows through a raw-bytes (`np.void`) view, i.e. by *some* linear order on
distinct rows; the verified outputs of `unique_rows` are independent of
which linear order is used (the subsequent `argsort` step re-orders
everything by first occurrence), so the byte order is modelled by the
lexicographic one. -/
def rowLe : List ℚ → List ℚ → Bool
  | [], _ => true
  | _ :: _, [] => false
  | a :: as, b :: bs => if a < b then true else if b < a then false else rowLe as bs

/-- `data.ndim == 2` for a list-of-rows array: a non-empty rectangular
nesting (a ragged or empty nesting does not form a 2-D numpy array). -/
def is2D (data : List (List ℚ)) : Bool :=
  !data.isEmpty && data.all (fun r => r.length = (data.headD []).length)

/-- Index of the first occurrence of `w` in `l` (`l.length` if absent):
the notion of "index of a value" used by `np.unique`'s
`return_index`/`return_inverse` outputs and by Python's `list.index`. -/
def firstIdx {α : Type*} [DecidableEq α] (l : List α) (w : α) : ℕ :=
  match l with
  | [] => 0
  | x :: xs => if x = w then 0 else firstIdx xs w + 1

/-- The rounded comparison key array `tmp = np.around(data, decimals)`
of `unique_rows` (tools/tools.py). -/
def ur_tmp (data : List (List ℚ)) (decimals : ℤ) : List (List ℚ) :=
  data.map (np_around_row decimals)

/-- First output of the `np.unique(tmp, ...)` call in `unique_rows`: the
distinct rounded rows in sorted order. -/
def ur_u (data : List (List ℚ)) (decimals : ℤ) : List (List ℚ) :=
  insertionSortB rowLe (ur_tmp data decimals).dedup

/-- `return_index` output `i_x` of the `np.unique` call: for each unique
row, the index of its first occurrence in `tmp`. -/
def ur_ix (data : List (List ℚ)) (decimals : ℤ) : List ℕ :=
  (ur_u data decimals).map (fun v => firstIdx (ur_tmp data decimals) v)

/-- `return_inverse` output `i_xr` of the `np.unique` call: for each row
of `tmp`, its position in the unique array. -/
def ur_ixr (data : List (List ℚ)) (decimals : ℤ) : List ℕ :=
  (ur_tmp data decimals).map (fun x => firstIdx (ur_u data decimals) x)

/-- `out = data[i_x]` in `unique_rows`: the unrounded originals at the
first-occurrence positions. -/
def ur_out (data : List (List ℚ)) (decimals : ℤ) : List (List ℚ) :=
  (ur_ix data decimals).map (fun i => data.getD i [])

/-- `sort = np.argsort(i_x)` in `unique_rows`. -/
def ur_sort (data : List (List ℚ)) (decimals : ℤ) : List ℕ :=
  np_argsort (ur_ix data decimals)

/-- The result triple of `unique_rows` (tools/tools.py):
`(out[sort], i_x[sort], replace(i_xr, sort, arange(len(i_x))))`. -/
def unique_rows_core (data : List (List ℚ)) (decimals : ℤ) :
    List (List ℚ) × List ℕ × List ℕ :=
  ((ur_sort data decimals).map (fun s => (ur_out data decimals).getD s []),
   (ur_sort data decimals).map (fun s => (ur_ix data decimals).getD s 0),
   np_replace (ur_ixr data decimals) (ur_sort data decimals)
     (List.range (ur_ix data decimals).length))

/-- `unique_rows` (tools/tools.py): raises `ValueError` (`none`) unless
the input is exactly 2-D, else returns the triple `unique_rows_core`. -/
def unique_rows (data : List (List ℚ)) (decimals : ℤ) :
    Option (List (List ℚ) × List ℕ × List ℕ) :=
  if is2D data then some (unique_rows_core data decimals) else none

-- ------------------------------------------------------------------
-- Point-transform utilities (tools/tools.py): rotation
-- ------------------------------------------------------------------

/-- `np.linalg.norm` of a 3-vector (Euclidean norm). -/
noncomputable def np_norm (v : Fin 3 → ℝ) : ℝ :=
  Real.sqrt (v 0 ^ 2 + v 1 ^ 2 + v 2 ^ 2)

/-- `rotation_matrix` (tools/tools.py): the axis is normalised
(`vector / np.linalg.norm(vector)`), `mat = np.cross(np.eye(3), vector)`
is the skew-symmetric cross-product matrix (row `i` is `e_i × v`), and the
result is `cos(a)·I + sin(a)·mat + (1-cos(a))·(v ⊗ v)`. -/
noncomputable def rotation_matrix (vector : Fin 3 → ℝ) (angle : ℝ) :
    Matrix (Fin 3) (Fin 3) ℝ :=
  let v := (np_norm vector)⁻¹ • vector
  let mat : Matrix (Fin 3) (Fin 3) ℝ :=
    !![0, -(v 2), v 1; v 2, 0, -(v 0); -(v 1), v 0, 0]
  let cosa := Real.cos angle
  let sina := Real.sin angle
  cosa • (1 : Matrix (Fin 3) (Fin 3) ℝ) + sina • mat +
    (1 - cosa) • Matrix.vecMulVec v v

/-- `shift_points` (tools/tools.py): add a constant 3-vector to every row
of a copy of the point array. -/
def shift_points (points : List (Fin 3 → ℝ)) (vector : Fin 3 → ℝ) :
    List (Fin 3 → ℝ) :=
  points.map (fun p => p + vector)

/-- `rotate_points` (tools/tools.py): translate by `-rotation_point`,
apply the rotation matrix (`np.inner(rot, pts).T` maps each row `p` to
`rot.mulVec p`), translate back. -/
noncomputable def rotate_points (points : List (Fin 3 → ℝ)) (angle : ℝ)
    (rotation_axis rotation_point : Fin 3 → ℝ) : List (Fin 3 → ℝ) :=
  let rot := rotation_matrix rotation_axis angle
  let moved := shift_points points ((-1 : ℝ) • rotation_point)
  let rotated := moved.map (fun p => rot.mulVec p)
  shift_points rotated rotation_point

-- ------------------------------------------------------------------
-- Python string primitives (on the underlying character lists)
-- ------------------------------------------------------------------

/-- Python `str.strip()` on a character list: drop whitespace from both
ends. -/
def stripChars (cs : List Char) : List Char :=
  ((cs.dropWhile Char.isWhitespace).reverse.dropWhile Char.isWhitespace).reverse

/-- Python `str.strip()`. -/
def pyStrip (s : String) : String := ⟨stripChars s.data⟩

/-- Worker of `splitChars`: `acc` is the current token, reversed. -/
def splitCharsAux : List Char → List Char → List (List Char)
  | [], acc => if acc.isEmpty then [] else [acc.reverse]
  | c :: cs, acc =>
    if c.isWhitespace then
      if acc.isEmpty then splitCharsAux cs []
      else acc.reverse :: splitCharsAux cs []
    else splitCharsAux cs (c :: acc)

/-- Python `str.split()` with no argument: the maximal runs of
non-whitespace characters. -/
def splitChars (cs : List Char) : List (List Char) := splitCharsAux cs []

/-- Python `str.split()`. -/
def pySplit (s : String) : List String := (splitChars s.data).map String.mk

/-- Python `str.startswith`. -/
def pyStartsWith (s pre : String) : Bool := pre.data.isPrefixOf s.data

/-- Python `s[1:]`. -/
def pyDrop1 (s : String) : String := ⟨s.data.drop 1⟩

/-- Python `token.isdigit()`: non-empty and all (ASCII) digits. -/
def pyIsdigitStr (s : String) : Bool := !s.data.isEmpty && s.data.all Char.isDigit

/-- Python `line and line[0].isdigit()`. -/
def firstCharDigit (s : String) : Bool :=
  match s.data with
  | [] => false
  | c :: _ => c.isDigit

-- ------------------------------------------------------------------
-- Numeric tokens: Python str(int) / int() / repr(float) / float()
-- ------------------------------------------------------------------

/-- The ASCII character of the decimal digit `d`. -/
def digitChar (d : ℕ) : Char := Char.ofNat (48 + d)

/-- Value of an ASCII digit character. -/
def charVal (c : Char) : ℕ := c.toNat - 48

/-- Base-10 digit extraction (least significant first), fuel-indexed so
that it computes by structural recursion; `natDigits n` below supplies
fuel `n`, which suffices since the argument shrinks by a factor 10 each
step. -/
def natDigitsAux : ℕ → ℕ → List ℕ
  | 0, _ => []
  | _ + 1, 0 => []
  | fuel + 1, n + 1 => ((n + 1) % 10) :: natDigitsAux fuel ((n + 1) / 10)

/-- The base-10 digits of `n`, least significant first (as
`Nat.digits 10 n`). -/
def natDigits (n : ℕ) : List ℕ := natDigitsAux n n

/-- The decimal numeral of `n` (most significant digit first). -/
def natToChars (n : ℕ) : List Char :=
  if n = 0 then ['0'] else ((natDigits n).map digitChar).reverse

/-- Python `str` of a natural number. -/
def natToStr (n : ℕ) : String := ⟨natToChars n⟩

/-- Python `str` of an integer. -/
def intToStr (z : ℤ) : String :=
  if z < 0 then "-" ++ natToStr z.natAbs else natToStr z.natAbs

/-- Value of a digit run (most significant first). -/
def parseNatChars (cs : List Char) : ℕ :=
  cs.foldl (fun a c => 10 * a + charVal c) 0

/-- Python `int(token)` (base 10, optional sign; a failure raises
`ValueError`, modelled as `none`). -/
def pyInt? (s : String) : Option ℤ :=
  match s.data with
  | [] => none
  | c :: cs =>
    if c = '-' then
      if !cs.isEmpty && cs.all Char.isDigit then
        some (-(parseNatChars cs : ℤ))
      else none
    else if c = '+' then
      if !cs.isEmpty && cs.all Char.isDigit then
        some ((parseNatChars cs : ℤ))
      else none
    else if (c :: cs).all Char.isDigit then
      some ((parseNatChars (c :: cs) : ℤ))
    else none

/-- The rational has a finite decimal expansion, i.e. its denominator
has only the prime factors 2 and 5 (equivalently `den ∣ 10 ^ den`).
Every IEEE-754 double is dyadic, hence satisfies this; it guarantees
that the scientific rendering below is exact. -/
def IsDec (q : ℚ) : Prop := q.den ∣ 10 ^ q.den

instance (q : ℚ) : Decidable (IsDec q) :=
  inferInstanceAs (Decidable (_ ∣ _))

/-- `10 ^ q.den / q.den` — for a decimal rational, the exact integer
scaling factor turning `q` into the mantissa `q.num * decScale q` of
`q = mantissa · 10 ^ (-q.den)`. -/
def decScale (q : ℚ) : ℕ := 10 ^ q.den / q.den

/-- Python `repr` of a floating value, modelled as exact scientific
notation `<mantissa>e-<k>` with `k = q.den` scaling decimals (Python
emits a decimal or scientific literal; either reparses exactly, which is
the property the embedding preserves). -/
def ratStr (q : ℚ) : String :=
  intToStr (q.num * (decScale q : ℤ)) ++ "e-" ++ natToStr q.den

/-- Unsigned mantissa of a float literal, `digits[.digits]`, as the
numerator/fraction-digit-count pair (the value is `n / 10 ^ flen`). -/
def parseUMant? (cs : List Char) : Option (ℤ × ℕ) :=
  let ip := cs.takeWhile (fun c => c != '.')
  match cs.dropWhile (fun c => c != '.') with
  | [] =>
    if !ip.isEmpty && ip.all Char.isDigit then
      some ((parseNatChars ip : ℤ), 0)
    else none
  | _ :: fp =>
    if (ip.all Char.isDigit && fp.all Char.isDigit) &&
        (!ip.isEmpty || !fp.isEmpty) then
      some ((parseNatChars ip * 10 ^ fp.length + parseNatChars fp : ℤ),
        fp.length)
    else none

/-- Signed mantissa of a float literal. -/
def parseMant? (cs : List Char) : Option (ℤ × ℕ) :=
  match cs with
  | [] => none
  | c :: r =>
    if c = '-' then (parseUMant? r).map (fun v => (-v.1, v.2))
    else if c = '+' then parseUMant? r
    else parseUMant? (c :: r)

/-- Python `float(token)` for finite decimal/scientific literals
(`inf`/`nan` and underscores are not modelled; a failure raises
`ValueError`, modelled as `none`).  The value `n / 10 ^ flen · 10 ^ e`
is assembled with integer arithmetic and one final `mkRat`. -/
def strRat? (s : String) : Option ℚ :=
  let m := s.data.takeWhile (fun c => c != 'e')
  match s.data.dropWhile (fun c => c != 'e') with
  | [] => (parseMant? m).map (fun v => mkRat v.1 (10 ^ v.2))
  | _ :: es =>
    match parseMant? m, pyInt? ⟨es⟩ with
    | some v, some e =>
      let sc : ℤ := e - (v.2 : ℤ)
      some (if 0 ≤ sc then mkRat (v.1 * 10 ^ sc.toNat) 1
            else mkRat v.1 (10 ^ (-sc).toNat))
    | _, _ => none

-- ------------------------------------------------------------------
-- Geometry (GLI) data model (gli/tools.py with ogs5py.tools._types)
-- ------------------------------------------------------------------

/-- `Modelled from the spec:` the polyline record of `_types.EMPTY_PLY`
(the `_types` module is not part of the excerpt).  §3: "An identifier
(integer or absent), a name (string or absent), an ordered sequence of
point indices, and optional scalar attributes: EPSILON (float),
TYPE (int), MAT_GROUP (int), POINT_VECTOR (string).  Attributes default
to absent." -/
structure Ply where
  ID : Option ℤ := none
  NAME : Option String := none
  POINTS : Option (List ℤ) := none
  EPSILON : Option ℚ := none
  TYPE : Option ℤ := none
  MAT_GROUP : Option ℤ := none
  POINT_VECTOR : Option String := none
deriving Repr, DecidableEq

/-- `Modelled from the spec:` the surface record of `_types.EMPTY_SRF`.
§3: "Identifier, name, an ordered sequence of polyline name/identifier
references (strings), and optional attributes EPSILON, TYPE, MAT_GROUP,
TIN (string)." -/
structure Srf where
  ID : Option ℤ := none
  NAME : Option String := none
  POLYLINES : Option (List String) := none
  EPSILON : Option ℚ := none
  TYPE : Option ℤ := none
  MAT_GROUP : Option ℤ := none
  TIN : Option String := none
deriving Repr, DecidableEq

/-- `Modelled from the spec:` the volume record of `_types.EMPTY_VOL`.
§3: "Name, an ordered sequence of surface references (strings), and
optional attributes TYPE, MAT_GROUP, LAYER." -/
structure Vol where
  NAME : Option String := none
  SURFACES : Option (List String) := none
  TYPE : Option ℤ := none
  MAT_GROUP : Option ℤ := none
  LAYER : Option ℤ := none
deriving Repr, DecidableEq

/-- `Modelled from the spec:` the geometry document of
`_types.EMPTY_GLI` (§3): one point set — parallel coordinate / name /
material-density arrays — plus polyline, surface and volume lists.  A
point's unset material density (`-np.inf` in the source) is modelled as
`none`, the only reading of the sentinel in `ℚ`. -/
structure Gli where
  points : List (ℚ × ℚ × ℚ) := []
  point_names : List String := []
  point_md : List (Option ℚ) := []
  polylines : List Ply := []
  surfaces : List Srf := []
  volumes : List Vol := []
deriving Repr, DecidableEq

/-- `Modelled from the spec:` `_types.GLI_KEY_LIST`: the top-level
geometry keywords (§4.3 / §6). -/
def GLI_KEY_LIST : List String :=
  ["#POINTS", "#POLYLINE", "#SURFACE", "#VOLUME", "#STOP"]

/-- `Modelled from the spec:` `_types.PLY_KEY_LIST` (§3 field order of
the polyline record; writer emission order). -/
def PLY_KEY_LIST : List String :=
  ["ID", "NAME", "POINTS", "EPSILON", "TYPE", "MAT_GROUP", "POINT_VECTOR"]

/-- `Modelled from the spec:` `_types.SRF_KEY_LIST`. -/
def SRF_KEY_LIST : List String :=
  ["ID", "NAME", "POLYLINES", "EPSILON", "TYPE", "MAT_GROUP", "TIN"]

/-- `Modelled from the spec:` `_types.VOL_KEY_LIST`. -/
def VOL_KEY_LIST : List String :=
  ["NAME", "SURFACES", "TYPE", "MAT_GROUP", "LAYER"]

/-- The empty geometry document (`_types.EMPTY_GLI`). -/
def EMPTY_GLI : Gli := {}

/-- The empty polyline record (`_types.EMPTY_PLY`). -/
def EMPTY_PLY : Ply := {}

/-- The empty surface record (`_types.EMPTY_SRF`). -/
def EMPTY_SRF : Srf := {}

/-- The empty volume record (`_types.EMPTY_VOL`). -/
def EMPTY_VOL : Vol := {}

-- ------------------------------------------------------------------
-- Geometry (GLI) writer: save_ogs5gli (gli/tools.py)
-- ------------------------------------------------------------------

/-- One `#POINTS` record line of `save_ogs5gli`:
`"{} {} {} {}{}{}".format(pnt_i, x, y, z, name, pnt_md)` with
`name = " $NAME <name>"` when the name is non-empty and
`pnt_md = " $MD <value>"` when the density is set (`≠ -inf`). -/
def point_line (pnt_i : ℕ) (pnt : ℚ × ℚ × ℚ) (name : String)
    (md : Option ℚ) : String :=
  let nm := if name ≠ "" then " $NAME " ++ name else ""
  let mds :=
    match md with
    | Option.none => ""
    | Option.some v => " $MD " ++ ratStr v
  natToStr pnt_i ++ " " ++ ratStr pnt.1 ++ " " ++ ratStr pnt.2.1 ++ " " ++
    ratStr pnt.2.2 ++ nm ++ mds

/-- The lines `save_ogs5gli` emits for one polyline sub-keyword, in
`PLY_KEY_LIST` order: `" $KEY"` then the value line(s); `POINTS` is
special-cased to one index per line; an absent (`None`) value emits
nothing. -/
def ply_key_lines (ply : Ply) (key : String) : List String :=
  if key = "ID" then
    match ply.ID with
    | Option.some v => [" $ID", "  " ++ intToStr v]
    | Option.none => []
  else if key = "NAME" then
    match ply.NAME with
    | Option.some v => [" $NAME", "  " ++ v]
    | Option.none => []
  else if key = "POINTS" then
    match ply.POINTS with
    | Option.some pts => [" $POINTS"] ++ pts.map (fun p => "  " ++ intToStr p)
    | Option.none => []
  else if key = "EPSILON" then
    match ply.EPSILON with
    | Option.some v => [" $EPSILON", "  " ++ ratStr v]
    | Option.none => []
  else if key = "TYPE" then
    match ply.TYPE with
    | Option.some v => [" $TYPE", "  " ++ intToStr v]
    | Option.none => []
  else if key = "MAT_GROUP" then
    match ply.MAT_GROUP with
    | Option.some v => [" $MAT_GROUP", "  " ++ intToStr v]
    | Option.none => []
  else if key = "POINT_VECTOR" then
    match ply.POINT_VECTOR with
    | Option.some v => [" $POINT_VECTOR", "  " ++ v]
    | Option.none => []
  else []

/-- The `#POLYLINE` block emitted for one polyline. -/
def ply_lines (ply : Ply) : List String :=
  ["#POLYLINE"] ++ PLY_KEY_LIST.flatMap (ply_key_lines ply)

/-- The lines `save_ogs5gli` emits for one surface sub-keyword
(`POLYLINES` special-cased to one reference per line). -/
def srf_key_lines (srf : Srf) (key : String) : List String :=
  if key = "ID" then
    match srf.ID with
    | Option.some v => [" $ID", "  " ++ intToStr v]
    | Option.none => []
  else if key = "NAME" then
    match srf.NAME with
    | Option.some v => [" $NAME", "  " ++ v]
    | Option.none => []
  else if key = "POLYLINES" then
    match srf.POLYLINES with
    | Option.some ps => [" $POLYLINES"] ++ ps.map (fun p => "  " ++ p)
    | Option.none => []
  else if key = "EPSILON" then
    match srf.EPSILON with
    | Option.some v => [" $EPSILON", "  " ++ ratStr v]
    | Option.none => []
  else if key = "TYPE" then
    match srf.TYPE with
    | Option.some v => [" $TYPE", "  " ++ intToStr v]
    | Option.none => []
  else if key = "MAT_GROUP" then
    match srf.MAT_GROUP with
    | Option.some v => [" $MAT_GROUP", "  " ++ intToStr v]
    | Option.none => []
  else if key = "TIN" then
    match srf.TIN with
    | Option.some v => [" $TIN", "  " ++ v]
    | Option.none => []
  else []

/-- The `#SURFACE` block emitted for one surface. -/
def srf_lines (srf : Srf) : List String :=
  ["#SURFACE"] ++ SRF_KEY_LIST.flatMap (srf_key_lines srf)

/-- The lines `save_ogs5gli` emits for one volume sub-keyword
(`SURFACES` special-cased to one reference per line). -/
def vol_key_lines (vol : Vol) (key : String) : List String :=
  if key = "NAME" then
    match vol.NAME with
    | Option.some v => [" $NAME", "  " ++ v]
    | Option.none => []
  else if key = "SURFACES" then
    match vol.SURFACES with
    | Option.some ss => [" $SURFACES"] ++ ss.map (fun s => "  " ++ s)
    | Option.none => []
  else if key = "TYPE" then
    match vol.TYPE with
    | Option.some v => [" $TYPE", "  " ++ intToStr v]
    | Option.none => []
  else if key = "MAT_GROUP" then
    match vol.MAT_GROUP with
    | Option.some v => [" $MAT_GROUP", "  " ++ intToStr v]
    | Option.none => []
  else if key = "LAYER" then
    match vol.LAYER with
    | Option.some v => [" $LAYER", "  " ++ intToStr v]
    | Option.none => []
  else []

/-- The `#VOLUME` block emitted for one volume. -/
def vol_lines (vol : Vol) : List String :=
  ["#VOLUME"] ++ VOL_KEY_LIST.flatMap (vol_key_lines vol)

/-- `save_ogs5gli` (gli/tools.py) as the list of emitted lines: optional
non-empty top comment, `#POINTS` with one line per point, the polyline /
surface / volume blocks in list order, and the terminal `#STOP` (emitted
with no trailing newline). -/
def save_ogs5gli (gli : Gli) (top_com : Option String) : List String :=
  (match top_com with
   | Option.some c => if c ≠ "" then [c] else []
   | Option.none => []) ++
  ["#POINTS"] ++
  (List.range gli.points.length).map (fun i =>
    point_line i (gli.points.getD i (0, 0, 0)) (gli.point_names.getD i "")
      (gli.point_md.getD i none)) ++
  gli.polylines.flatMap ply_lines ++
  gli.surfaces.flatMap srf_lines ++
  gli.volumes.flatMap vol_lines ++
  ["#STOP"]

-- ------------------------------------------------------------------
-- Geometry (GLI) reader: load_ogs5gli (gli/tools.py)
-- ------------------------------------------------------------------

/-- Outcomes of `load_ogs5gli` other than a parsed document.
`eof` is the reader's `EOFError("reached end of file... unexpected")`;
`unknown` is `ValueError("file contains unknown infos: ...")`;
`exc` covers `ValueError`/`IndexError` raised while converting a value
(`int()` / `float()` / `split()[0]`); `hang` marks inputs on which the
source loops forever (once `readline` keeps returning `""` inside a
section body, no branch of the inner `while` can exit).  `fuelOut` is an
artifact of the fuel-indexed presentation of the loops below; the fuel
supplied by `load_ogs5gli` always suffices, every loop iteration
consuming at least one input line. -/
inductive GliErr
  | eof
  | unknown (line : String)
  | exc
  | hang
  | fuelOut
deriving Repr, DecidableEq

/-- Equality of `Except` results is decidable (used to evaluate the
reader on concrete inputs). -/
instance {ε α : Type*} [DecidableEq ε] [DecidableEq α] :
    DecidableEq (Except ε α) := fun x y =>
  match x, y with
  | Except.ok a, Except.ok b =>
    if h : a = b then isTrue (by rw [h])
    else isFalse (by intro hc; injection hc; exact h (by assumption))
  | Except.error a, Except.error b =>
    if h : a = b then isTrue (by rw [h])
    else isFalse (by intro hc; injection hc; exact h (by assumption))
  | Except.ok _, Except.error _ => isFalse (by intro hc; injection hc)
  | Except.error _, Except.ok _ => isFalse (by intro hc; injection hc)

/-- One `#POINTS` record: `index x y z [$NAME name] [$MD value]`.
Tokens 1..3 are parsed as floats (a shape/parse failure raises,
modelled `none`); `$NAME`/`$MD` take the following token. -/
def parse_point_line (line : String) :
    Option ((ℚ × ℚ × ℚ) × String × Option ℚ) := do
  let ln_splt := pySplit line
  let coords ←
    match (ln_splt.drop 1).take 3 with
    | [xs, ys, zs] => do
      let x ← strRat? xs
      let y ← strRat? ys
      let z ← strRat? zs
      pure (x, y, z)
    | _ => none
  let name ←
    if "$NAME" ∈ ln_splt then ln_splt[firstIdx ln_splt "$NAME" + 1]?
    else pure ""
  let md ←
    if "$MD" ∈ ln_splt then do
      let t ← ln_splt[firstIdx ln_splt "$MD" + 1]?
      let v ← strRat? t
      pure (Option.some v)
    else pure Option.none
  pure (coords, name, md)

/-- The `#POINTS` record loop: consume stripped lines while
`line and line[0].isdigit()`, returning the records, the lookahead line,
and the number of consumed lines (the unconsumed remainder of `rest` is
`rest.drop count`; `readline` at end of file yields `""`). -/
def read_points (line : String) (rest : List String) :
    Except GliErr ((List ((ℚ × ℚ × ℚ) × String × Option ℚ) × String) × ℕ) :=
  if firstCharDigit line then
    match parse_point_line line with
    | Option.none => Except.error GliErr.exc
    | Option.some pr =>
      match rest with
      | [] => Except.ok (([pr], ""), 0)
      | l :: ls =>
        match read_points (pyStrip l) ls with
        | Except.error e => Except.error e
        | Except.ok ((prs, line'), k) => Except.ok ((pr :: prs, line'), k + 1)
  else Except.ok (([], line), 0)

/-- The `$POINTS` integer run of a `#POLYLINE` block: consume stripped
lines while `line and line.split()[0].isdigit()`, collecting
`int(line.split()[0])` (which cannot fail on an all-digit token); also
returns the consumed-line count. -/
def read_int_run (line : String) (rest : List String) :
    (List ℤ × String) × ℕ :=
  if line ≠ "" ∧ pyIsdigitStr ((pySplit line).headD "") then
    let v : ℤ := (parseNatChars ((pySplit line).headD "").data : ℤ)
    match rest with
    | [] => (([v], ""), 0)
    | l :: ls =>
      match read_int_run (pyStrip l) ls with
      | ((vs, line'), k) => ((v :: vs, line'), k + 1)
  else (([], line), 0)

/-- The `$POLYLINES`/`$SURFACES` reference run: consume stripped lines
while `line` is non-empty and not a keyword of `keys`, collecting
`str(line.split()[0])` (the head token exists: the line is stripped and
non-empty); also returns the consumed-line count. -/
def read_str_run (keys : List String) (line : String) (rest : List String) :
    (List String × String) × ℕ :=
  if line ≠ "" ∧ line ∉ keys then
    let tok := (pySplit line).headD ""
    match rest with
    | [] => (([tok], ""), 0)
    | l :: ls =>
      match read_str_run keys (pyStrip l) ls with
      | ((ts, line'), k) => ((tok :: ts, line'), k + 1)
  else (([], line), 0)

/-- The keyword set terminating the special runs of a `#POLYLINE` block:
`GLI_KEY_LIST + ["$" + k for k in PLY_KEY_LIST]`. -/
def ply_exit_keys : List String :=
  GLI_KEY_LIST ++ PLY_KEY_LIST.map (fun k => "$" ++ k)

/-- `GLI_KEY_LIST + ["$" + k for k in SRF_KEY_LIST]`. -/
def srf_exit_keys : List String :=
  GLI_KEY_LIST ++ SRF_KEY_LIST.map (fun k => "$" ++ k)

/-- `GLI_KEY_LIST + ["$" + k for k in VOL_KEY_LIST]`. -/
def vol_exit_keys : List String :=
  GLI_KEY_LIST ++ VOL_KEY_LIST.map (fun k => "$" ++ k)

/-- `ply[key] = PLY_TYPES[...](value_line.split()[0])` — the typed
single-value assignment of the polyline loop (types per §3: ID/TYPE/
MAT_GROUP int, EPSILON float, NAME/POINT_VECTOR str). -/
def parse_ply_val (ply : Ply) (key : String) (vline : String) : Option Ply :=
  match pySplit vline with
  | [] => none
  | tok :: _ =>
    if key = "ID" then (pyInt? tok).map (fun v => { ply with ID := some v })
    else if key = "NAME" then some { ply with NAME := some tok }
    else if key = "EPSILON" then
      (strRat? tok).map (fun v => { ply with EPSILON := some v })
    else if key = "TYPE" then (pyInt? tok).map (fun v => { ply with TYPE := some v })
    else if key = "MAT_GROUP" then
      (pyInt? tok).map (fun v => { ply with MAT_GROUP := some v })
    else if key = "POINT_VECTOR" then some { ply with POINT_VECTOR := some tok }
    else none

/-- Typed single-value assignment of the surface loop. -/
def parse_srf_val (srf : Srf) (key : String) (vline : String) : Option Srf :=
  match pySplit vline with
  | [] => none
  | tok :: _ =>
    if key = "ID" then (pyInt? tok).map (fun v => { srf with ID := some v })
    else if key = "NAME" then some { srf with NAME := some tok }
    else if key = "EPSILON" then
      (strRat? tok).map (fun v => { srf with EPSILON := some v })
    else if key = "TYPE" then (pyInt? tok).map (fun v => { srf with TYPE := some v })
    else if key = "MAT_GROUP" then
      (pyInt? tok).map (fun v => { srf with MAT_GROUP := some v })
    else if key = "TIN" then some { srf with TIN := some tok }
    else none

/-- Typed single-value assignment of the volume loop. -/
def parse_vol_val (vol : Vol) (key : String) (vline : String) : Option Vol :=
  match pySplit vline with
  | [] => none
  | tok :: _ =>
    if key = "NAME" then some { vol with NAME := some tok }
    else if key = "TYPE" then (pyInt? tok).map (fun v => { vol with TYPE := some v })
    else if key = "MAT_GROUP" then
      (pyInt? tok).map (fun v => { vol with MAT_GROUP := some v })
    else if key = "LAYER" then (pyInt? tok).map (fun v => { vol with LAYER := some v })
    else none

/-- The `#POLYLINE` sub-keyword loop: runs until the current line starts
with a top-level keyword.  `$POINTS` consumes an integer run (the
triggering line is re-examined when it is an exit keyword); other known
sub-keywords consume the next raw line as their typed value; unknown
lines are skipped.  Reading past the end of file inside this loop makes
the source loop forever (`hang`: once `readline` keeps returning `""`,
no branch can exit).  Besides the record and the lookahead line, the
consumed-line count is returned (the remainder of `rest` is
`rest.drop count`).  The loop is fuel-indexed; each iteration consumes
at least one line, so fuel `rest.length + 1` suffices. -/
def read_ply_sec : ℕ → Ply → String → List String →
    Except GliErr ((Ply × String) × ℕ)
  | 0, _, _, _ => Except.error GliErr.fuelOut
  | fuel + 1, ply, line, rest =>
    if GLI_KEY_LIST.any (fun key => pyStartsWith line key) then
      Except.ok ((ply, line), 0)
    else if pyDrop1 line ∈ PLY_KEY_LIST then
      if pyDrop1 line = "POINTS" then
        match rest with
        | [] => Except.error GliErr.hang
        | l0 :: r0 =>
          match read_int_run (pyStrip l0) r0 with
          | ((pts, line'), k1) =>
            if line' ∈ ply_exit_keys then
              match read_ply_sec fuel { ply with POINTS := some pts } line'
                  (r0.drop k1) with
              | Except.error e => Except.error e
              | Except.ok ((p, l), k2) => Except.ok ((p, l), 1 + k1 + k2)
            else
              match r0.drop k1 with
              | [] => Except.error GliErr.hang
              | l2 :: r2 =>
                match read_ply_sec fuel { ply with POINTS := some pts }
                    (pyStrip l2) r2 with
                | Except.error e => Except.error e
                | Except.ok ((p, l), k3) => Except.ok ((p, l), 1 + k1 + 1 + k3)
      else
        match rest with
        | [] => Except.error GliErr.exc
        | vl :: r1 =>
          match parse_ply_val ply (pyDrop1 line) vl with
          | Option.none => Except.error GliErr.exc
          | Option.some ply' =>
            match r1 with
            | [] => Except.error GliErr.hang
            | l2 :: r2 =>
              match read_ply_sec fuel ply' (pyStrip l2) r2 with
              | Except.error e => Except.error e
              | Except.ok ((p, l), k3) => Except.ok ((p, l), 2 + k3)
    else
      match rest with
      | [] => Except.error GliErr.hang
      | l2 :: r2 =>
        match read_ply_sec fuel ply (pyStrip l2) r2 with
        | Except.error e => Except.error e
        | Except.ok ((p, l), k3) => Except.ok ((p, l), 1 + k3)

/-- The `#SURFACE` sub-keyword loop (`$POLYLINES` consumes a reference
run terminated by `srf_exit_keys`). -/
def read_srf_sec : ℕ → Srf → String → List String →
    Except GliErr ((Srf × String) × ℕ)
  | 0, _, _, _ => Except.error GliErr.fuelOut
  | fuel + 1, srf, line, rest =>
    if GLI_KEY_LIST.any (fun key => pyStartsWith line key) then
      Except.ok ((srf, line), 0)
    else if pyDrop1 line ∈ SRF_KEY_LIST then
      if pyDrop1 line = "POLYLINES" then
        match rest with
        | [] => Except.error GliErr.hang
        | l0 :: r0 =>
          match read_str_run srf_exit_keys (pyStrip l0) r0 with
          | ((ps, line'), k1) =>
            if line' ∈ srf_exit_keys then
              match read_srf_sec fuel { srf with POLYLINES := some ps } line'
                  (r0.drop k1) with
              | Except.error e => Except.error e
              | Except.ok ((p, l), k2) => Except.ok ((p, l), 1 + k1 + k2)
            else
              match r0.drop k1 with
              | [] => Except.error GliErr.hang
              | l2 :: r2 =>
                match read_srf_sec fuel { srf with POLYLINES := some ps }
                    (pyStrip l2) r2 with
                | Except.error e => Except.error e
                | Except.ok ((p, l), k3) => Except.ok ((p, l), 1 + k1 + 1 + k3)
      else
        match rest with
        | [] => Except.error GliErr.exc
        | vl :: r1 =>
          match parse_srf_val srf (pyDrop1 line) vl with
          | Option.none => Except.error GliErr.exc
          | Option.some srf' =>
            match r1 with
            | [] => Except.error GliErr.hang
            | l2 :: r2 =>
              match read_srf_sec fuel srf' (pyStrip l2) r2 with
              | Except.error e => Except.error e
              | Except.ok ((p, l), k3) => Except.ok ((p, l), 2 + k3)
    else
      match rest with
      | [] => Except.error GliErr.hang
      | l2 :: r2 =>
        match read_srf_sec fuel srf (pyStrip l2) r2 with
        | Except.error e => Except.error e
        | Except.ok ((p, l), k3) => Except.ok ((p, l), 1 + k3)

/-- The `#VOLUME` sub-keyword loop (`$SURFACES` consumes a reference run
terminated by `vol_exit_keys`). -/
def read_vol_sec : ℕ → Vol → String → List String →
    Except GliErr ((Vol × String) × ℕ)
  | 0, _, _, _ => Except.error GliErr.fuelOut
  | fuel + 1, vol, line, rest =>
    if GLI_KEY_LIST.any (fun key => pyStartsWith line key) then
      Except.ok ((vol, line), 0)
    else if pyDrop1 line ∈ VOL_KEY_LIST then
      if pyDrop1 line = "SURFACES" then
        match rest with
        | [] => Except.error GliErr.hang
        | l0 :: r0 =>
          match read_str_run vol_exit_keys (pyStrip l0) r0 with
          | ((ss, line'), k1) =>
            if line' ∈ vol_exit_keys then
              match read_vol_sec fuel { vol with SURFACES := some ss } line'
                  (r0.drop k1) with
              | Except.error e => Except.error e
              | Except.ok ((p, l), k2) => Except.ok ((p, l), 1 + k1 + k2)
            else
              match r0.drop k1 with
              | [] => Except.error GliErr.hang
              | l2 :: r2 =>
                match read_vol_sec fuel { vol with SURFACES := some ss }
                    (pyStrip l2) r2 with
                | Except.error e => Except.error e
                | Except.ok ((p, l), k3) => Except.ok ((p, l), 1 + k1 + 1 + k3)
      else
        match rest with
        | [] => Except.error GliErr.exc
        | vl :: r1 =>
          match parse_vol_val vol (pyDrop1 line) vl with
          | Option.none => Except.error GliErr.exc
          | Option.some vol' =>
            match r1 with
            | [] => Except.error GliErr.hang
            | l2 :: r2 =>
              match read_vol_sec fuel vol' (pyStrip l2) r2 with
              | Except.error e => Except.error e
              | Except.ok ((p, l), k3) => Except.ok ((p, l), 2 + k3)
    else
      match rest with
      | [] => Except.error GliErr.hang
      | l2 :: r2 =>
        match read_vol_sec fuel vol (pyStrip l2) r2 with
        | Except.error e => Except.error e
        | Except.ok ((p, l), k3) => Except.ok ((p, l), 1 + k3)

/-- The top-level reading loop of `load_ogs5gli`: at each iteration the
source first peeks one line ahead and raises `EOFError` if the input is
exhausted while the current line is not `#STOP`; it then skips blank
lines, dispatches on the recognised section keywords (each `#POINTS`
section *assigns* the three point arrays, each block section *appends*
one record), stops at `#STOP`, and raises `ValueError` on any other
non-blank line. -/
def load_gli_loop : ℕ → Gli → String → List String → Except GliErr Gli
  | 0, _, _, _ => Except.error GliErr.fuelOut
  | fuel + 1, out, line, rest =>
    if rest.isEmpty && !pyStartsWith line "#STOP" then Except.error GliErr.eof
    else if line = "" then
      match rest with
      | [] => Except.error GliErr.eof
      | l :: ls => load_gli_loop fuel out (pyStrip l) ls
    else if pyStartsWith line "#POINTS" then
      match rest with
      | [] => Except.error GliErr.eof
      | l0 :: r0 =>
        match read_points (pyStrip l0) r0 with
        | Except.error e => Except.error e
        | Except.ok ((prs, line'), k) =>
          load_gli_loop fuel { out with
            points := prs.map (fun p => p.1),
            point_names := prs.map (fun p => p.2.1),
            point_md := prs.map (fun p => p.2.2) } line' (r0.drop k)
    else if pyStartsWith line "#POLYLINE" then
      match rest with
      | [] => Except.error GliErr.eof
      | l0 :: r0 =>
        match read_ply_sec (r0.length + 1) EMPTY_PLY (pyStrip l0) r0 with
        | Except.error e => Except.error e
        | Except.ok ((ply, line'), k) =>
          load_gli_loop fuel { out with polylines := out.polylines ++ [ply] }
            line' (r0.drop k)
    else if pyStartsWith line "#SURFACE" then
      match rest with
      | [] => Except.error GliErr.eof
      | l0 :: r0 =>
        match read_srf_sec (r0.length + 1) EMPTY_SRF (pyStrip l0) r0 with
        | Except.error e => Except.error e
        | Except.ok ((srf, line'), k) =>
          load_gli_loop fuel { out with surfaces := out.surfaces ++ [srf] }
            line' (r0.drop k)
    else if pyStartsWith line "#VOLUME" then
      match rest with
      | [] => Except.error GliErr.eof
      | l0 :: r0 =>
        match read_vol_sec (r0.length + 1) EMPTY_VOL (pyStrip l0) r0 with
        | Except.error e => Except.error e
        | Except.ok ((vol, line'), k) =>
          load_gli_loop fuel { out with volumes := out.volumes ++ [vol] }
            line' (r0.drop k)
    else if pyStartsWith line "#STOP" then Except.ok out
    else Except.error (GliErr.unknown line)

/-- `load_ogs5gli` (gli/tools.py) on the file's lines: strip the first
line and run the reading loop on an empty document.  Every loop
iteration past the first consumes at least one line, so fuel
`lines.length + 1` never runs out (no `fuelOut` result). -/
def load_ogs5gli (lines : List String) : Except GliErr Gli :=
  match lines with
  | [] => load_gli_loop 1 EMPTY_GLI "" []
  | l :: ls => load_gli_loop (ls.length + 1) EMPTY_GLI (pyStrip l) ls

-- ------------------------------------------------------------------
-- Round-trip analysis: blank-separated token lines and the reader
-- state accumulated over the writer's key blocks
-- ------------------------------------------------------------------

/-- Blank-separated continuation: each token of `ts` is emitted behind
one separating blank (the writer joins tokens by single blanks). -/
def spaced (ts : List (List Char)) : List Char :=
  ts.flatMap (fun u => ' ' :: u)

/-- A whitespace-free non-empty token: the writer emits it as (part of)
a line and the reader recovers it unchanged via `strip()`/`split()`. -/
def wfTok (s : String) : Bool :=
  !s.data.isEmpty && s.data.all (fun c => !c.isWhitespace)

/-- An optional string field is a clean token when present. -/
def wfOptTok : Option String → Bool
  | Option.none => true
  | Option.some v => wfTok v

/-- An optional rational field has a finite decimal expansion when
present (every IEEE-754 double does). -/
def wfOptDec : Option ℚ → Bool
  | Option.none => true
  | Option.some q => decide (IsDec q)

/-- Round-trippable polyline record: string fields are clean tokens,
`EPSILON` is a decimal rational, and the point indices are non-negative
(the reader's `isdigit()` run does not recognise the `-` sign that
`str()` emits for a negative index). -/
def wfPly (p : Ply) : Bool :=
  wfOptTok p.NAME && wfOptTok p.POINT_VECTOR && wfOptDec p.EPSILON &&
    (match p.POINTS with
     | Option.none => true
     | Option.some pts => pts.all (fun x => decide (0 ≤ x)))

/-- Round-trippable surface record: additionally no polyline reference
may collide with a keyword terminating the reader's reference run. -/
def wfSrf (s : Srf) : Bool :=
  wfOptTok s.NAME && wfOptTok s.TIN && wfOptDec s.EPSILON &&
    (match s.POLYLINES with
     | Option.none => true
     | Option.some ps =>
       ps.all (fun r => wfTok r && decide (r ∉ srf_exit_keys)))

/-- Round-trippable volume record. -/
def wfVol (v : Vol) : Bool :=
  wfOptTok v.NAME &&
    (match v.SURFACES with
     | Option.none => true
     | Option.some ss =>
       ss.all (fun r => wfTok r && decide (r ∉ vol_exit_keys)))

/-- Round-trippable point name: empty (the suffix is omitted) or a
clean token other than the `$MD` marker. -/
def wfPointName (n : String) : Bool :=
  decide (n = "") || (wfTok n && decide (n ≠ "$MD"))

/-- Round-trippable geometry document: parallel point arrays of equal
length, decimal coordinates/densities, and round-trippable records. -/
def wfGli (g : Gli) : Bool :=
  decide (g.point_names.length = g.points.length) &&
  decide (g.point_md.length = g.points.length) &&
  g.points.all (fun p =>
    decide (IsDec p.1) && decide (IsDec p.2.1) && decide (IsDec p.2.2)) &&
  g.point_names.all wfPointName &&
  g.point_md.all wfOptDec &&
  g.polylines.all wfPly && g.surfaces.all wfSrf && g.volumes.all wfVol

/-- The polyline the reader's sub-keyword loop has accumulated after
processing the writer's lines for `keys`: each present field of `ply`
is assigned over `acc` in key order. -/
def mergePly (acc ply : Ply) (keys : List String) : Ply :=
  keys.foldl (fun a k =>
    if k = "ID" then
      match ply.ID with
      | Option.some v => { a with ID := some v }
      | Option.none => a
    else if k = "NAME" then
      match ply.NAME with
      | Option.some v => { a with NAME := some v }
      | Option.none => a
    else if k = "POINTS" then
      match ply.POINTS with
      | Option.some v => { a with POINTS := some v }
      | Option.none => a
    else if k = "EPSILON" then
      match ply.EPSILON with
      | Option.some v => { a with EPSILON := some v }
      | Option.none => a
    else if k = "TYPE" then
      match ply.TYPE with
      | Option.some v => { a with TYPE := some v }
      | Option.none => a
    else if k = "MAT_GROUP" then
      match ply.MAT_GROUP with
      | Option.some v => { a with MAT_GROUP := some v }
      | Option.none => a
    else if k = "POINT_VECTOR" then
      match ply.POINT_VECTOR with
      | Option.some v => { a with POINT_VECTOR := some v }
      | Option.none => a
    else a) acc

/-- The surface accumulated over the writer's key blocks. -/
def mergeSrf (acc srf : Srf) (keys : List String) : Srf :=
  keys.foldl (fun a k =>
    if k = "ID" then
      match srf.ID with
      | Option.some v => { a with ID := some v }
      | Option.none => a
    else if k = "NAME" then
      match srf.NAME with
      | Option.some v => { a with NAME := some v }
      | Option.none => a
    else if k = "POLYLINES" then
      match srf.POLYLINES with
      | Option.some v => { a with POLYLINES := some v }
      | Option.none => a
    else if k = "EPSILON" then
      match srf.EPSILON with
      | Option.some v => { a with EPSILON := some v }
      | Option.none => a
    else if k = "TYPE" then
      match srf.TYPE with
      | Option.some v => { a with TYPE := some v }
      | Option.none => a
    else if k = "MAT_GROUP" then
      match srf.MAT_GROUP with
      | Option.some v => { a with MAT_GROUP := some v }
      | Option.none => a
    else if k = "TIN" then
      match srf.TIN with
      | Option.some v => { a with TIN := some v }
      | Option.none => a
    else a) acc

/-- The volume accumulated over the writer's key blocks. -/
def mergeVol (acc vol : Vol) (keys : List String) : Vol :=
  keys.foldl (fun a k =>
    if k = "NAME" then
      match vol.NAME with
      | Option.some v => { a with NAME := some v }
      | Option.none => a
    else if k = "SURFACES" then
      match vol.SURFACES with
      | Option.some v => { a with SURFACES := some v }
      | Option.none => a
    else if k = "TYPE" then
      match vol.TYPE with
      | Option.some v => { a with TYPE := some v }
      | Option.none => a
    else if k = "MAT_GROUP" then
      match vol.MAT_GROUP with
      | Option.some v => { a with MAT_GROUP := some v }
      | Option.none => a
    else if k = "LAYER" then
      match vol.LAYER with
      | Option.some v => { a with LAYER := some v }
      | Option.none => a
    else a) acc

/-- The `#POINTS` record lines the writer emits from index `i0` on: one
`point_line` per point, walking the three parallel arrays (equal to the
writer's `range`-indexed emission when the arrays have equal length). -/
def pointLinesFrom : ℕ → List (ℚ × ℚ × ℚ) → List String → List (Option ℚ) →
    List String
  | _, [], _, _ => []
  | i, p :: ps, nms, mds =>
    point_line i p (nms.headD "") (mds.headD none) ::
      pointLinesFrom (i + 1) ps nms.tail mds.tail

/-- A fully-populated geometry document (every optional field present)
used to evaluate the writer/reader round-trip on a concrete input. -/
def gtest_gli : Gli :=
  Gli.mk [(mkRat 1 2, -3, 0), (0, mkRat 5 4, mkRat (-7) 2)] ["p1", ""]
    [some (mkRat 1 4), none]
    [Ply.mk (some 7) (some "ply") (some [0, 1]) (some (mkRat 1 2)) (some (-1))
      (some 3) (some "pv")]
    [Srf.mk (some 1) (some "srf") (some ["ply"]) (some 2) (some 0) (some 2)
      (some "tin")]
    [Vol.mk (some "vol") (some ["srf"]) (some 1) (some 0) (some 2)]

-- ------------------------------------------------------------------
-- Simulator-executable downloader (tools/download.py)
-- ------------------------------------------------------------------

/-- Python `str.endswith`, computed on the underlying character lists. -/
def pyEndsWith (s suf : String) : Bool := suf.data.isSuffixOf s.data

/-- The fixed `URLS` table of download.py:
`{version → {operating system → URL}}`; "5.8"/"Darwin" has no entry. -/
def URLS (version system : String) : Option String :=
  if version = "5.7" then
    if system = "Linux" then
      some ("https://ogsstorage.blob.core.windows.net/binaries/ogs5/" ++
        "ogs-5.7.0-Linux-2.6.32-573.8.1.el6.x86_64-x64.tar.gz")
    else if system = "Windows" then
      some ("https://ogsstorage.blob.core.windows.net/binaries/ogs5/" ++
        "ogs-5.7.0-Windows-6.1.7601-x64.zip")
    else if system = "Darwin" then
      some ("https://ogsstorage.blob.core.windows.net/binaries/ogs5/" ++
        "ogs-5.7.0-Darwin-15.2.0-x64.tar.gz")
    else none
  else if version = "5.8" then
    if system = "Linux" then
      some ("https://ogsstorage.blob.core.windows.net/binaries/ogs5/" ++
        "ogs-5.8-Linux-2.6.32-754.3.5.el6.x86_64-x64.tar.gz")
    else if system = "Windows" then
      some ("https://ogsstorage.blob.core.windows.net/binaries/ogs5/" ++
        "ogs-5.8-Windows-x64.zip")
    else none
  else none

/-- The pure prefix of `download_ogs` (tools/download.py) up to — and not
including — the network fetch: `URLS[version][system]` is looked up first
(a missing combination raises `KeyError` here, so no fetch is attempted),
then the archive extension is derived from the URL suffix and the default
binary name is `"ogs.exe"` on Windows and `"ogs"` otherwise.
Returns `(url, ext, name)`. -/
def download_ogs_resolve (version system : String) (name : Option String) :
    Except String (String × String × String) :=
  match URLS version system with
  | Option.none => Except.error ("KeyError: " ++ version ++ "/" ++ system)
  | Option.some ogs_url =>
    let ext := if pyEndsWith ogs_url ".tar.gz" then ".tar.gz" else ".zip"
    let nm :=
      match name with
      | Option.none => if system = "Windows" then "ogs" ++ ".exe" else "ogs"
      | Option.some n => n
    Except.ok (ogs_url, ext, nm)

-- ====================================================================
-- THEOREMS
-- ====================================================================

/-- C3 (counterexample): the claim "`RFR.is_empty` is false only when
`N ≥ 1`" fails on the code: for the empty 1-D array (`N = 0`) the shape is
`(0,)`, so `bool(shape) and shape[0] > 0` is `False` — yet `0 ≥ 1` fails. -/
theorem rfr_is_empty_claim_false :
    ¬ (∀ data : List ℚ, rfr_is_empty data = false → 1 ≤ data.length) := by
  intro h
  exact absurd (h [] (by decide)) (by decide)

/-- C3 (amended): for the Restart-data class holding a 1-D array of `N`
node values, `is_empty` is **true** exactly when `N ≥ 1` (so for `N = 0`
it is false): the shape `(N,)` is a non-empty tuple, hence the predicate
reduces to `N > 0`. -/
theorem rfr_is_empty_iff (data : List ℚ) :
    rfr_is_empty data = true ↔ 1 ≤ data.length := by
  simp [rfr_is_empty, rfr_shape, Nat.succ_le_iff]

/-- C8: `PCT.check` (a total function — it never raises) returns false on
every 1-D array and every N×9 array, true on every N×10 array including
N = 0, and true on the result of `PCT.reset`. -/
theorem pct_check_shape_contract :
    (∀ n : ℕ, PCT.check ⟨[n]⟩ = false) ∧
    (∀ n : ℕ, PCT.check ⟨[n, 9]⟩ = false) ∧
    (∀ n : ℕ, PCT.check ⟨[n, 10]⟩ = true) ∧
    PCT.check PCT.reset = true := by
  refine ⟨fun n => ?_, fun n => ?_, fun n => ?_, ?_⟩ <;> simp [PCT.check, PCT.reset]

/-- C2 (code bug): on the `DATA` pairs `[(2, 30), (0, 10), (1, 20)]` the
code computes `data_val[data_ids] = [vals[2], vals[0], vals[1]] =
[20, 30, 10]`, not the claimed `[10, 20, 30]`: forward fancy indexing is
applied where the inverse permutation (position = id) was intended. -/
theorem load_media_prop_dist_data_bug :
    load_media_prop_dist_data [(2, 30), (0, 10), (1, 20)] = some [20, 30, 10] ∧
    load_media_prop_dist_data [(2, 30), (0, 10), (1, 20)] ≠ some [10, 20, 30] := by
  constructor
  · rfl
  · decide

/-- C9: for `hull_deform` with `niv_top ≠ niv_bot` and any direction
selection "x", "y" or "z": at input elevation `niv_bot` the output
elevation is `func_bot(x1, x2)`, at input elevation `niv_top` it is
`func_top(x1, x2)`, and the two non-elevation coordinates pass through
unchanged (stated as the full output triple). -/
theorem hull_deform_boundary (a b niv_top niv_bot : ℚ)
    (ft fb : HullFunc) (h : niv_top ≠ niv_bot) :
    (hull_deform niv_bot a b niv_top niv_bot ft fb "x" =
      (hull_func_eval fb niv_bot a b, a, b)) ∧
    (hull_deform a niv_bot b niv_top niv_bot ft fb "y" =
      (a, hull_func_eval fb niv_bot a b, b)) ∧
    (hull_deform a b niv_bot niv_top niv_bot ft fb "z" =
      (a, b, hull_func_eval fb niv_bot a b)) ∧
    (hull_deform niv_top a b niv_top niv_bot ft fb "x" =
      (hull_func_eval ft niv_top a b, a, b)) ∧
    (hull_deform a niv_top b niv_top niv_bot ft fb "y" =
      (a, hull_func_eval ft niv_top a b, b)) ∧
    (hull_deform a b niv_top niv_top niv_bot ft fb "z" =
      (a, b, hull_func_eval ft niv_top a b)) := by
  have hsub : niv_top - niv_bot ≠ 0 := sub_ne_zero.mpr h
  refine ⟨?_, ?_, ?_, ?_, ?_, ?_⟩ <;>
    simp only [hull_deform, String.reduceEq, reduceIte] <;>
    simp [sub_self, zero_div, div_self hsub, sub_add_cancel]

/-- C9 witness: the boundary theorem applied at
`niv_top = 1, niv_bot = 0, func_top = const 3, func_bot = const 2`. -/
theorem hull_deform_boundary_witness :
    hull_deform 5 7 0 1 0 (HullFunc.const 3) (HullFunc.const 2) "z" = (5, 7, 2) :=
  (hull_deform_boundary 5 7 1 0 (HullFunc.const 3) (HullFunc.const 2)
    (by norm_num)).2.2.1

-- ---- helper lemmas: Boolean insertion sort, argsort, searchsorted ----

theorem insertB_perm {α : Type*} (le : α → α → Bool) (x : α) (l : List α) :
    List.Perm (insertB le x l) (x :: l) := by
  induction l with
  | nil => exact List.Perm.refl _
  | cons y ys ih =>
    cases hxy : le x y with
    | true => simp [insertB, hxy]
    | false =>
      simp only [insertB, hxy, Bool.false_eq_true, if_false]
      exact (ih.cons y).trans (List.Perm.swap x y ys)

theorem insertionSortB_perm {α : Type*} (le : α → α → Bool) (l : List α) :
    List.Perm (insertionSortB le l) l := by
  induction l with
  | nil => exact List.Perm.refl _
  | cons x xs ih =>
    exact (insertB_perm le x (insertionSortB le xs)).trans (ih.cons x)

theorem insertB_pairwise {α : Type*} {le : α → α → Bool}
    (htot : ∀ a b, le a b = true ∨ le b a = true)
    (htrans : ∀ a b c, le a b = true → le b c = true → le a c = true)
    {x : α} {l : List α} (hl : l.Pairwise (fun a b => le a b = true)) :
    (insertB le x l).Pairwise (fun a b => le a b = true) := by
  induction l with
  | nil => simp [insertB]
  | cons y ys ih =>
    rcases List.pairwise_cons.mp hl with ⟨hy, hys⟩
    cases hxy : le x y with
    | true =>
      simp only [insertB, hxy, if_true]
      refine List.pairwise_cons.mpr ⟨?_, hl⟩
      intro z hz
      rcases List.mem_cons.mp hz with rfl | hz'
      · exact hxy
      · exact htrans x y z hxy (hy z hz')
    | false =>
      simp only [insertB, hxy, Bool.false_eq_true, if_false]
      refine List.pairwise_cons.mpr ⟨?_, ih hys⟩
      intro z hz
      have hz' := (insertB_perm le x ys).mem_iff.mp hz
      rcases List.mem_cons.mp hz' with hzx | hz''
      · subst hzx
        rcases htot z y with hcon | hyx
        · exact absurd hcon (by simp [hxy])
        · exact hyx
      · exact hy z hz''

theorem insertionSortB_pairwise {α : Type*} {le : α → α → Bool}
    (htot : ∀ a b, le a b = true ∨ le b a = true)
    (htrans : ∀ a b c, le a b = true → le b c = true → le a c = true)
    (l : List α) :
    (insertionSortB le l).Pairwise (fun a b => le a b = true) := by
  induction l with
  | nil => simp [insertionSortB]
  | cons x xs ih => exact insertB_pairwise htot htrans ih

theorem insertB_map {α β : Type*} (f : α → β) {le' : α → α → Bool}
    {le : β → β → Bool} (hc : ∀ a b, le' a b = le (f a) (f b))
    (x : α) (l : List α) :
    (insertB le' x l).map f = insertB le (f x) (l.map f) := by
  induction l with
  | nil => simp [insertB]
  | cons y ys ih =>
    simp only [insertB, hc x y]
    cases h : le (f x) (f y) with
    | true => simp [h]
    | false => simp [h, ih, insertB]

theorem insertionSortB_map {α β : Type*} (f : α → β) {le' : α → α → Bool}
    {le : β → β → Bool} (hc : ∀ a b, le' a b = le (f a) (f b))
    (l : List α) :
    (insertionSortB le' l).map f = insertionSortB le (l.map f) := by
  induction l with
  | nil => simp [insertionSortB]
  | cons x xs ih =>
    simp only [insertionSortB, List.map_cons]
    rw [insertB_map f hc, ih]

theorem map_getD_range {α : Type*} (l : List α) (dflt : α) :
    (List.range l.length).map (fun i => l.getD i dflt) = l := by
  apply List.ext_getElem (by simp)
  intro i h1 h2
  simp only [List.getElem_map, List.getElem_range]
  rw [List.getD_eq_getElem l dflt h2]

theorem getD_map_of_lt {α β : Type*} (f : α → β) (l : List α) (i : ℕ)
    (h : i < l.length) (dβ : β) (dα : α) :
    (l.map f).getD i dβ = f (l.getD i dα) := by
  rw [List.getD_eq_getElem _ _ (by simpa using h), List.getD_eq_getElem _ _ h,
    List.getElem_map]

theorem countP_range_lt (k x : ℕ) :
    (List.range k).countP (fun y => decide (y < x)) = min x k := by
  induction k with
  | zero => simp
  | succ k ih =>
    rw [List.range_succ, List.countP_append, ih]
    by_cases h : k < x
    · simp [List.countP_cons, h]
      omega
    · simp [List.countP_cons, h]
      omega

theorem natLeB_total : ∀ a b : ℕ, natLeB a b = true ∨ natLeB b a = true := by
  intro a b
  simp only [natLeB, decide_eq_true_eq]
  omega

theorem natLeB_trans : ∀ a b c : ℕ,
    natLeB a b = true → natLeB b c = true → natLeB a c = true := by
  intro a b c
  simp only [natLeB, decide_eq_true_eq]
  omega

theorem sortedB_natLe_sorted {l : List ℕ}
    (h : l.Pairwise (fun a b => natLeB a b = true)) : l.Sorted (· ≤ ·) :=
  h.imp (by simp [natLeB])

theorem np_argsort_perm (xs : List ℕ) :
    List.Perm (np_argsort xs) (List.range xs.length) :=
  insertionSortB_perm _ _

theorem np_argsort_map_getD (xs : List ℕ) :
    (np_argsort xs).map (fun i => xs.getD i 0) = insertionSortB natLeB xs := by
  rw [np_argsort, insertionSortB_map (fun i => xs.getD i 0) (fun a b => rfl),
    map_getD_range]

theorem insertionSortB_natLe_of_perm_range {l : List ℕ} {k : ℕ}
    (h : List.Perm l (List.range k)) :
    insertionSortB natLeB l = List.range k := by
  have h1 : List.Sorted (· ≤ ·) (insertionSortB natLeB l) :=
    sortedB_natLe_sorted (insertionSortB_pairwise natLeB_total natLeB_trans l)
  have h2 : List.Sorted (· ≤ ·) (List.range k) :=
    (List.pairwise_lt_range k).imp le_of_lt
  exact List.eq_of_perm_of_sorted ((insertionSortB_perm natLeB l).trans h) h1 h2

/-- Action of `np_replace arr sort (range k)` at position `j`, when `sort`
is a permutation of `range k`: the entry `v = arr[j]` is sent to the
position of `v` inside `sort` (`sort employs its own argsort as inverse). -/
theorem np_replace_sort_spec {sort : List ℕ} {k : ℕ}
    (hs : List.Perm sort (List.range k)) (arr : List ℕ) (j : ℕ)
    (hj : j < arr.length) (hv : arr.getD j 0 < k) :
    ((np_replace arr sort (List.range k)).getD j 0 < k ∧
      sort.getD ((np_replace arr sort (List.range k)).getD j 0) 0 = arr.getD j 0) ∧
    (np_replace arr sort (List.range k)).length = arr.length := by
  have hlen : sort.length = k := by simpa using hs.length_eq
  have hsi_perm : List.Perm (np_argsort sort) (List.range k) := by
    simpa [hlen] using np_argsort_perm sort
  have hinvalS : (np_argsort sort).map (fun i => sort.getD i 0) = List.range k := by
    rw [np_argsort_map_getD]
    exact insertionSortB_natLe_of_perm_range hs
  have hsi_len : (np_argsort sort).length = k := by simpa using hsi_perm.length_eq
  have hmem_lt : ∀ i ∈ np_argsort sort, i < k := by
    intro i hi
    exact List.mem_range.mp (hsi_perm.mem_iff.mp hi)
  have houtvalS : (np_argsort sort).map (fun i => (List.range k).getD i 0) =
      np_argsort sort := by
    apply List.ext_getElem (by simp)
    intro i h1 h2
    simp only [List.getElem_map]
    have hlt : (np_argsort sort)[i] < k := hmem_lt _ (List.getElem_mem h2)
    rw [List.getD_eq_getElem _ _ (by simpa using hlt), List.getElem_range]
  set v := arr.getD j 0 with hvdef
  have hmain : np_replace arr sort (List.range k) =
      arr.map (fun x =>
        if x ∈ sort then (np_argsort sort).getD (np_searchsorted (List.range k) x) 0
        else x) := by
    simp only [np_replace]
    rw [hinvalS, houtvalS]
  have hvmem : v ∈ sort := hs.mem_iff.mpr (List.mem_range.mpr hv)
  have hsearch : np_searchsorted (List.range k) v = v := by
    rw [np_searchsorted, countP_range_lt]
    omega
  have hentry : (np_replace arr sort (List.range k)).getD j 0 =
      (np_argsort sort).getD v 0 := by
    rw [hmain, getD_map_of_lt _ arr j hj 0 0, ← hvdef, if_pos hvmem, hsearch]
  have hidx_lt : (np_argsort sort).getD v 0 < k := by
    have : (np_argsort sort).getD v 0 ∈ np_argsort sort := by
      rw [List.getD_eq_getElem _ _ (by omega : v < (np_argsort sort).length)]
      exact List.getElem_mem _
    exact hmem_lt _ this
  have hback : sort.getD ((np_argsort sort).getD v 0) 0 = v := by
    have hv' : v < (np_argsort sort).length := by omega
    have := congrArg (fun l => l.getD v 0) hinvalS
    simp only at this
    rw [getD_map_of_lt _ _ v hv' 0 0] at this
    rw [this, List.getD_eq_getElem _ _ (by simpa using hv), List.getElem_range]
  refine ⟨⟨?_, ?_⟩, ?_⟩
  · rw [hentry]
    exact hidx_lt
  · rw [hentry, hback]
  · rw [hmain]
    simp

-- ---- helper lemmas: numerals and numeric tokens ----

theorem natDigitsAux_eq (fuel n : ℕ) (h : n ≤ fuel) :
    natDigitsAux fuel n = Nat.digits 10 n := by
  induction fuel generalizing n with
  | zero =>
    interval_cases n
    simp [natDigitsAux, Nat.digits_zero]
  | succ fuel ih =>
    match n with
    | 0 => simp [natDigitsAux, Nat.digits_zero]
    | n + 1 =>
      rw [natDigitsAux, Nat.digits_def' (by omega : (1:ℕ) < 10) (by omega), ih]
      have : (n + 1) / 10 < n + 1 := Nat.div_lt_self (by omega) (by omega)
      omega

theorem natDigits_eq (n : ℕ) : natDigits n = Nat.digits 10 n :=
  natDigitsAux_eq n n (le_refl n)

theorem charVal_digitChar {d : ℕ} (h : d < 10) : charVal (digitChar d) = d := by
  interval_cases d <;> rfl

theorem digitChar_isDigit {d : ℕ} (h : d < 10) :
    (digitChar d).isDigit = true := by
  interval_cases d <;> rfl

theorem parseNatChars_digits (ds : List ℕ) (h : ∀ d ∈ ds, d < 10) (acc : ℕ) :
    List.foldl (fun a c => 10 * a + charVal c) acc ((ds.map digitChar).reverse) =
      acc * 10 ^ ds.length + Nat.ofDigits 10 ds := by
  induction ds generalizing acc with
  | nil => simp
  | cons d t ih =>
    have hd : d < 10 := h d (List.mem_cons_self d t)
    have ht : ∀ x ∈ t, x < 10 := fun x hx => h x (List.mem_cons_of_mem d hx)
    simp only [List.map_cons, List.reverse_cons, List.foldl_append,
      List.foldl_cons, List.foldl_nil, ih ht, Nat.ofDigits_cons,
      List.length_cons, charVal_digitChar hd]
    ring

theorem parseNatChars_natToChars (n : ℕ) :
    parseNatChars (natToChars n) = n := by
  by_cases h : n = 0
  · subst h
    rfl
  · rw [natToChars, if_neg h, parseNatChars, natDigits_eq,
      parseNatChars_digits _ (fun d hd => Nat.digits_lt_base (by omega) hd) 0]
    simp [Nat.ofDigits_digits]

theorem natToChars_ne_nil (n : ℕ) : natToChars n ≠ [] := by
  by_cases h : n = 0
  · subst h
    simp [natToChars]
  · rw [natToChars, if_neg h]
    simp only [ne_eq, List.reverse_eq_nil_iff, List.map_eq_nil_iff]
    rw [natDigits_eq]
    exact Nat.digits_ne_nil_iff_ne_zero.mpr h

theorem natToChars_all_digit (n : ℕ) :
    ∀ c ∈ natToChars n, c.isDigit = true := by
  intro c hc
  by_cases h : n = 0
  · subst h
    rw [natToChars] at hc
    simp at hc
    subst hc
    rfl
  · rw [natToChars, if_neg h, List.mem_reverse, List.mem_map] at hc
    obtain ⟨d, hd, rfl⟩ := hc
    rw [natDigits_eq] at hd
    exact digitChar_isDigit (Nat.digits_lt_base (by omega) hd)

theorem isDigit_ne {c x : Char} (h : c.isDigit = true)
    (hx : x.isDigit = false) : c ≠ x := by
  intro hce
  subst hce
  rw [h] at hx
  cases hx

theorem natToChars_head_digit (n : ℕ) :
    ∀ c, (natToChars n).head? = some c → c.isDigit = true := by
  intro c hc
  apply natToChars_all_digit n
  exact List.mem_of_mem_head? hc

theorem isDigit_not_ws {c : Char} (h : c.isDigit = true) :
    c.isWhitespace = false := by
  have h1 : c ≠ ' ' := isDigit_ne h (by decide)
  have h2 : c ≠ '\t' := isDigit_ne h (by decide)
  have h3 : c ≠ '\r' := isDigit_ne h (by decide)
  have h4 : c ≠ '\n' := isDigit_ne h (by decide)
  simp [Char.isWhitespace, h1, h2, h3, h4]

-- intToStr facts

theorem intToStr_data (z : ℤ) :
    (intToStr z).data =
      if z < 0 then '-' :: natToChars z.natAbs else natToChars z.natAbs := by
  by_cases h : z < 0 <;> simp [intToStr, h, String.data_append, natToStr]

theorem pyInt?_data_cons {s : String} {c : Char} {cs : List Char}
    (h : s.data = c :: cs) :
    pyInt? s =
      if c = '-' then
        if (!cs.isEmpty && cs.all Char.isDigit) = true then
          some (-(parseNatChars cs : ℤ))
        else none
      else if c = '+' then
        if (!cs.isEmpty && cs.all Char.isDigit) = true then
          some ((parseNatChars cs : ℤ))
        else none
      else if (c :: cs).all Char.isDigit = true then
        some ((parseNatChars (c :: cs) : ℤ))
      else none := by
  rw [pyInt?, h]

theorem pyInt?_of_digits (s : String) (hne : s.data ≠ [])
    (hdig : ∀ c ∈ s.data, c.isDigit = true) :
    pyInt? s = some ((parseNatChars s.data : ℕ) : ℤ) := by
  rcases hdata : s.data with _ | ⟨c, cs⟩
  · exact absurd hdata hne
  · have hcd : c.isDigit = true :=
      hdig c (by rw [hdata]; exact List.mem_cons_self _ _)
    have hc1 : ¬ c = '-' := isDigit_ne hcd (by decide)
    have hc2 : ¬ c = '+' := isDigit_ne hcd (by decide)
    have hall : (c :: cs).all Char.isDigit = true := by
      simp only [List.all_eq_true]
      intro x hx
      exact hdig x (by rw [hdata]; exact hx)
    rw [pyInt?_data_cons hdata, if_neg hc1, if_neg hc2, if_pos hall]

theorem pyInt?_natToStr (n : ℕ) : pyInt? (natToStr n) = some (n : ℤ) := by
  have hdata : (natToStr n).data = natToChars n := rfl
  rw [pyInt?_of_digits (natToStr n) (by rw [hdata]; exact natToChars_ne_nil n)
    (by rw [hdata]; exact natToChars_all_digit n), hdata,
    show parseNatChars (natToChars n) = n from parseNatChars_natToChars n]

theorem pyInt?_intToStr (z : ℤ) : pyInt? (intToStr z) = some z := by
  by_cases h : z < 0
  · have hdata : (intToStr z).data = '-' :: natToChars z.natAbs := by
      rw [intToStr_data, if_pos h]
    have hcond : (!(natToChars z.natAbs).isEmpty &&
        (natToChars z.natAbs).all Char.isDigit) = true := by
      simp only [Bool.and_eq_true, Bool.not_eq_true']
      refine ⟨?_, ?_⟩
      · rcases hnn : natToChars z.natAbs with _ | ⟨a, b⟩
        · exact absurd hnn (natToChars_ne_nil _)
        · rfl
      · simp only [List.all_eq_true]
        exact natToChars_all_digit _
    rw [pyInt?_data_cons hdata, if_pos rfl, if_pos hcond,
      show parseNatChars (natToChars z.natAbs) = z.natAbs from
        parseNatChars_natToChars _]
    congr 1
    omega
  · have hdata : (intToStr z).data = natToChars z.natAbs := by
      rw [intToStr_data, if_neg h]
    rw [pyInt?_of_digits (intToStr z) (by rw [hdata]; exact natToChars_ne_nil _)
      (by rw [hdata]; exact natToChars_all_digit _), hdata,
      show parseNatChars (natToChars z.natAbs) = z.natAbs from
        parseNatChars_natToChars _]
    congr 1
    omega

theorem takeWhile_all {α : Type*} {p : α → Bool} {l : List α}
    (h : ∀ c ∈ l, p c = true) : l.takeWhile p = l := by
  induction l with
  | nil => rfl
  | cons x xs ih =>
    have h1 : p x = true := h x (List.mem_cons_self _ _)
    have h2 : ∀ c ∈ xs, p c = true := fun c hc => h c (List.mem_cons_of_mem _ hc)
    simp [List.takeWhile_cons, h1, ih h2]

theorem dropWhile_all {α : Type*} {p : α → Bool} {l : List α}
    (h : ∀ c ∈ l, p c = true) : l.dropWhile p = [] := by
  induction l with
  | nil => rfl
  | cons x xs ih =>
    have h1 : p x = true := h x (List.mem_cons_self _ _)
    have h2 : ∀ c ∈ xs, p c = true := fun c hc => h c (List.mem_cons_of_mem _ hc)
    rw [List.dropWhile_cons_of_pos h1, ih h2]

theorem takeWhile_append_all {α : Type*} {p : α → Bool} {a : List α}
    (b : List α) (ha : ∀ c ∈ a, p c = true) :
    (a ++ b).takeWhile p = a ++ b.takeWhile p := by
  induction a with
  | nil => rfl
  | cons x xs ih =>
    rw [List.cons_append, List.takeWhile_cons,
      ha x (List.mem_cons_self _ _), ih (fun c hc => ha c (List.mem_cons_of_mem _ hc))]
    rfl

theorem dropWhile_append_all {α : Type*} {p : α → Bool} {a : List α}
    (b : List α) (ha : ∀ c ∈ a, p c = true) :
    (a ++ b).dropWhile p = b.dropWhile p := by
  induction a with
  | nil => rfl
  | cons x xs ih =>
    rw [List.cons_append, List.dropWhile_cons_of_pos (ha x (List.mem_cons_self _ _)),
      ih (fun c hc => ha c (List.mem_cons_of_mem _ hc))]

theorem intToStr_chars (z : ℤ) :
    ∀ c ∈ (intToStr z).data, c.isDigit = true ∨ c = '-' := by
  intro c hc
  rw [intToStr_data] at hc
  by_cases h : z < 0
  · rw [if_pos h] at hc
    rcases List.mem_cons.mp hc with rfl | hc'
    · exact Or.inr rfl
    · exact Or.inl (natToChars_all_digit _ c hc')
  · rw [if_neg h] at hc
    exact Or.inl (natToChars_all_digit _ c hc)

theorem ratStr_data (q : ℚ) :
    (ratStr q).data =
      (intToStr (q.num * (decScale q : ℤ))).data ++
        'e' :: '-' :: natToChars q.den := by
  simp [ratStr, String.data_append, natToStr]

theorem parseUMant?_no_dot {cs : List Char}
    (h1 : cs.dropWhile (fun c => c != '.') = []) :
    parseUMant? cs =
      if (!(cs.takeWhile (fun c => c != '.')).isEmpty &&
          (cs.takeWhile (fun c => c != '.')).all Char.isDigit) = true then
        some ((parseNatChars (cs.takeWhile (fun c => c != '.')) : ℤ), 0)
      else none := by
  rw [parseUMant?, h1]

theorem parseUMant?_digits {ds : List Char} (hne : ds ≠ [])
    (hdig : ∀ c ∈ ds, c.isDigit = true) :
    parseUMant? ds = some ((parseNatChars ds : ℤ), 0) := by
  have hnd : ∀ c ∈ ds, (c != '.') = true := by
    intro c hc
    simpa using isDigit_ne (hdig c hc) (by decide)
  rw [parseUMant?_no_dot (dropWhile_all hnd), takeWhile_all hnd, if_pos]
  simp only [Bool.and_eq_true, Bool.not_eq_true']
  refine ⟨?_, by simpa [List.all_eq_true] using hdig⟩
  rcases ds with _ | ⟨a, b⟩
  · exact absurd rfl hne
  · rfl

theorem parseMant?_neg (r : List Char) :
    parseMant? ('-' :: r) = (parseUMant? r).map (fun v => (-v.1, v.2)) := by
  simp [parseMant?]

theorem parseMant?_other {c : Char} (r : List Char)
    (h1 : c ≠ '-') (h2 : c ≠ '+') :
    parseMant? (c :: r) = parseUMant? (c :: r) := by
  simp [parseMant?, h1, h2]

theorem parseMant?_intToStr (z : ℤ) :
    parseMant? (intToStr z).data = some (z, 0) := by
  by_cases h : z < 0
  · have hdata : (intToStr z).data = '-' :: natToChars z.natAbs := by
      rw [intToStr_data, if_pos h]
    rw [hdata, parseMant?_neg,
      parseUMant?_digits (natToChars_ne_nil _) (natToChars_all_digit _),
      Option.map_some']
    rw [show parseNatChars (natToChars z.natAbs) = z.natAbs from
      parseNatChars_natToChars _]
    have hz : -(z.natAbs : ℤ) = z := by omega
    rw [hz]
  · have hdata : (intToStr z).data = natToChars z.natAbs := by
      rw [intToStr_data, if_neg h]
    rcases hnn : natToChars z.natAbs with _ | ⟨c, cs⟩
    · exact absurd hnn (natToChars_ne_nil _)
    · have hcd : c.isDigit = true :=
        natToChars_all_digit z.natAbs c
          (by rw [hnn]; exact List.mem_cons_self _ _)
      rw [hdata, hnn,
        parseMant?_other _ (isDigit_ne hcd (by decide)) (isDigit_ne hcd (by decide)),
        ← hnn]
      rw [parseUMant?_digits (natToChars_ne_nil _) (natToChars_all_digit _),
        show parseNatChars (natToChars z.natAbs) = z.natAbs from
          parseNatChars_natToChars _]
      have hz : (z.natAbs : ℤ) = z := by omega
      rw [hz]

theorem strRat?_split {s : String} {a b : List Char}
    (hs : s.data = a ++ 'e' :: b) (ha : ∀ c ∈ a, (c != 'e') = true) :
    strRat? s =
      (match parseMant? a, pyInt? ⟨b⟩ with
       | some v, some e =>
         let sc : ℤ := e - (v.2 : ℤ)
         some (if 0 ≤ sc then mkRat (v.1 * 10 ^ sc.toNat) 1
               else mkRat v.1 (10 ^ (-sc).toNat))
       | _, _ => none) := by
  rw [strRat?, hs, dropWhile_append_all _ ha, takeWhile_append_all _ ha]
  rw [List.dropWhile_cons_of_neg (by decide), List.takeWhile_cons_of_neg (by decide)]
  rw [List.append_nil]

theorem strRat?_ratStr {q : ℚ} (h : IsDec q) : strRat? (ratStr q) = some q := by
  have hchars : ∀ c ∈ (intToStr (q.num * (decScale q : ℤ))).data,
      (c != 'e') = true := by
    intro c hc
    rcases intToStr_chars _ c hc with hd | hm
    · simpa using isDigit_ne hd (by decide)
    · subst hm
      decide
  rw [strRat?_split (ratStr_data q) hchars, parseMant?_intToStr]
  have hden : (String.mk ('-' :: natToChars q.den)).data =
      '-' :: natToChars q.den := rfl
  rw [pyInt?_data_cons hden, if_pos rfl, if_pos]
  · have hsc : (-(q.den : ℤ) - (0 : ℕ) : ℤ) = -(q.den : ℤ) := by omega
    rw [show parseNatChars (natToChars q.den) = q.den from
      parseNatChars_natToChars _]
    have hd0 : ¬ (0 ≤ (-(q.den : ℤ) - ((0 : ℕ) : ℤ))) := by
      have := q.den_pos
      omega
    simp only [if_neg hd0]
    have htn : (-(-(q.den : ℤ) - ((0 : ℕ) : ℤ))).toNat = q.den := by omega
    rw [htn]
    obtain ⟨c, hc⟩ := h
    have hc0 : c ≠ 0 := by
      intro h0
      rw [h0, Nat.mul_zero] at hc
      exact absurd hc (by positivity)
    have hscale : decScale q = c := by
      rw [decScale, hc, Nat.mul_div_cancel_left _ q.den_pos]
    rw [hscale, Rat.mkRat_eq_div, hc]
    push_cast
    rw [mul_comm (q.den : ℚ) (c : ℚ), ← div_div,
      mul_div_assoc, div_self (by exact_mod_cast hc0), mul_one,
      Rat.num_div_den]
  · simp only [Bool.and_eq_true, Bool.not_eq_true']
    refine ⟨?_, by simpa [List.all_eq_true] using natToChars_all_digit q.den⟩
    rcases hnn : natToChars q.den with _ | ⟨a, b⟩
    · exact absurd hnn (natToChars_ne_nil _)
    · rfl

-- ---- helper lemmas: strip/split on writer-emitted lines ----

theorem firstIdx_cons_self {α : Type*} [DecidableEq α] (x : α) (l : List α) :
    firstIdx (x :: l) x = 0 := by
  simp [firstIdx]

theorem firstIdx_cons_ne {α : Type*} [DecidableEq α] {x w : α} (l : List α)
    (h : x ≠ w) : firstIdx (x :: l) w = firstIdx l w + 1 := by
  simp [firstIdx, h]

theorem dropWhile_of_all_neg {α : Type*} {p : α → Bool} {l : List α}
    (h : ∀ c ∈ l, p c = false) : l.dropWhile p = l := by
  rcases l with _ | ⟨x, xs⟩
  · rfl
  · rw [List.dropWhile_cons_of_neg (by simp [h x (List.mem_cons_self _ _)])]

theorem splitCharsAux_token (t rest : List Char)
    (ht : ∀ c ∈ t, c.isWhitespace = false) (acc : List Char) :
    splitCharsAux (t ++ rest) acc = splitCharsAux rest (t.reverse ++ acc) := by
  induction t generalizing acc with
  | nil => simp
  | cons c cs ih =>
    have hc : c.isWhitespace = false := ht c (List.mem_cons_self _ _)
    have hcs : ∀ x ∈ cs, x.isWhitespace = false :=
      fun x hx => ht x (List.mem_cons_of_mem _ hx)
    rw [List.cons_append]
    simp only [splitCharsAux, hc, Bool.false_eq_true, if_false]
    rw [ih hcs (c :: acc)]
    simp [List.append_assoc]

theorem splitCharsAux_spaced (ts : List (List Char))
    (hts : ∀ u ∈ ts, u ≠ [] ∧ ∀ c ∈ u, c.isWhitespace = false) :
    ∀ acc, splitCharsAux (spaced ts) acc =
      (if acc.isEmpty then [] else [acc.reverse]) ++ ts := by
  induction ts with
  | nil =>
    intro acc
    rcases acc with _ | ⟨a, as⟩ <;> simp [spaced, splitCharsAux]
  | cons t ts ih =>
    intro acc
    have ht := hts t (List.mem_cons_self _ _)
    have hts' : ∀ u ∈ ts, u ≠ [] ∧ ∀ c ∈ u, c.isWhitespace = false :=
      fun u hu => hts u (List.mem_cons_of_mem _ hu)
    have hsp : spaced (t :: ts) = ' ' :: (t ++ spaced ts) := by
      simp [spaced]
    rw [hsp]
    simp only [splitCharsAux, (by decide : (' ').isWhitespace = true), if_true]
    rw [splitCharsAux_token t (spaced ts) ht.2, List.append_nil, ih hts']
    have htr : t.reverse.isEmpty = false := by
      rcases t with _ | ⟨a, as⟩
      · exact absurd rfl ht.1
      · simp
    by_cases hacc : acc.isEmpty = true
    · simp [hacc, htr]
    · simp [hacc, htr]

theorem splitChars_token_spaced (t : List Char) (ts : List (List Char))
    (ht : t ≠ []) (htw : ∀ c ∈ t, c.isWhitespace = false)
    (hts : ∀ u ∈ ts, u ≠ [] ∧ ∀ c ∈ u, c.isWhitespace = false) :
    splitChars (t ++ spaced ts) = t :: ts := by
  rw [splitChars, splitCharsAux_token t (spaced ts) htw, List.append_nil,
    splitCharsAux_spaced ts hts]
  have htr : t.reverse.isEmpty = false := by
    rcases t with _ | ⟨a, as⟩
    · exact absurd rfl ht
    · simp
  simp [htr]

theorem splitChars_single (t : List Char) (ht : t ≠ [])
    (htw : ∀ c ∈ t, c.isWhitespace = false) : splitChars t = [t] := by
  have h := splitChars_token_spaced t [] ht htw (by intro u hu; cases hu)
  simpa [spaced] using h

theorem wfTok_data_ne {s : String} (h : wfTok s = true) : s.data ≠ [] := by
  rw [wfTok, Bool.and_eq_true] at h
  intro hn
  rw [hn] at h
  simp at h

theorem wfTok_no_ws {s : String} (h : wfTok s = true) :
    ∀ c ∈ s.data, c.isWhitespace = false := by
  rw [wfTok, Bool.and_eq_true, List.all_eq_true] at h
  intro c hc
  have := h.2 c hc
  simpa using this

theorem pySplit_tok {s : String} (h : wfTok s = true) : pySplit s = [s] := by
  rw [pySplit, splitChars_single s.data (wfTok_data_ne h) (wfTok_no_ws h)]
  rfl

theorem stripChars_no_ws {cs : List Char} (h : ∀ c ∈ cs, c.isWhitespace = false) :
    stripChars cs = cs := by
  rw [stripChars, dropWhile_of_all_neg h,
    dropWhile_of_all_neg (fun c hc => h c (List.mem_reverse.mp hc)),
    List.reverse_reverse]

theorem pyStrip_tok {s : String} (h : wfTok s = true) : pyStrip s = s := by
  show String.mk (stripChars s.data) = s
  rw [stripChars_no_ws (wfTok_no_ws h)]

theorem pyStrip_pad {t : String} (h : wfTok t = true) :
    pyStrip ("  " ++ t) = t := by
  show String.mk (stripChars (' ' :: ' ' :: t.data)) = t
  rw [stripChars, List.dropWhile_cons_of_pos (by decide),
    List.dropWhile_cons_of_pos (by decide),
    dropWhile_of_all_neg (wfTok_no_ws h),
    dropWhile_of_all_neg
      (fun c hc => wfTok_no_ws h c (List.mem_reverse.mp hc)),
    List.reverse_reverse]

theorem pySplit_pad {t : String} (h : wfTok t = true) :
    pySplit ("  " ++ t) = [t] := by
  have h1 : (' ').isWhitespace = true := by decide
  have h2 : splitCharsAux (' ' :: ' ' :: t.data) [] = splitCharsAux t.data [] := by
    simp [splitCharsAux, h1]
  rw [pySplit, show ("  " ++ t).data = ' ' :: ' ' :: t.data from rfl, splitChars,
    h2, show splitCharsAux t.data [] = splitChars t.data from rfl,
    splitChars_single t.data (wfTok_data_ne h) (wfTok_no_ws h)]
  rfl

theorem natToStr_wfTok (n : ℕ) : wfTok (natToStr n) = true := by
  rw [wfTok, Bool.and_eq_true]
  refine ⟨?_, ?_⟩
  · rcases hnn : natToChars n with _ | ⟨c, cs⟩
    · exact absurd hnn (natToChars_ne_nil n)
    · simp [natToStr, hnn]
  · rw [List.all_eq_true]
    intro c hc
    have hd : c.isDigit = true := natToChars_all_digit n c hc
    simp [isDigit_not_ws hd]

theorem intToStr_head (z : ℤ) :
    ∃ c cs, (intToStr z).data = c :: cs ∧ (c.isDigit = true ∨ c = '-') := by
  rw [intToStr_data]
  by_cases h : z < 0
  · exact ⟨'-', natToChars z.natAbs, by rw [if_pos h], Or.inr rfl⟩
  · rcases hnn : natToChars z.natAbs with _ | ⟨c, cs⟩
    · exact absurd hnn (natToChars_ne_nil _)
    · exact ⟨c, cs, by rw [if_neg h],
        Or.inl (natToChars_all_digit _ c (by rw [hnn]; exact List.mem_cons_self _ _))⟩

theorem intToStr_wfTok (z : ℤ) : wfTok (intToStr z) = true := by
  rw [wfTok, Bool.and_eq_true]
  refine ⟨?_, ?_⟩
  · obtain ⟨c, cs, hc, _⟩ := intToStr_head z
    simp [hc]
  · rw [List.all_eq_true]
    intro c hc
    rcases intToStr_chars z c hc with hd | hm
    · simp [isDigit_not_ws hd]
    · subst hm
      decide

theorem ratStr_chars (q : ℚ) :
    ∀ c ∈ (ratStr q).data, c.isDigit = true ∨ c = '-' ∨ c = 'e' := by
  intro c hc
  rw [ratStr_data] at hc
  rcases List.mem_append.mp hc with h1 | h2
  · rcases intToStr_chars _ c h1 with h | h
    · exact Or.inl h
    · exact Or.inr (Or.inl h)
  · rcases List.mem_cons.mp h2 with rfl | h3
    · exact Or.inr (Or.inr rfl)
    · rcases List.mem_cons.mp h3 with rfl | h4
      · exact Or.inr (Or.inl rfl)
      · exact Or.inl (natToChars_all_digit _ c h4)

theorem ratStr_head (q : ℚ) :
    ∃ c cs, (ratStr q).data = c :: cs ∧ (c.isDigit = true ∨ c = '-') := by
  obtain ⟨c, cs, hc, hd⟩ := intToStr_head (q.num * (decScale q : ℤ))
  refine ⟨c, cs ++ 'e' :: '-' :: natToChars q.den, ?_, hd⟩
  rw [ratStr_data, hc]
  rfl

theorem ratStr_wfTok (q : ℚ) : wfTok (ratStr q) = true := by
  rw [wfTok, Bool.and_eq_true]
  refine ⟨?_, ?_⟩
  · obtain ⟨c, cs, hc, _⟩ := ratStr_head q
    simp [hc]
  · rw [List.all_eq_true]
    intro c hc
    rcases ratStr_chars q c hc with h | h | h
    · simp [isDigit_not_ws h]
    · subst h
      decide
    · subst h
      decide

theorem ne_key_of_head {s k : String} {c : Char} {cs r : List Char}
    (hs : s.data = c :: cs) (hk : k.data = '$' :: r)
    (hd : c.isDigit = true ∨ c = '-') : s ≠ k := by
  intro h
  rw [h, hk] at hs
  injection hs with h1 _
  rcases hd with hd | hd
  · rw [← h1] at hd
    exact absurd hd (by decide)
  · rw [← h1] at hd
    exact absurd hd (by decide)

theorem natToStr_ne_key (n : ℕ) {k : String} {r : List Char}
    (hk : k.data = '$' :: r) : natToStr n ≠ k := by
  rcases hnn : natToChars n with _ | ⟨c, cs⟩
  · exact absurd hnn (natToChars_ne_nil n)
  · exact ne_key_of_head (show (natToStr n).data = c :: cs from hnn) hk
      (Or.inl (natToChars_all_digit n c (by rw [hnn]; exact List.mem_cons_self _ _)))

theorem ratStr_ne_key (q : ℚ) {k : String} {r : List Char}
    (hk : k.data = '$' :: r) : ratStr q ≠ k := by
  obtain ⟨c, cs, hc, hd⟩ := ratStr_head q
  exact ne_key_of_head hc hk hd

theorem point_line_data_full (i : ℕ) (p : ℚ × ℚ × ℚ) (n : String) (v : ℚ)
    (hn : n ≠ "") :
    (point_line i p n (Option.some v)).data =
      (natToStr i).data ++
        spaced [(ratStr p.1).data, (ratStr p.2.1).data, (ratStr p.2.2).data,
          ("$NAME" : String).data, n.data, ("$MD" : String).data,
          (ratStr v).data] := by
  simp [point_line, hn, spaced, String.data_append, List.append_assoc]

theorem point_line_data_name (i : ℕ) (p : ℚ × ℚ × ℚ) (n : String)
    (hn : n ≠ "") :
    (point_line i p n Option.none).data =
      (natToStr i).data ++
        spaced [(ratStr p.1).data, (ratStr p.2.1).data, (ratStr p.2.2).data,
          ("$NAME" : String).data, n.data] := by
  simp [point_line, hn, spaced, String.data_append, List.append_assoc]

theorem point_line_data_md (i : ℕ) (p : ℚ × ℚ × ℚ) (v : ℚ) :
    (point_line i p "" (Option.some v)).data =
      (natToStr i).data ++
        spaced [(ratStr p.1).data, (ratStr p.2.1).data, (ratStr p.2.2).data,
          ("$MD" : String).data, (ratStr v).data] := by
  simp [point_line, spaced, String.data_append, List.append_assoc]

theorem point_line_data_plain (i : ℕ) (p : ℚ × ℚ × ℚ) :
    (point_line i p "" Option.none).data =
      (natToStr i).data ++
        spaced [(ratStr p.1).data, (ratStr p.2.1).data,
          (ratStr p.2.2).data] := by
  simp [point_line, spaced, String.data_append, List.append_assoc]

theorem wfTok_pair {s : String} (h : wfTok s = true) :
    s.data ≠ [] ∧ ∀ c ∈ s.data, c.isWhitespace = false :=
  ⟨wfTok_data_ne h, wfTok_no_ws h⟩

theorem pySplit_of_data (s : String) (t : List Char) (ts : List (List Char))
    (hdat : s.data = t ++ spaced ts)
    (ht : t ≠ []) (htw : ∀ c ∈ t, c.isWhitespace = false)
    (hts : ∀ u ∈ ts, u ≠ [] ∧ ∀ c ∈ u, c.isWhitespace = false) :
    pySplit s = (t :: ts).map String.mk := by
  rw [pySplit, hdat, splitChars_token_spaced t ts ht htw hts]

theorem natToStr_ne_NAME (n : ℕ) : natToStr n ≠ "$NAME" :=
  natToStr_ne_key n rfl

theorem natToStr_ne_MD (n : ℕ) : natToStr n ≠ "$MD" :=
  natToStr_ne_key n rfl

theorem ratStr_ne_NAME (q : ℚ) : ratStr q ≠ "$NAME" :=
  ratStr_ne_key q rfl

theorem ratStr_ne_MD (q : ℚ) : ratStr q ≠ "$MD" :=
  ratStr_ne_key q rfl

theorem wfTok_ne_empty {s : String} (h : wfTok s = true) : s ≠ "" := by
  intro h0
  subst h0
  exact wfTok_data_ne h rfl

theorem pySplit_point_full (i : ℕ) (p : ℚ × ℚ × ℚ) (n : String) (v : ℚ)
    (hn : wfTok n = true) :
    pySplit (point_line i p n (Option.some v)) =
      [natToStr i, ratStr p.1, ratStr p.2.1, ratStr p.2.2, "$NAME", n, "$MD",
        ratStr v] := by
  have hts : ∀ u ∈ [(ratStr p.1).data, (ratStr p.2.1).data, (ratStr p.2.2).data,
      ("$NAME" : String).data, n.data, ("$MD" : String).data, (ratStr v).data],
      u ≠ [] ∧ ∀ c ∈ u, c.isWhitespace = false := by
    intro u hu
    simp only [List.mem_cons, List.not_mem_nil, or_false] at hu
    rcases hu with rfl | rfl | rfl | rfl | rfl | rfl | rfl
    · exact wfTok_pair (ratStr_wfTok _)
    · exact wfTok_pair (ratStr_wfTok _)
    · exact wfTok_pair (ratStr_wfTok _)
    · exact wfTok_pair (by decide)
    · exact wfTok_pair hn
    · exact wfTok_pair (by decide)
    · exact wfTok_pair (ratStr_wfTok _)
  rw [pySplit_of_data _ _ _ (point_line_data_full i p n v (wfTok_ne_empty hn))
    (wfTok_data_ne (natToStr_wfTok i)) (wfTok_no_ws (natToStr_wfTok i)) hts]
  rfl

theorem pySplit_point_name (i : ℕ) (p : ℚ × ℚ × ℚ) (n : String)
    (hn : wfTok n = true) :
    pySplit (point_line i p n Option.none) =
      [natToStr i, ratStr p.1, ratStr p.2.1, ratStr p.2.2, "$NAME", n] := by
  have hts : ∀ u ∈ [(ratStr p.1).data, (ratStr p.2.1).data, (ratStr p.2.2).data,
      ("$NAME" : String).data, n.data],
      u ≠ [] ∧ ∀ c ∈ u, c.isWhitespace = false := by
    intro u hu
    simp only [List.mem_cons, List.not_mem_nil, or_false] at hu
    rcases hu with rfl | rfl | rfl | rfl | rfl
    · exact wfTok_pair (ratStr_wfTok _)
    · exact wfTok_pair (ratStr_wfTok _)
    · exact wfTok_pair (ratStr_wfTok _)
    · exact wfTok_pair (by decide)
    · exact wfTok_pair hn
  rw [pySplit_of_data _ _ _ (point_line_data_name i p n (wfTok_ne_empty hn))
    (wfTok_data_ne (natToStr_wfTok i)) (wfTok_no_ws (natToStr_wfTok i)) hts]
  rfl

theorem pySplit_point_md (i : ℕ) (p : ℚ × ℚ × ℚ) (v : ℚ) :
    pySplit (point_line i p "" (Option.some v)) =
      [natToStr i, ratStr p.1, ratStr p.2.1, ratStr p.2.2, "$MD", ratStr v] := by
  have hts : ∀ u ∈ [(ratStr p.1).data, (ratStr p.2.1).data, (ratStr p.2.2).data,
      ("$MD" : String).data, (ratStr v).data],
      u ≠ [] ∧ ∀ c ∈ u, c.isWhitespace = false := by
    intro u hu
    simp only [List.mem_cons, List.not_mem_nil, or_false] at hu
    rcases hu with rfl | rfl | rfl | rfl | rfl
    · exact wfTok_pair (ratStr_wfTok _)
    · exact wfTok_pair (ratStr_wfTok _)
    · exact wfTok_pair (ratStr_wfTok _)
    · exact wfTok_pair (by decide)
    · exact wfTok_pair (ratStr_wfTok _)
  rw [pySplit_of_data _ _ _ (point_line_data_md i p v)
    (wfTok_data_ne (natToStr_wfTok i)) (wfTok_no_ws (natToStr_wfTok i)) hts]
  rfl

theorem pySplit_point_plain (i : ℕ) (p : ℚ × ℚ × ℚ) :
    pySplit (point_line i p "" Option.none) =
      [natToStr i, ratStr p.1, ratStr p.2.1, ratStr p.2.2] := by
  have hts : ∀ u ∈ [(ratStr p.1).data, (ratStr p.2.1).data,
      (ratStr p.2.2).data],
      u ≠ [] ∧ ∀ c ∈ u, c.isWhitespace = false := by
    intro u hu
    simp only [List.mem_cons, List.not_mem_nil, or_false] at hu
    rcases hu with rfl | rfl | rfl
    · exact wfTok_pair (ratStr_wfTok _)
    · exact wfTok_pair (ratStr_wfTok _)
    · exact wfTok_pair (ratStr_wfTok _)
  rw [pySplit_of_data _ _ _ (point_line_data_plain i p)
    (wfTok_data_ne (natToStr_wfTok i)) (wfTok_no_ws (natToStr_wfTok i)) hts]
  rfl

theorem parse_point_line_roundtrip (i : ℕ) (p : ℚ × ℚ × ℚ) (n : String)
    (m : Option ℚ) (hx : IsDec p.1) (hy : IsDec p.2.1) (hz : IsDec p.2.2)
    (hn : wfPointName n = true) (hm : wfOptDec m = true) :
    parse_point_line (point_line i p n m) = some (p, n, m) := by
  by_cases hne : n = ""
  · subst hne
    rcases m with _ | v
    · simp [parse_point_line, pySplit_point_plain i p,
        strRat?_ratStr hx, strRat?_ratStr hy, strRat?_ratStr hz,
        (natToStr_ne_NAME i).symm, (ratStr_ne_NAME p.1).symm,
        (ratStr_ne_NAME p.2.1).symm, (ratStr_ne_NAME p.2.2).symm,
        (natToStr_ne_MD i).symm, (ratStr_ne_MD p.1).symm,
        (ratStr_ne_MD p.2.1).symm, (ratStr_ne_MD p.2.2).symm]
    · have hv : IsDec v := by
        rw [wfOptDec] at hm
        exact decide_eq_true_iff.mp hm
      have hidx : firstIdx [natToStr i, ratStr p.1, ratStr p.2.1, ratStr p.2.2,
          "$MD", ratStr v] "$MD" = 4 := by
        rw [firstIdx_cons_ne _ (natToStr_ne_MD i),
          firstIdx_cons_ne _ (ratStr_ne_MD p.1),
          firstIdx_cons_ne _ (ratStr_ne_MD p.2.1),
          firstIdx_cons_ne _ (ratStr_ne_MD p.2.2), firstIdx_cons_self]
      simp [parse_point_line, pySplit_point_md i p v, hidx,
        strRat?_ratStr hx, strRat?_ratStr hy, strRat?_ratStr hz,
        strRat?_ratStr hv,
        (natToStr_ne_NAME i).symm, (ratStr_ne_NAME p.1).symm,
        (ratStr_ne_NAME p.2.1).symm, (ratStr_ne_NAME p.2.2).symm,
        (ratStr_ne_NAME v).symm]
  · have hn' : wfTok n = true ∧ n ≠ "$MD" := by
      rw [wfPointName] at hn
      simp [hne] at hn
      exact hn
    rcases m with _ | v
    · have hidx : firstIdx [natToStr i, ratStr p.1, ratStr p.2.1, ratStr p.2.2,
          "$NAME", n] "$NAME" = 4 := by
        rw [firstIdx_cons_ne _ (natToStr_ne_NAME i),
          firstIdx_cons_ne _ (ratStr_ne_NAME p.1),
          firstIdx_cons_ne _ (ratStr_ne_NAME p.2.1),
          firstIdx_cons_ne _ (ratStr_ne_NAME p.2.2), firstIdx_cons_self]
      simp [parse_point_line, pySplit_point_name i p n hn'.1, hidx,
        strRat?_ratStr hx, strRat?_ratStr hy, strRat?_ratStr hz,
        (natToStr_ne_MD i).symm, (ratStr_ne_MD p.1).symm,
        (ratStr_ne_MD p.2.1).symm, (ratStr_ne_MD p.2.2).symm,
        (Ne.symm hn'.2)]
    · have hv : IsDec v := by
        rw [wfOptDec] at hm
        exact decide_eq_true_iff.mp hm
      have hidx1 : firstIdx [natToStr i, ratStr p.1, ratStr p.2.1, ratStr p.2.2,
          "$NAME", n, "$MD", ratStr v] "$NAME" = 4 := by
        rw [firstIdx_cons_ne _ (natToStr_ne_NAME i),
          firstIdx_cons_ne _ (ratStr_ne_NAME p.1),
          firstIdx_cons_ne _ (ratStr_ne_NAME p.2.1),
          firstIdx_cons_ne _ (ratStr_ne_NAME p.2.2), firstIdx_cons_self]
      have hidx2 : firstIdx [natToStr i, ratStr p.1, ratStr p.2.1, ratStr p.2.2,
          "$NAME", n, "$MD", ratStr v] "$MD" = 6 := by
        rw [firstIdx_cons_ne _ (natToStr_ne_MD i),
          firstIdx_cons_ne _ (ratStr_ne_MD p.1),
          firstIdx_cons_ne _ (ratStr_ne_MD p.2.1),
          firstIdx_cons_ne _ (ratStr_ne_MD p.2.2),
          firstIdx_cons_ne _ (by decide : ("$NAME" : String) ≠ "$MD"),
          firstIdx_cons_ne _ hn'.2, firstIdx_cons_self]
      simp [parse_point_line, pySplit_point_full i p n v hn'.1, hidx1, hidx2,
        strRat?_ratStr hx, strRat?_ratStr hy, strRat?_ratStr hz,
        strRat?_ratStr hv]

-- ---- helper lemmas: the reader's record loops on writer output ----

theorem drop_block {α : Type*} {block ts r0 : List α} {t0 l0 : α}
    (h : block ++ t0 :: ts = l0 :: r0) : r0.drop block.length = ts := by
  rcases block with _ | ⟨b, bs⟩
  · injection h with h1 h2
    rw [← h2]
    rfl
  · rw [List.cons_append] at h
    injection h with h1 h2
    rw [← h2, List.length_cons,
      show bs.length + 1 = (bs ++ [t0]).length by simp,
      show bs ++ t0 :: ts = (bs ++ [t0]) ++ ts by simp]
    exact List.drop_left _ _

theorem cons_of_append_cons {α : Type*} (block : List α) (t0 : α)
    (ts : List α) : ∃ w0 ws, block ++ t0 :: ts = w0 :: ws := by
  rcases block with _ | ⟨b, bs⟩
  · exact ⟨t0, ts, rfl⟩
  · exact ⟨b, bs ++ t0 :: ts, rfl⟩

theorem stripChars_eq_self {cs : List Char}
    (h1 : ∀ c, cs.head? = some c → c.isWhitespace = false)
    (h2 : ∀ c, cs.getLast? = some c → c.isWhitespace = false) :
    stripChars cs = cs := by
  rw [stripChars]
  have hd : cs.dropWhile Char.isWhitespace = cs := by
    rcases cs with _ | ⟨a, as⟩
    · rfl
    · rw [List.dropWhile_cons_of_neg (by simp [h1 a rfl])]
  rw [hd]
  have hr : cs.reverse.dropWhile Char.isWhitespace = cs.reverse := by
    rcases hrev : cs.reverse with _ | ⟨a, as⟩
    · rfl
    · have ha : cs.getLast? = some a := by
        rw [← List.head?_reverse, hrev]
        rfl
      rw [List.dropWhile_cons_of_neg (by simp [h2 a ha])]
  rw [hr, List.reverse_reverse]

theorem head?_append_left {α : Type*} {a : List α} (b : List α) {c : α}
    {cs : List α} (h : a = c :: cs) : (a ++ b).head? = some c := by
  rw [h]
  rfl

theorem getLast?_append_of_ne_nil {α : Type*} (a : List α) {b : List α}
    (hb : b ≠ []) : (a ++ b).getLast? = b.getLast? := by
  rw [List.getLast?_append]
  rcases hbl : b.getLast? with _ | x
  · rw [List.getLast?_eq_none_iff] at hbl
    exact absurd hbl hb
  · rfl

theorem getLast?_token_spaced (a : List Char) (ts : List (List Char))
    (u : List Char) (hu : u ≠ []) :
    (a ++ spaced (ts ++ [u])).getLast? = u.getLast? := by
  rw [spaced, List.flatMap_append,
    show ([u].flatMap fun x => ' ' :: x) = ' ' :: u by simp,
    show a ++ ((ts.flatMap fun x => ' ' :: x) ++ ' ' :: u) =
      (a ++ (ts.flatMap fun x => ' ' :: x) ++ [' ']) ++ u by simp,
    getLast?_append_of_ne_nil _ hu]

theorem mem_of_getLast? {α : Type*} {l : List α} {a : α}
    (h : l.getLast? = some a) : a ∈ l := by
  rw [← List.head?_reverse] at h
  have : a ∈ l.reverse := by
    rcases hrev : l.reverse with _ | ⟨x, xs⟩
    · rw [hrev] at h
      cases h
    · rw [hrev] at h
      injection h with h1
      rw [h1]
      exact List.mem_cons_self _ _
  exact List.mem_reverse.mp this

theorem ratStr_getLast_not_ws (q : ℚ) :
    ∀ c, (ratStr q).data.getLast? = some c → c.isWhitespace = false := by
  intro c hc
  rcases ratStr_chars q c (mem_of_getLast? hc) with h | h | h
  · exact isDigit_not_ws h
  · subst h
    decide
  · subst h
    decide

theorem wfTok_getLast_not_ws {s : String} (h : wfTok s = true) :
    ∀ c, s.data.getLast? = some c → c.isWhitespace = false :=
  fun c hc => wfTok_no_ws h c (mem_of_getLast? hc)

theorem natToStr_data_cons (n : ℕ) :
    ∃ c cs, (natToStr n).data = c :: cs ∧ c.isDigit = true := by
  rcases hnn : natToChars n with _ | ⟨c, cs⟩
  · exact absurd hnn (natToChars_ne_nil n)
  · exact ⟨c, cs, hnn,
      natToChars_all_digit n c (by rw [hnn]; exact List.mem_cons_self _ _)⟩

theorem point_line_clean (i : ℕ) (p : ℚ × ℚ × ℚ) (n : String) (m : Option ℚ)
    (hn : wfPointName n = true) :
    pyStrip (point_line i p n m) = point_line i p n m ∧
    firstCharDigit (point_line i p n m) = true := by
  obtain ⟨c, cs, hc, hd⟩ := natToStr_data_cons i
  have hlast : ∀ d, (point_line i p n m).data.getLast? = some d →
      d.isWhitespace = false := by
    by_cases hne : n = ""
    · subst hne
      rcases m with _ | v
      · rw [point_line_data_plain i p,
          show [(ratStr p.1).data, (ratStr p.2.1).data, (ratStr p.2.2).data] =
            [(ratStr p.1).data, (ratStr p.2.1).data] ++ [(ratStr p.2.2).data]
            from rfl,
          getLast?_token_spaced _ _ _ (wfTok_data_ne (ratStr_wfTok p.2.2))]
        exact ratStr_getLast_not_ws p.2.2
      · rw [point_line_data_md i p v,
          show [(ratStr p.1).data, (ratStr p.2.1).data, (ratStr p.2.2).data,
            ("$MD" : String).data, (ratStr v).data] =
            [(ratStr p.1).data, (ratStr p.2.1).data, (ratStr p.2.2).data,
              ("$MD" : String).data] ++ [(ratStr v).data] from rfl,
          getLast?_token_spaced _ _ _ (wfTok_data_ne (ratStr_wfTok v))]
        exact ratStr_getLast_not_ws v
    · have hwf : wfTok n = true := by
        rw [wfPointName] at hn
        simp [hne] at hn
        exact hn.1
      rcases m with _ | v
      · rw [point_line_data_name i p n hne,
          show [(ratStr p.1).data, (ratStr p.2.1).data, (ratStr p.2.2).data,
            ("$NAME" : String).data, n.data] =
            [(ratStr p.1).data, (ratStr p.2.1).data, (ratStr p.2.2).data,
              ("$NAME" : String).data] ++ [n.data] from rfl,
          getLast?_token_spaced _ _ _ (wfTok_data_ne hwf)]
        exact wfTok_getLast_not_ws hwf
      · rw [point_line_data_full i p n v hne,
          show [(ratStr p.1).data, (ratStr p.2.1).data, (ratStr p.2.2).data,
            ("$NAME" : String).data, n.data, ("$MD" : String).data,
            (ratStr v).data] =
            [(ratStr p.1).data, (ratStr p.2.1).data, (ratStr p.2.2).data,
              ("$NAME" : String).data, n.data, ("$MD" : String).data] ++
              [(ratStr v).data] from rfl,
          getLast?_token_spaced _ _ _ (wfTok_data_ne (ratStr_wfTok v))]
        exact ratStr_getLast_not_ws v
  have hdata : ∃ rest, (point_line i p n m).data = c :: (cs ++ rest) := by
    by_cases hne : n = ""
    · subst hne
      rcases m with _ | v
      · exact ⟨_, by rw [point_line_data_plain i p, hc]; rfl⟩
      · exact ⟨_, by rw [point_line_data_md i p v, hc]; rfl⟩
    · rcases m with _ | v
      · exact ⟨_, by rw [point_line_data_name i p n hne, hc]; rfl⟩
      · exact ⟨_, by rw [point_line_data_full i p n v hne, hc]; rfl⟩
  obtain ⟨rest, hrest⟩ := hdata
  have hhead : ∀ d, (point_line i p n m).data.head? = some d →
      d.isWhitespace = false := by
    intro d hhd
    rw [hrest] at hhd
    injection hhd with h1'
    rw [← h1']
    exact isDigit_not_ws hd
  constructor
  · show String.mk (stripChars (point_line i p n m).data) = point_line i p n m
    rw [stripChars_eq_self hhead hlast]
  · rw [firstCharDigit, hrest]
    exact hd

theorem pyIsdigitStr_natToStr (n : ℕ) : pyIsdigitStr (natToStr n) = true := by
  rw [pyIsdigitStr, Bool.and_eq_true]
  refine ⟨?_, ?_⟩
  · obtain ⟨c, cs, hc, _⟩ := natToStr_data_cons n
    simp [hc]
  · rw [List.all_eq_true]
    exact natToChars_all_digit n

theorem read_int_run_writer (pts : List ℤ) (hpts : ∀ q ∈ pts, 0 ≤ q)
    (w0 : String) (ws : List String) :
    ∀ (l0 : String) (r0 : List String),
    (pts.map fun q => "  " ++ intToStr q) ++ w0 :: ws = l0 :: r0 →
    ¬(pyStrip w0 ≠ "" ∧
      pyIsdigitStr ((pySplit (pyStrip w0)).headD "") = true) →
    read_int_run (pyStrip l0) r0 = ((pts, pyStrip w0), pts.length) := by
  induction pts with
  | nil =>
    intro l0 r0 hsh hstop
    rw [List.map_nil, List.nil_append] at hsh
    injection hsh with h1 h2
    subst h1
    subst h2
    conv_lhs => rw [read_int_run]
    rw [if_neg hstop]
    rfl
  | cons q qs ih =>
    intro l0 r0 hsh hstop
    rw [List.map_cons, List.cons_append] at hsh
    injection hsh with h1 h2
    subst h1
    have hq : 0 ≤ q := hpts q (List.mem_cons_self _ _)
    have hqs : ∀ x ∈ qs, 0 ≤ x := fun x hx => hpts x (List.mem_cons_of_mem _ hx)
    have hiq : intToStr q = natToStr q.natAbs := by
      rw [intToStr, if_neg (by omega)]
    have hval : (parseNatChars ((pySplit (intToStr q)).headD "").data : ℤ) = q := by
      rw [pySplit_tok (intToStr_wfTok q)]
      rw [show ([intToStr q].headD "") = intToStr q from rfl, hiq,
        show (natToStr q.natAbs).data = natToChars q.natAbs from rfl,
        parseNatChars_natToChars]
      omega
    have hcond : intToStr q ≠ "" ∧
        pyIsdigitStr ((pySplit (intToStr q)).headD "") = true := by
      refine ⟨wfTok_ne_empty (intToStr_wfTok q), ?_⟩
      rw [pySplit_tok (intToStr_wfTok q),
        show ([intToStr q].headD "") = intToStr q from rfl, hiq]
      exact pyIsdigitStr_natToStr _
    rw [pyStrip_pad (intToStr_wfTok q)]
    conv_lhs => rw [read_int_run]
    rw [if_pos hcond]
    obtain ⟨w1, ws1, hw⟩ := cons_of_append_cons
      (qs.map fun x => "  " ++ intToStr x) w0 ws
    rw [← h2, hw, hval]
    show (match read_int_run (pyStrip w1) ws1 with
      | ((vs, line'), k) => ((q :: vs, line'), k + 1)) =
      ((q :: qs, pyStrip w0), (q :: qs).length)
    rw [ih hqs w1 ws1 hw hstop]
    rfl

theorem read_str_run_writer (keys : List String) (toks : List String)
    (htoks : ∀ t ∈ toks, wfTok t = true ∧ t ∉ keys)
    (w0 : String) (ws : List String) (hstop : pyStrip w0 ∈ keys) :
    ∀ (l0 : String) (r0 : List String),
    (toks.map fun t => "  " ++ t) ++ w0 :: ws = l0 :: r0 →
    read_str_run keys (pyStrip l0) r0 = ((toks, pyStrip w0), toks.length) := by
  induction toks with
  | nil =>
    intro l0 r0 hsh
    rw [List.map_nil, List.nil_append] at hsh
    injection hsh with h1 h2
    subst h1
    subst h2
    conv_lhs => rw [read_str_run]
    rw [if_neg (fun hcon => hcon.2 hstop)]
    rfl
  | cons t ts ih =>
    intro l0 r0 hsh
    rw [List.map_cons, List.cons_append] at hsh
    injection hsh with h1 h2
    subst h1
    have htt := htoks t (List.mem_cons_self _ _)
    have hts : ∀ x ∈ ts, wfTok x = true ∧ x ∉ keys :=
      fun x hx => htoks x (List.mem_cons_of_mem _ hx)
    rw [pyStrip_pad htt.1]
    conv_lhs => rw [read_str_run]
    rw [if_pos ⟨wfTok_ne_empty htt.1, htt.2⟩]
    obtain ⟨w1, ws1, hw⟩ := cons_of_append_cons
      (ts.map fun x => "  " ++ x) w0 ws
    rw [← h2, hw, pySplit_tok htt.1]
    show (match read_str_run keys (pyStrip w1) ws1 with
      | ((us, line'), k) => ((t :: us, line'), k + 1)) =
      ((t :: ts, pyStrip w0), (t :: ts).length)
    rw [ih hts w1 ws1 hw]
    rfl

theorem getD_zero_headD {α : Type*} (l : List α) (d : α) :
    l.getD 0 d = l.headD d := by
  cases l <;> rfl

theorem getD_succ_tail {α : Type*} (l : List α) (i : ℕ) (d : α) :
    l.getD (i + 1) d = l.tail.getD i d := by
  cases l <;> rfl

theorem writer_points_eq :
    ∀ (pts : List (ℚ × ℚ × ℚ)) (nms : List String) (mds : List (Option ℚ))
      (i0 : ℕ),
    (List.range pts.length).map (fun i =>
      point_line (i0 + i) (pts.getD i (0, 0, 0)) (nms.getD i "")
        (mds.getD i none)) = pointLinesFrom i0 pts nms mds := by
  intro pts
  induction pts with
  | nil => intro nms mds i0; rfl
  | cons p ps ih =>
    intro nms mds i0
    rw [List.length_cons, List.range_succ_eq_map, List.map_cons, List.map_map]
    rw [show pointLinesFrom i0 (p :: ps) nms mds =
      point_line i0 p (nms.headD "") (mds.headD none) ::
        pointLinesFrom (i0 + 1) ps nms.tail mds.tail from rfl]
    congr 1
    · rw [Nat.add_zero, getD_zero_headD, getD_zero_headD, getD_zero_headD]
      rfl
    · rw [List.map_congr_left (g := fun j =>
        point_line ((i0 + 1) + j) (ps.getD j (0, 0, 0)) (nms.tail.getD j "")
          (mds.tail.getD j none)) ?hfun, ih nms.tail mds.tail (i0 + 1)]
      case hfun =>
        intro j _
        show point_line (i0 + (j + 1)) ((p :: ps).getD (j + 1) (0, 0, 0))
            (nms.getD (j + 1) "") (mds.getD (j + 1) none) = _
        rw [getD_succ_tail, getD_succ_tail, getD_succ_tail,
          show (p :: ps).tail = ps from rfl,
          show i0 + (j + 1) = i0 + 1 + j by omega]

theorem read_points_writer (w0 : String) (ws : List String)
    (hstop : firstCharDigit (pyStrip w0) = false) :
    ∀ (pts : List (ℚ × ℚ × ℚ)) (nms : List String) (mds : List (Option ℚ)),
    (∀ p ∈ pts, IsDec p.1 ∧ IsDec p.2.1 ∧ IsDec p.2.2) →
    (∀ n ∈ nms, wfPointName n = true) →
    (∀ m ∈ mds, wfOptDec m = true) →
    nms.length = pts.length → mds.length = pts.length →
    ∀ (i0 : ℕ) (l0 : String) (r0 : List String),
    pointLinesFrom i0 pts nms mds ++ w0 :: ws = l0 :: r0 →
    read_points (pyStrip l0) r0 =
      Except.ok ((pts.zip (nms.zip mds), pyStrip w0), pts.length) := by
  intro pts
  induction pts with
  | nil =>
    intro nms mds _ _ _ _ _ i0 l0 r0 hsh
    simp only [pointLinesFrom, List.nil_append] at hsh
    injection hsh with h1 h2
    subst h1
    subst h2
    conv_lhs => rw [read_points]
    rw [if_neg (by simp [hstop])]
    rfl
  | cons p ps ih =>
    intro nms mds hdec hnms hmds hl1 hl2 i0 l0 r0 hsh
    rcases nms with _ | ⟨n, ns⟩
    · simp at hl1
    rcases mds with _ | ⟨m, ms⟩
    · simp at hl2
    rw [show pointLinesFrom i0 (p :: ps) (n :: ns) (m :: ms) =
      point_line i0 p n m :: pointLinesFrom (i0 + 1) ps ns ms from rfl,
      List.cons_append] at hsh
    injection hsh with h1 h2
    subst h1
    have hdp := hdec p (List.mem_cons_self _ _)
    have hclean := point_line_clean i0 p n m (hnms n (List.mem_cons_self _ _))
    rw [hclean.1]
    conv_lhs => rw [read_points]
    rw [if_pos hclean.2,
      parse_point_line_roundtrip i0 p n m hdp.1 hdp.2.1 hdp.2.2
        (hnms n (List.mem_cons_self _ _)) (hmds m (List.mem_cons_self _ _))]
    obtain ⟨w1, ws1, hw⟩ :=
      cons_of_append_cons (pointLinesFrom (i0 + 1) ps ns ms) w0 ws
    rw [← h2, hw]
    show (match read_points (pyStrip w1) ws1 with
      | Except.error e => Except.error e
      | Except.ok ((prs, line'), k) =>
        Except.ok (((p, n, m) :: prs, line'), k + 1)) =
      Except.ok (((p :: ps).zip ((n :: ns).zip (m :: ms)), pyStrip w0),
        (p :: ps).length)
    rw [ih ns ms (fun x hx => hdec x (List.mem_cons_of_mem _ hx))
      (fun x hx => hnms x (List.mem_cons_of_mem _ hx))
      (fun x hx => hmds x (List.mem_cons_of_mem _ hx))
      (by simpa using hl1) (by simpa using hl2) (i0 + 1) w1 ws1 hw]
    rfl

-- ---- helper lemmas: the section loops on writer output ----

theorem gli_any_self : ∀ t0 ∈ GLI_KEY_LIST,
    GLI_KEY_LIST.any (fun key => pyStartsWith t0 key) = true := by decide

theorem gli_strip : ∀ t0 ∈ GLI_KEY_LIST, pyStrip t0 = t0 := by decide

theorem gli_not_digit_cond : ∀ t0 ∈ GLI_KEY_LIST,
    ¬(t0 ≠ "" ∧ pyIsdigitStr ((pySplit t0).headD "") = true) := by decide

theorem gli_not_firstDigit : ∀ t0 ∈ GLI_KEY_LIST,
    firstCharDigit t0 = false := by decide

theorem gli_in_ply_exit : ∀ t0 ∈ GLI_KEY_LIST, t0 ∈ ply_exit_keys := by decide

theorem gli_in_srf_exit : ∀ t0 ∈ GLI_KEY_LIST, t0 ∈ srf_exit_keys := by decide

theorem gli_in_vol_exit : ∀ t0 ∈ GLI_KEY_LIST, t0 ∈ vol_exit_keys := by decide

theorem ply_sub_strip : ∀ k ∈ PLY_KEY_LIST,
    pyStrip (" $" ++ k) = "$" ++ k := by decide

theorem ply_sub_exit : ∀ k ∈ PLY_KEY_LIST,
    ("$" ++ k) ∈ ply_exit_keys := by decide

theorem ply_sub_not_digit : ∀ k ∈ PLY_KEY_LIST,
    ¬(("$" ++ k) ≠ "" ∧
      pyIsdigitStr ((pySplit ("$" ++ k)).headD "") = true) := by decide

theorem srf_sub_strip : ∀ k ∈ SRF_KEY_LIST,
    pyStrip (" $" ++ k) = "$" ++ k := by decide

theorem srf_sub_exit : ∀ k ∈ SRF_KEY_LIST,
    ("$" ++ k) ∈ srf_exit_keys := by decide

theorem vol_sub_strip : ∀ k ∈ VOL_KEY_LIST,
    pyStrip (" $" ++ k) = "$" ++ k := by decide

theorem vol_sub_exit : ∀ k ∈ VOL_KEY_LIST,
    ("$" ++ k) ∈ vol_exit_keys := by decide

theorem read_ply_sec_stop (f : ℕ) (acc : Ply) (line : String)
    (rest : List String)
    (h : GLI_KEY_LIST.any (fun key => pyStartsWith line key) = true) :
    read_ply_sec (f + 1) acc line rest = Except.ok ((acc, line), 0) := by
  simp only [read_ply_sec]
  rw [if_pos h]

theorem read_srf_sec_stop (f : ℕ) (acc : Srf) (line : String)
    (rest : List String)
    (h : GLI_KEY_LIST.any (fun key => pyStartsWith line key) = true) :
    read_srf_sec (f + 1) acc line rest = Except.ok ((acc, line), 0) := by
  simp only [read_srf_sec]
  rw [if_pos h]

theorem read_vol_sec_stop (f : ℕ) (acc : Vol) (line : String)
    (rest : List String)
    (h : GLI_KEY_LIST.any (fun key => pyStartsWith line key) = true) :
    read_vol_sec (f + 1) acc line rest = Except.ok ((acc, line), 0) := by
  simp only [read_vol_sec]
  rw [if_pos h]

theorem read_ply_sec_val (f : ℕ) (acc : Ply) (k : String)
    (hk : k ∈ PLY_KEY_LIST) (hknp : k ≠ "POINTS") (vl l2 : String)
    (r2 : List String) :
    read_ply_sec (f + 1) acc ("$" ++ k) (vl :: l2 :: r2) =
      match parse_ply_val acc k vl with
      | Option.none => Except.error GliErr.exc
      | Option.some ply' =>
        match read_ply_sec f ply' (pyStrip l2) r2 with
        | Except.error e => Except.error e
        | Except.ok ((p, l), k3) => Except.ok ((p, l), 2 + k3) := by
  fin_cases hk
  · rfl
  · rfl
  · exact absurd rfl hknp
  · rfl
  · rfl
  · rfl
  · rfl

theorem read_srf_sec_val (f : ℕ) (acc : Srf) (k : String)
    (hk : k ∈ SRF_KEY_LIST) (hknp : k ≠ "POLYLINES") (vl l2 : String)
    (r2 : List String) :
    read_srf_sec (f + 1) acc ("$" ++ k) (vl :: l2 :: r2) =
      match parse_srf_val acc k vl with
      | Option.none => Except.error GliErr.exc
      | Option.some srf' =>
        match read_srf_sec f srf' (pyStrip l2) r2 with
        | Except.error e => Except.error e
        | Except.ok ((p, l), k3) => Except.ok ((p, l), 2 + k3) := by
  fin_cases hk
  · rfl
  · rfl
  · exact absurd rfl hknp
  · rfl
  · rfl
  · rfl
  · rfl

theorem read_vol_sec_val (f : ℕ) (acc : Vol) (k : String)
    (hk : k ∈ VOL_KEY_LIST) (hknp : k ≠ "SURFACES") (vl l2 : String)
    (r2 : List String) :
    read_vol_sec (f + 1) acc ("$" ++ k) (vl :: l2 :: r2) =
      match parse_vol_val acc k vl with
      | Option.none => Except.error GliErr.exc
      | Option.some vol' =>
        match read_vol_sec f vol' (pyStrip l2) r2 with
        | Except.error e => Except.error e
        | Except.ok ((p, l), k3) => Except.ok ((p, l), 2 + k3) := by
  fin_cases hk
  · rfl
  · exact absurd rfl hknp
  · rfl
  · rfl
  · rfl

theorem read_ply_sec_points (f : ℕ) (acc : Ply) (l0 : String)
    (r0 : List String) :
    read_ply_sec (f + 1) acc "$POINTS" (l0 :: r0) =
      match read_int_run (pyStrip l0) r0 with
      | ((pts, line'), k1) =>
        if line' ∈ ply_exit_keys then
          match read_ply_sec f { acc with POINTS := some pts } line'
              (r0.drop k1) with
          | Except.error e => Except.error e
          | Except.ok ((p, l), k2) => Except.ok ((p, l), 1 + k1 + k2)
        else
          match r0.drop k1 with
          | [] => Except.error GliErr.hang
          | l2 :: r2 =>
            match read_ply_sec f { acc with POINTS := some pts }
                (pyStrip l2) r2 with
            | Except.error e => Except.error e
            | Except.ok ((p, l), k3) => Except.ok ((p, l), 1 + k1 + 1 + k3) :=
  rfl

theorem read_srf_sec_polylines (f : ℕ) (acc : Srf) (l0 : String)
    (r0 : List String) :
    read_srf_sec (f + 1) acc "$POLYLINES" (l0 :: r0) =
      match read_str_run srf_exit_keys (pyStrip l0) r0 with
      | ((ps, line'), k1) =>
        if line' ∈ srf_exit_keys then
          match read_srf_sec f { acc with POLYLINES := some ps } line'
              (r0.drop k1) with
          | Except.error e => Except.error e
          | Except.ok ((p, l), k2) => Except.ok ((p, l), 1 + k1 + k2)
        else
          match r0.drop k1 with
          | [] => Except.error GliErr.hang
          | l2 :: r2 =>
            match read_srf_sec f { acc with POLYLINES := some ps }
                (pyStrip l2) r2 with
            | Except.error e => Except.error e
            | Except.ok ((p, l), k3) => Except.ok ((p, l), 1 + k1 + 1 + k3) :=
  rfl

theorem read_vol_sec_surfaces (f : ℕ) (acc : Vol) (l0 : String)
    (r0 : List String) :
    read_vol_sec (f + 1) acc "$SURFACES" (l0 :: r0) =
      match read_str_run vol_exit_keys (pyStrip l0) r0 with
      | ((ss, line'), k1) =>
        if line' ∈ vol_exit_keys then
          match read_vol_sec f { acc with SURFACES := some ss } line'
              (r0.drop k1) with
          | Except.error e => Except.error e
          | Except.ok ((p, l), k2) => Except.ok ((p, l), 1 + k1 + k2)
        else
          match r0.drop k1 with
          | [] => Except.error GliErr.hang
          | l2 :: r2 =>
            match read_vol_sec f { acc with SURFACES := some ss }
                (pyStrip l2) r2 with
            | Except.error e => Except.error e
            | Except.ok ((p, l), k3) => Except.ok ((p, l), 1 + k1 + 1 + k3) :=
  rfl

theorem read_ply_sec_val_run (f : ℕ) (acc ply' : Ply) (k : String)
    (hk : k ∈ PLY_KEY_LIST) (hknp : k ≠ "POINTS") (vl l2 : String)
    (r2 : List String) (hparse : parse_ply_val acc k vl = some ply') :
    read_ply_sec (f + 1) acc ("$" ++ k) (vl :: l2 :: r2) =
      match read_ply_sec f ply' (pyStrip l2) r2 with
      | Except.error e => Except.error e
      | Except.ok ((p, l), k3) => Except.ok ((p, l), 2 + k3) := by
  rw [read_ply_sec_val f acc k hk hknp vl l2 r2, hparse]

theorem read_srf_sec_val_run (f : ℕ) (acc srf' : Srf) (k : String)
    (hk : k ∈ SRF_KEY_LIST) (hknp : k ≠ "POLYLINES") (vl l2 : String)
    (r2 : List String) (hparse : parse_srf_val acc k vl = some srf') :
    read_srf_sec (f + 1) acc ("$" ++ k) (vl :: l2 :: r2) =
      match read_srf_sec f srf' (pyStrip l2) r2 with
      | Except.error e => Except.error e
      | Except.ok ((p, l), k3) => Except.ok ((p, l), 2 + k3) := by
  rw [read_srf_sec_val f acc k hk hknp vl l2 r2, hparse]

theorem read_vol_sec_val_run (f : ℕ) (acc vol' : Vol) (k : String)
    (hk : k ∈ VOL_KEY_LIST) (hknp : k ≠ "SURFACES") (vl l2 : String)
    (r2 : List String) (hparse : parse_vol_val acc k vl = some vol') :
    read_vol_sec (f + 1) acc ("$" ++ k) (vl :: l2 :: r2) =
      match read_vol_sec f vol' (pyStrip l2) r2 with
      | Except.error e => Except.error e
      | Except.ok ((p, l), k3) => Except.ok ((p, l), 2 + k3) := by
  rw [read_vol_sec_val f acc k hk hknp vl l2 r2, hparse]

theorem read_ply_sec_points_run (f : ℕ) (acc : Ply) (l0 : String)
    (r0 : List String) (pts : List ℤ) (line' : String) (k1 : ℕ)
    (hrun : read_int_run (pyStrip l0) r0 = ((pts, line'), k1))
    (hexit : line' ∈ ply_exit_keys) :
    read_ply_sec (f + 1) acc "$POINTS" (l0 :: r0) =
      match read_ply_sec f { acc with POINTS := some pts } line'
          (r0.drop k1) with
      | Except.error e => Except.error e
      | Except.ok ((p, l), k2) => Except.ok ((p, l), 1 + k1 + k2) := by
  rw [read_ply_sec_points f acc l0 r0, hrun]
  show (if line' ∈ ply_exit_keys then
      match read_ply_sec f { acc with POINTS := some pts } line'
          (r0.drop k1) with
      | Except.error e => Except.error e
      | Except.ok ((p, l), k2) => Except.ok ((p, l), 1 + k1 + k2)
    else
      match r0.drop k1 with
      | [] => Except.error GliErr.hang
      | l2 :: r2 =>
        match read_ply_sec f { acc with POINTS := some pts }
            (pyStrip l2) r2 with
        | Except.error e => Except.error e
        | Except.ok ((p, l), k3) => Except.ok ((p, l), 1 + k1 + 1 + k3)) = _
  rw [if_pos hexit]

theorem read_srf_sec_polylines_run (f : ℕ) (acc : Srf) (l0 : String)
    (r0 : List String) (ps : List String) (line' : String) (k1 : ℕ)
    (hrun : read_str_run srf_exit_keys (pyStrip l0) r0 = ((ps, line'), k1))
    (hexit : line' ∈ srf_exit_keys) :
    read_srf_sec (f + 1) acc "$POLYLINES" (l0 :: r0) =
      match read_srf_sec f { acc with POLYLINES := some ps } line'
          (r0.drop k1) with
      | Except.error e => Except.error e
      | Except.ok ((p, l), k2) => Except.ok ((p, l), 1 + k1 + k2) := by
  rw [read_srf_sec_polylines f acc l0 r0, hrun]
  show (if line' ∈ srf_exit_keys then
      match read_srf_sec f { acc with POLYLINES := some ps } line'
          (r0.drop k1) with
      | Except.error e => Except.error e
      | Except.ok ((p, l), k2) => Except.ok ((p, l), 1 + k1 + k2)
    else
      match r0.drop k1 with
      | [] => Except.error GliErr.hang
      | l2 :: r2 =>
        match read_srf_sec f { acc with POLYLINES := some ps }
            (pyStrip l2) r2 with
        | Except.error e => Except.error e
        | Except.ok ((p, l), k3) => Except.ok ((p, l), 1 + k1 + 1 + k3)) = _
  rw [if_pos hexit]

theorem read_vol_sec_surfaces_run (f : ℕ) (acc : Vol) (l0 : String)
    (r0 : List String) (ss : List String) (line' : String) (k1 : ℕ)
    (hrun : read_str_run vol_exit_keys (pyStrip l0) r0 = ((ss, line'), k1))
    (hexit : line' ∈ vol_exit_keys) :
    read_vol_sec (f + 1) acc "$SURFACES" (l0 :: r0) =
      match read_vol_sec f { acc with SURFACES := some ss } line'
          (r0.drop k1) with
      | Except.error e => Except.error e
      | Except.ok ((p, l), k2) => Except.ok ((p, l), 1 + k1 + k2) := by
  rw [read_vol_sec_surfaces f acc l0 r0, hrun]
  show (if line' ∈ vol_exit_keys then
      match read_vol_sec f { acc with SURFACES := some ss } line'
          (r0.drop k1) with
      | Except.error e => Except.error e
      | Except.ok ((p, l), k2) => Except.ok ((p, l), 1 + k1 + k2)
    else
      match r0.drop k1 with
      | [] => Except.error GliErr.hang
      | l2 :: r2 =>
        match read_vol_sec f { acc with SURFACES := some ss }
            (pyStrip l2) r2 with
        | Except.error e => Except.error e
        | Except.ok ((p, l), k3) => Except.ok ((p, l), 1 + k1 + 1 + k3)) = _
  rw [if_pos hexit]

theorem ply_key_lines_shape (ply : Ply) (k : String) (hk : k ∈ PLY_KEY_LIST) :
    ply_key_lines ply k = [] ∨
      ∃ r, ply_key_lines ply k = (" $" ++ k) :: r := by
  fin_cases hk
  · rcases h : ply.ID with _ | v
    · exact Or.inl (by simp [ply_key_lines, h])
    · exact Or.inr ⟨["  " ++ intToStr v],
        by rw [show ply_key_lines ply "ID" = [" $ID", "  " ++ intToStr v]
          from by simp [ply_key_lines, h],
          show (" $" ++ "ID" : String) = " $ID" from by decide]⟩
  · rcases h : ply.NAME with _ | v
    · exact Or.inl (by simp [ply_key_lines, h])
    · exact Or.inr ⟨["  " ++ v],
        by rw [show ply_key_lines ply "NAME" = [" $NAME", "  " ++ v]
          from by simp [ply_key_lines, h],
          show (" $" ++ "NAME" : String) = " $NAME" from by decide]⟩
  · rcases h : ply.POINTS with _ | v
    · exact Or.inl (by simp [ply_key_lines, h])
    · exact Or.inr ⟨v.map fun q => "  " ++ intToStr q,
        by rw [show ply_key_lines ply "POINTS" =
          " $POINTS" :: (v.map fun q => "  " ++ intToStr q)
          from by simp [ply_key_lines, h],
          show (" $" ++ "POINTS" : String) = " $POINTS" from by decide]⟩
  · rcases h : ply.EPSILON with _ | v
    · exact Or.inl (by simp [ply_key_lines, h])
    · exact Or.inr ⟨["  " ++ ratStr v],
        by rw [show ply_key_lines ply "EPSILON" = [" $EPSILON", "  " ++ ratStr v]
          from by simp [ply_key_lines, h],
          show (" $" ++ "EPSILON" : String) = " $EPSILON" from by decide]⟩
  · rcases h : ply.TYPE with _ | v
    · exact Or.inl (by simp [ply_key_lines, h])
    · exact Or.inr ⟨["  " ++ intToStr v],
        by rw [show ply_key_lines ply "TYPE" = [" $TYPE", "  " ++ intToStr v]
          from by simp [ply_key_lines, h],
          show (" $" ++ "TYPE" : String) = " $TYPE" from by decide]⟩
  · rcases h : ply.MAT_GROUP with _ | v
    · exact Or.inl (by simp [ply_key_lines, h])
    · exact Or.inr ⟨["  " ++ intToStr v],
        by rw [show ply_key_lines ply "MAT_GROUP" =
          [" $MAT_GROUP", "  " ++ intToStr v]
          from by simp [ply_key_lines, h],
          show (" $" ++ "MAT_GROUP" : String) = " $MAT_GROUP" from by decide]⟩
  · rcases h : ply.POINT_VECTOR with _ | v
    · exact Or.inl (by simp [ply_key_lines, h])
    · exact Or.inr ⟨["  " ++ v],
        by rw [show ply_key_lines ply "POINT_VECTOR" =
          [" $POINT_VECTOR", "  " ++ v]
          from by simp [ply_key_lines, h],
          show (" $" ++ "POINT_VECTOR" : String) = " $POINT_VECTOR" from by decide]⟩

theorem srf_key_lines_shape (srf : Srf) (k : String) (hk : k ∈ SRF_KEY_LIST) :
    srf_key_lines srf k = [] ∨
      ∃ r, srf_key_lines srf k = (" $" ++ k) :: r := by
  fin_cases hk
  · rcases h : srf.ID with _ | v
    · exact Or.inl (by simp [srf_key_lines, h])
    · exact Or.inr ⟨["  " ++ intToStr v],
        by rw [show srf_key_lines srf "ID" = [" $ID", "  " ++ intToStr v]
          from by simp [srf_key_lines, h],
          show (" $" ++ "ID" : String) = " $ID" from by decide]⟩
  · rcases h : srf.NAME with _ | v
    · exact Or.inl (by simp [srf_key_lines, h])
    · exact Or.inr ⟨["  " ++ v],
        by rw [show srf_key_lines srf "NAME" = [" $NAME", "  " ++ v]
          from by simp [srf_key_lines, h],
          show (" $" ++ "NAME" : String) = " $NAME" from by decide]⟩
  · rcases h : srf.POLYLINES with _ | v
    · exact Or.inl (by simp [srf_key_lines, h])
    · exact Or.inr ⟨v.map fun t => "  " ++ t,
        by rw [show srf_key_lines srf "POLYLINES" =
          " $POLYLINES" :: (v.map fun t => "  " ++ t)
          from by simp [srf_key_lines, h],
          show (" $" ++ "POLYLINES" : String) = " $POLYLINES" from by decide]⟩
  · rcases h : srf.EPSILON with _ | v
    · exact Or.inl (by simp [srf_key_lines, h])
    · exact Or.inr ⟨["  " ++ ratStr v],
        by rw [show srf_key_lines srf "EPSILON" = [" $EPSILON", "  " ++ ratStr v]
          from by simp [srf_key_lines, h],
          show (" $" ++ "EPSILON" : String) = " $EPSILON" from by decide]⟩
  · rcases h : srf.TYPE with _ | v
    · exact Or.inl (by simp [srf_key_lines, h])
    · exact Or.inr ⟨["  " ++ intToStr v],
        by rw [show srf_key_lines srf "TYPE" = [" $TYPE", "  " ++ intToStr v]
          from by simp [srf_key_lines, h],
          show (" $" ++ "TYPE" : String) = " $TYPE" from by decide]⟩
  · rcases h : srf.MAT_GROUP with _ | v
    · exact Or.inl (by simp [srf_key_lines, h])
    · exact Or.inr ⟨["  " ++ intToStr v],
        by rw [show srf_key_lines srf "MAT_GROUP" =
          [" $MAT_GROUP", "  " ++ intToStr v]
          from by simp [srf_key_lines, h],
          show (" $" ++ "MAT_GROUP" : String) = " $MAT_GROUP" from by decide]⟩
  · rcases h : srf.TIN with _ | v
    · exact Or.inl (by simp [srf_key_lines, h])
    · exact Or.inr ⟨["  " ++ v],
        by rw [show srf_key_lines srf "TIN" = [" $TIN", "  " ++ v]
          from by simp [srf_key_lines, h],
          show (" $" ++ "TIN" : String) = " $TIN" from by decide]⟩

theorem vol_key_lines_shape (vol : Vol) (k : String) (hk : k ∈ VOL_KEY_LIST) :
    vol_key_lines vol k = [] ∨
      ∃ r, vol_key_lines vol k = (" $" ++ k) :: r := by
  fin_cases hk
  · rcases h : vol.NAME with _ | v
    · exact Or.inl (by simp [vol_key_lines, h])
    · exact Or.inr ⟨["  " ++ v],
        by rw [show vol_key_lines vol "NAME" = [" $NAME", "  " ++ v]
          from by simp [vol_key_lines, h],
          show (" $" ++ "NAME" : String) = " $NAME" from by decide]⟩
  · rcases h : vol.SURFACES with _ | v
    · exact Or.inl (by simp [vol_key_lines, h])
    · exact Or.inr ⟨v.map fun t => "  " ++ t,
        by rw [show vol_key_lines vol "SURFACES" =
          " $SURFACES" :: (v.map fun t => "  " ++ t)
          from by simp [vol_key_lines, h],
          show (" $" ++ "SURFACES" : String) = " $SURFACES" from by decide]⟩
  · rcases h : vol.TYPE with _ | v
    · exact Or.inl (by simp [vol_key_lines, h])
    · exact Or.inr ⟨["  " ++ intToStr v],
        by rw [show vol_key_lines vol "TYPE" = [" $TYPE", "  " ++ intToStr v]
          from by simp [vol_key_lines, h],
          show (" $" ++ "TYPE" : String) = " $TYPE" from by decide]⟩
  · rcases h : vol.MAT_GROUP with _ | v
    · exact Or.inl (by simp [vol_key_lines, h])
    · exact Or.inr ⟨["  " ++ intToStr v],
        by rw [show vol_key_lines vol "MAT_GROUP" =
          [" $MAT_GROUP", "  " ++ intToStr v]
          from by simp [vol_key_lines, h],
          show (" $" ++ "MAT_GROUP" : String) = " $MAT_GROUP" from by decide]⟩
  · rcases h : vol.LAYER with _ | v
    · exact Or.inl (by simp [vol_key_lines, h])
    · exact Or.inr ⟨["  " ++ intToStr v],
        by rw [show vol_key_lines vol "LAYER" = [" $LAYER", "  " ++ intToStr v]
          from by simp [vol_key_lines, h],
          show (" $" ++ "LAYER" : String) = " $LAYER" from by decide]⟩

theorem ply_flat_head : ∀ (ks : List String),
    (∀ k ∈ ks, k ∈ PLY_KEY_LIST) → ∀ (ply : Ply),
    ks.flatMap (ply_key_lines ply) = [] ∨
      ∃ k r, k ∈ PLY_KEY_LIST ∧
        ks.flatMap (ply_key_lines ply) = (" $" ++ k) :: r := by
  intro ks
  induction ks with
  | nil => intro _ ply; exact Or.inl rfl
  | cons k' ks ih =>
    intro hks ply
    have hk' := hks k' (List.mem_cons_self _ _)
    have hks' : ∀ x ∈ ks, x ∈ PLY_KEY_LIST :=
      fun x hx => hks x (List.mem_cons_of_mem _ hx)
    rcases ply_key_lines_shape ply k' hk' with hz | ⟨r, hr⟩
    · rw [List.flatMap_cons, hz, List.nil_append]
      exact ih hks' ply
    · rw [List.flatMap_cons, hr, List.cons_append]
      exact Or.inr ⟨k', r ++ ks.flatMap (ply_key_lines ply), hk', rfl⟩

theorem srf_flat_head : ∀ (ks : List String),
    (∀ k ∈ ks, k ∈ SRF_KEY_LIST) → ∀ (srf : Srf),
    ks.flatMap (srf_key_lines srf) = [] ∨
      ∃ k r, k ∈ SRF_KEY_LIST ∧
        ks.flatMap (srf_key_lines srf) = (" $" ++ k) :: r := by
  intro ks
  induction ks with
  | nil => intro _ srf; exact Or.inl rfl
  | cons k' ks ih =>
    intro hks srf
    have hk' := hks k' (List.mem_cons_self _ _)
    have hks' : ∀ x ∈ ks, x ∈ SRF_KEY_LIST :=
      fun x hx => hks x (List.mem_cons_of_mem _ hx)
    rcases srf_key_lines_shape srf k' hk' with hz | ⟨r, hr⟩
    · rw [List.flatMap_cons, hz, List.nil_append]
      exact ih hks' srf
    · rw [List.flatMap_cons, hr, List.cons_append]
      exact Or.inr ⟨k', r ++ ks.flatMap (srf_key_lines srf), hk', rfl⟩

theorem vol_flat_head : ∀ (ks : List String),
    (∀ k ∈ ks, k ∈ VOL_KEY_LIST) → ∀ (vol : Vol),
    ks.flatMap (vol_key_lines vol) = [] ∨
      ∃ k r, k ∈ VOL_KEY_LIST ∧
        ks.flatMap (vol_key_lines vol) = (" $" ++ k) :: r := by
  intro ks
  induction ks with
  | nil => intro _ vol; exact Or.inl rfl
  | cons k' ks ih =>
    intro hks vol
    have hk' := hks k' (List.mem_cons_self _ _)
    have hks' : ∀ x ∈ ks, x ∈ VOL_KEY_LIST :=
      fun x hx => hks x (List.mem_cons_of_mem _ hx)
    rcases vol_key_lines_shape vol k' hk' with hz | ⟨r, hr⟩
    · rw [List.flatMap_cons, hz, List.nil_append]
      exact ih hks' vol
    · rw [List.flatMap_cons, hr, List.cons_append]
      exact Or.inr ⟨k', r ++ ks.flatMap (vol_key_lines vol), hk', rfl⟩

theorem ply_flat_ex (ks : List String) (hks : ∀ k ∈ ks, k ∈ PLY_KEY_LIST)
    (ply : Ply) (t0 : String) (ht0 : t0 ∈ GLI_KEY_LIST) (ts : List String) :
    ∃ w0 ws, ks.flatMap (ply_key_lines ply) ++ t0 :: ts = w0 :: ws ∧
      pyStrip w0 ∈ ply_exit_keys ∧
      ¬(pyStrip w0 ≠ "" ∧
        pyIsdigitStr ((pySplit (pyStrip w0)).headD "") = true) := by
  rcases ply_flat_head ks hks ply with hz | ⟨k, r, hk, hr⟩
  · refine ⟨t0, ts, by rw [hz]; rfl, ?_, ?_⟩
    · rw [gli_strip t0 ht0]
      exact gli_in_ply_exit t0 ht0
    · rw [gli_strip t0 ht0]
      exact gli_not_digit_cond t0 ht0
  · refine ⟨" $" ++ k, r ++ t0 :: ts, by rw [hr]; rfl, ?_, ?_⟩
    · rw [ply_sub_strip k hk]
      exact ply_sub_exit k hk
    · rw [ply_sub_strip k hk]
      exact ply_sub_not_digit k hk

theorem srf_flat_ex (ks : List String) (hks : ∀ k ∈ ks, k ∈ SRF_KEY_LIST)
    (srf : Srf) (t0 : String) (ht0 : t0 ∈ GLI_KEY_LIST) (ts : List String) :
    ∃ w0 ws, ks.flatMap (srf_key_lines srf) ++ t0 :: ts = w0 :: ws ∧
      pyStrip w0 ∈ srf_exit_keys := by
  rcases srf_flat_head ks hks srf with hz | ⟨k, r, hk, hr⟩
  · refine ⟨t0, ts, by rw [hz]; rfl, ?_⟩
    rw [gli_strip t0 ht0]
    exact gli_in_srf_exit t0 ht0
  · refine ⟨" $" ++ k, r ++ t0 :: ts, by rw [hr]; rfl, ?_⟩
    rw [srf_sub_strip k hk]
    exact srf_sub_exit k hk

theorem vol_flat_ex (ks : List String) (hks : ∀ k ∈ ks, k ∈ VOL_KEY_LIST)
    (vol : Vol) (t0 : String) (ht0 : t0 ∈ GLI_KEY_LIST) (ts : List String) :
    ∃ w0 ws, ks.flatMap (vol_key_lines vol) ++ t0 :: ts = w0 :: ws ∧
      pyStrip w0 ∈ vol_exit_keys := by
  rcases vol_flat_head ks hks vol with hz | ⟨k, r, hk, hr⟩
  · refine ⟨t0, ts, by rw [hz]; rfl, ?_⟩
    rw [gli_strip t0 ht0]
    exact gli_in_vol_exit t0 ht0
  · refine ⟨" $" ++ k, r ++ t0 :: ts, by rw [hr]; rfl, ?_⟩
    rw [vol_sub_strip k hk]
    exact vol_sub_exit k hk

theorem wfOptTok_some {v : String} (h : wfOptTok (some v) = true) :
    wfTok v = true := h

theorem wfOptDec_some {q : ℚ} (h : wfOptDec (some q) = true) : IsDec q := by
  simpa [wfOptDec] using h

theorem wfPly_parts {p : Ply} (h : wfPly p = true) :
    wfOptTok p.NAME = true ∧ wfOptTok p.POINT_VECTOR = true ∧
    wfOptDec p.EPSILON = true ∧
    ∀ pts, p.POINTS = some pts → ∀ x ∈ pts, 0 ≤ x := by
  rw [wfPly] at h
  simp only [Bool.and_eq_true] at h
  refine ⟨h.1.1.1, h.1.1.2, h.1.2, ?_⟩
  intro pts hp x hx
  have h2 := h.2
  rw [hp] at h2
  simp only [List.all_eq_true, decide_eq_true_eq] at h2
  exact h2 x hx

theorem wfSrf_parts {s : Srf} (h : wfSrf s = true) :
    wfOptTok s.NAME = true ∧ wfOptTok s.TIN = true ∧
    wfOptDec s.EPSILON = true ∧
    ∀ ps, s.POLYLINES = some ps →
      ∀ x ∈ ps, wfTok x = true ∧ x ∉ srf_exit_keys := by
  rw [wfSrf] at h
  simp only [Bool.and_eq_true] at h
  refine ⟨h.1.1.1, h.1.1.2, h.1.2, ?_⟩
  intro ps hp x hx
  have h2 := h.2
  rw [hp] at h2
  simp only [List.all_eq_true, Bool.and_eq_true, decide_eq_true_eq] at h2
  exact h2 x hx

theorem wfVol_parts {v : Vol} (h : wfVol v = true) :
    wfOptTok v.NAME = true ∧
    ∀ ss, v.SURFACES = some ss →
      ∀ x ∈ ss, wfTok x = true ∧ x ∉ vol_exit_keys := by
  rw [wfVol] at h
  simp only [Bool.and_eq_true] at h
  refine ⟨h.1, ?_⟩
  intro ss hp x hx
  have h2 := h.2
  rw [hp] at h2
  simp only [List.all_eq_true, Bool.and_eq_true, decide_eq_true_eq] at h2
  exact h2 x hx

theorem mergePly_full (ply : Ply) :
    mergePly EMPTY_PLY ply PLY_KEY_LIST = ply := by
  rcases ply with ⟨i, n, pt, e, t, m, pv⟩
  rcases i <;> rcases n <;> rcases pt <;> rcases e <;> rcases t <;>
    rcases m <;> rcases pv <;> rfl

theorem mergeSrf_full (srf : Srf) :
    mergeSrf EMPTY_SRF srf SRF_KEY_LIST = srf := by
  rcases srf with ⟨i, n, pl, e, t, m, ti⟩
  rcases i <;> rcases n <;> rcases pl <;> rcases e <;> rcases t <;>
    rcases m <;> rcases ti <;> rfl

theorem mergeVol_full (vol : Vol) :
    mergeVol EMPTY_VOL vol VOL_KEY_LIST = vol := by
  rcases vol with ⟨n, ss, t, m, la⟩
  rcases n <;> rcases ss <;> rcases t <;> rcases m <;> rcases la <;> rfl

theorem read_ply_sec_writer :
    ∀ (ks : List String), (∀ k ∈ ks, k ∈ PLY_KEY_LIST) →
    ∀ (ply : Ply), wfPly ply = true →
    ∀ (acc : Ply) (t0 : String), t0 ∈ GLI_KEY_LIST →
    ∀ (ts : List String) (l0 : String) (r0 : List String),
    ks.flatMap (ply_key_lines ply) ++ t0 :: ts = l0 :: r0 →
    ∀ (fuel : ℕ), (ks.flatMap (ply_key_lines ply)).length + 1 ≤ fuel →
    read_ply_sec fuel acc (pyStrip l0) r0 =
      Except.ok ((mergePly acc ply ks, t0),
        (ks.flatMap (ply_key_lines ply)).length) := by
  intro ks
  induction ks with
  | nil =>
    intro _ ply hwf acc t0 ht0 ts l0 r0 hsh fuel hfuel
    rcases fuel with _ | f
    · omega
    rw [List.flatMap_nil, List.nil_append] at hsh
    injection hsh with h1 h2
    subst h1
    subst h2
    rw [gli_strip t0 ht0, read_ply_sec_stop f acc t0 ts (gli_any_self t0 ht0)]
    rfl
  | cons k ks ih =>
    intro hks ply hwf acc t0 ht0 ts l0 r0 hsh fuel hfuel
    have hk : k ∈ PLY_KEY_LIST := hks k (List.mem_cons_self _ _)
    have hks' : ∀ x ∈ ks, x ∈ PLY_KEY_LIST :=
      fun x hx => hks x (List.mem_cons_of_mem _ hx)
    have hparts := wfPly_parts hwf
    fin_cases hk
    · -- ID
      rcases hv : ply.ID with _ | v
      · have hbl : ply_key_lines ply "ID" = [] := by
          simp [ply_key_lines, hv]
        rw [List.flatMap_cons, hbl, List.nil_append] at hsh hfuel ⊢
        rw [show mergePly acc ply ("ID" :: ks) = mergePly acc ply ks from by
          simp [mergePly, hv]]
        exact ih hks' ply hwf acc t0 ht0 ts l0 r0 hsh fuel hfuel
      · have hbl : ply_key_lines ply "ID" = [" $ID", "  " ++ intToStr v] := by
          simp [ply_key_lines, hv]
        rw [List.flatMap_cons, hbl] at hsh hfuel ⊢
        simp only [List.cons_append, List.nil_append] at hsh
        obtain ⟨w1, ws1, hw, hwx1, hwx2⟩ := ply_flat_ex ks hks' ply t0 ht0 ts
        rw [hw] at hsh
        injection hsh with h1 h2
        subst h1
        subst h2
        rcases fuel with _ | f
        · simp only [List.length_append, List.length_cons,
            List.length_nil] at hfuel
          omega
        rw [show pyStrip " $ID" = "$" ++ "ID" from rfl]
        have hparse : parse_ply_val acc "ID" ("  " ++ intToStr v) =
            some { acc with ID := some v } := by
          simp [parse_ply_val, pySplit_pad (intToStr_wfTok v), pyInt?_intToStr]
        rw [read_ply_sec_val_run f acc { acc with ID := some v } "ID"
          (by decide) (by decide) ("  " ++ intToStr v) w1 ws1 hparse]
        rw [ih hks' ply hwf { acc with ID := some v } t0 ht0 ts w1 ws1 hw f
          (by simp only [List.length_append, List.length_cons,
            List.length_nil] at hfuel
              omega)]
        rw [show mergePly acc ply ("ID" :: ks) =
          mergePly { acc with ID := some v } ply ks from by
          simp [mergePly, hv]]
        show Except.ok ((mergePly { acc with ID := some v } ply ks, t0),
          2 + (ks.flatMap (ply_key_lines ply)).length) = _
        congr 2
        all_goals try simp only [List.length_append, List.length_cons,
          List.length_nil, List.length_map]
        all_goals omega
    · -- NAME
      rcases hv : ply.NAME with _ | v
      · have hbl : ply_key_lines ply "NAME" = [] := by
          simp [ply_key_lines, hv]
        rw [List.flatMap_cons, hbl, List.nil_append] at hsh hfuel ⊢
        rw [show mergePly acc ply ("NAME" :: ks) = mergePly acc ply ks from by
          simp [mergePly, hv]]
        exact ih hks' ply hwf acc t0 ht0 ts l0 r0 hsh fuel hfuel
      · have hbl : ply_key_lines ply "NAME" = [" $NAME", "  " ++ v] := by
          simp [ply_key_lines, hv]
        rw [List.flatMap_cons, hbl] at hsh hfuel ⊢
        simp only [List.cons_append, List.nil_append] at hsh
        obtain ⟨w1, ws1, hw, hwx1, hwx2⟩ := ply_flat_ex ks hks' ply t0 ht0 ts
        rw [hw] at hsh
        injection hsh with h1 h2
        subst h1
        subst h2
        rcases fuel with _ | f
        · simp only [List.length_append, List.length_cons,
            List.length_nil] at hfuel
          omega
        rw [show pyStrip " $NAME" = "$" ++ "NAME" from rfl]
        have hwfv : wfTok v = true := by
          have hh := hparts.1
          rw [hv] at hh
          exact hh
        have hparse : parse_ply_val acc "NAME" ("  " ++ v) =
            some { acc with NAME := some v } := by
          simp [parse_ply_val, pySplit_pad hwfv]
        rw [read_ply_sec_val_run f acc { acc with NAME := some v } "NAME"
          (by decide) (by decide) ("  " ++ v) w1 ws1 hparse]
        rw [ih hks' ply hwf { acc with NAME := some v } t0 ht0 ts w1 ws1 hw f
          (by simp only [List.length_append, List.length_cons,
            List.length_nil] at hfuel
              omega)]
        rw [show mergePly acc ply ("NAME" :: ks) =
          mergePly { acc with NAME := some v } ply ks from by
          simp [mergePly, hv]]
        show Except.ok ((mergePly { acc with NAME := some v } ply ks, t0),
          2 + (ks.flatMap (ply_key_lines ply)).length) = _
        congr 2
        all_goals try simp only [List.length_append, List.length_cons,
          List.length_nil, List.length_map]
        all_goals omega
    · -- POINTS (integer run)
      rcases hv : ply.POINTS with _ | pts
      · have hbl : ply_key_lines ply "POINTS" = [] := by
          simp [ply_key_lines, hv]
        rw [List.flatMap_cons, hbl, List.nil_append] at hsh hfuel ⊢
        rw [show mergePly acc ply ("POINTS" :: ks) = mergePly acc ply ks from by
          simp [mergePly, hv]]
        exact ih hks' ply hwf acc t0 ht0 ts l0 r0 hsh fuel hfuel
      · have hbl : ply_key_lines ply "POINTS" =
            " $POINTS" :: (pts.map fun q => "  " ++ intToStr q) := by
          simp [ply_key_lines, hv]
        rw [List.flatMap_cons, hbl] at hsh hfuel ⊢
        simp only [List.cons_append, List.append_assoc] at hsh
        obtain ⟨w1, ws1, hw, hwexit, hwdig⟩ := ply_flat_ex ks hks' ply t0 ht0 ts
        rw [hw] at hsh
        injection hsh with h1 h2
        subst h1
        subst h2
        rcases fuel with _ | f
        · simp only [List.length_append, List.length_cons,
            List.length_map] at hfuel
          omega
        rw [show pyStrip " $POINTS" = "$POINTS" from rfl]
        obtain ⟨a0, as0, ha⟩ := cons_of_append_cons
          (pts.map fun q => "  " ++ intToStr q) w1 ws1
        rw [ha]
        have hptsnn : ∀ x ∈ pts, 0 ≤ x := hparts.2.2.2 pts hv
        have hrun := read_int_run_writer pts hptsnn w1 ws1 a0 as0 ha hwdig
        have hdrop : as0.drop pts.length = ws1 := by
          have hd := drop_block ha
          rwa [List.length_map] at hd
        rw [read_ply_sec_points_run f acc a0 as0 pts (pyStrip w1) pts.length
          hrun hwexit, hdrop]
        rw [ih hks' ply hwf { acc with POINTS := some pts } t0 ht0 ts w1 ws1 hw f
          (by simp only [List.length_append, List.length_cons,
            List.length_map] at hfuel
              omega)]
        rw [show mergePly acc ply ("POINTS" :: ks) =
          mergePly { acc with POINTS := some pts } ply ks from by
          simp [mergePly, hv]]
        show Except.ok ((mergePly { acc with POINTS := some pts } ply ks, t0),
          1 + pts.length + (ks.flatMap (ply_key_lines ply)).length) = _
        congr 2
        all_goals try simp only [List.length_append, List.length_cons,
          List.length_nil, List.length_map]
        all_goals omega
    · -- EPSILON
      rcases hv : ply.EPSILON with _ | v
      · have hbl : ply_key_lines ply "EPSILON" = [] := by
          simp [ply_key_lines, hv]
        rw [List.flatMap_cons, hbl, List.nil_append] at hsh hfuel ⊢
        rw [show mergePly acc ply ("EPSILON" :: ks) = mergePly acc ply ks from by
          simp [mergePly, hv]]
        exact ih hks' ply hwf acc t0 ht0 ts l0 r0 hsh fuel hfuel
      · have hbl : ply_key_lines ply "EPSILON" = [" $EPSILON", "  " ++ ratStr v] := by
          simp [ply_key_lines, hv]
        rw [List.flatMap_cons, hbl] at hsh hfuel ⊢
        simp only [List.cons_append, List.nil_append] at hsh
        obtain ⟨w1, ws1, hw, hwx1, hwx2⟩ := ply_flat_ex ks hks' ply t0 ht0 ts
        rw [hw] at hsh
        injection hsh with h1 h2
        subst h1
        subst h2
        rcases fuel with _ | f
        · simp only [List.length_append, List.length_cons,
            List.length_nil] at hfuel
          omega
        rw [show pyStrip " $EPSILON" = "$" ++ "EPSILON" from rfl]
        have hdec : IsDec v := by
          have hh := hparts.2.2.1
          rw [hv] at hh
          exact wfOptDec_some hh
        have hparse : parse_ply_val acc "EPSILON" ("  " ++ ratStr v) =
            some { acc with EPSILON := some v } := by
          simp [parse_ply_val, pySplit_pad (ratStr_wfTok v), strRat?_ratStr hdec]
        rw [read_ply_sec_val_run f acc { acc with EPSILON := some v } "EPSILON"
          (by decide) (by decide) ("  " ++ ratStr v) w1 ws1 hparse]
        rw [ih hks' ply hwf { acc with EPSILON := some v } t0 ht0 ts w1 ws1 hw f
          (by simp only [List.length_append, List.length_cons,
            List.length_nil] at hfuel
              omega)]
        rw [show mergePly acc ply ("EPSILON" :: ks) =
          mergePly { acc with EPSILON := some v } ply ks from by
          simp [mergePly, hv]]
        show Except.ok ((mergePly { acc with EPSILON := some v } ply ks, t0),
          2 + (ks.flatMap (ply_key_lines ply)).length) = _
        congr 2
        all_goals try simp only [List.length_append, List.length_cons,
          List.length_nil, List.length_map]
        all_goals omega
    · -- TYPE
      rcases hv : ply.TYPE with _ | v
      · have hbl : ply_key_lines ply "TYPE" = [] := by
          simp [ply_key_lines, hv]
        rw [List.flatMap_cons, hbl, List.nil_append] at hsh hfuel ⊢
        rw [show mergePly acc ply ("TYPE" :: ks) = mergePly acc ply ks from by
          simp [mergePly, hv]]
        exact ih hks' ply hwf acc t0 ht0 ts l0 r0 hsh fuel hfuel
      · have hbl : ply_key_lines ply "TYPE" = [" $TYPE", "  " ++ intToStr v] := by
          simp [ply_key_lines, hv]
        rw [List.flatMap_cons, hbl] at hsh hfuel ⊢
        simp only [List.cons_append, List.nil_append] at hsh
        obtain ⟨w1, ws1, hw, hwx1, hwx2⟩ := ply_flat_ex ks hks' ply t0 ht0 ts
        rw [hw] at hsh
        injection hsh with h1 h2
        subst h1
        subst h2
        rcases fuel with _ | f
        · simp only [List.length_append, List.length_cons,
            List.length_nil] at hfuel
          omega
        rw [show pyStrip " $TYPE" = "$" ++ "TYPE" from rfl]
        have hparse : parse_ply_val acc "TYPE" ("  " ++ intToStr v) =
            some { acc with TYPE := some v } := by
          simp [parse_ply_val, pySplit_pad (intToStr_wfTok v), pyInt?_intToStr]
        rw [read_ply_sec_val_run f acc { acc with TYPE := some v } "TYPE"
          (by decide) (by decide) ("  " ++ intToStr v) w1 ws1 hparse]
        rw [ih hks' ply hwf { acc with TYPE := some v } t0 ht0 ts w1 ws1 hw f
          (by simp only [List.length_append, List.length_cons,
            List.length_nil] at hfuel
              omega)]
        rw [show mergePly acc ply ("TYPE" :: ks) =
          mergePly { acc with TYPE := some v } ply ks from by
          simp [mergePly, hv]]
        show Except.ok ((mergePly { acc with TYPE := some v } ply ks, t0),
          2 + (ks.flatMap (ply_key_lines ply)).length) = _
        congr 2
        all_goals try simp only [List.length_append, List.length_cons,
          List.length_nil, List.length_map]
        all_goals omega
    · -- MAT_GROUP
      rcases hv : ply.MAT_GROUP with _ | v
      · have hbl : ply_key_lines ply "MAT_GROUP" = [] := by
          simp [ply_key_lines, hv]
        rw [List.flatMap_cons, hbl, List.nil_append] at hsh hfuel ⊢
        rw [show mergePly acc ply ("MAT_GROUP" :: ks) = mergePly acc ply ks from by
          simp [mergePly, hv]]
        exact ih hks' ply hwf acc t0 ht0 ts l0 r0 hsh fuel hfuel
      · have hbl : ply_key_lines ply "MAT_GROUP" = [" $MAT_GROUP", "  " ++ intToStr v] := by
          simp [ply_key_lines, hv]
        rw [List.flatMap_cons, hbl] at hsh hfuel ⊢
        simp only [List.cons_append, List.nil_append] at hsh
        obtain ⟨w1, ws1, hw, hwx1, hwx2⟩ := ply_flat_ex ks hks' ply t0 ht0 ts
        rw [hw] at hsh
        injection hsh with h1 h2
        subst h1
        subst h2
        rcases fuel with _ | f
        · simp only [List.length_append, List.length_cons,
            List.length_nil] at hfuel
          omega
        rw [show pyStrip " $MAT_GROUP" = "$" ++ "MAT_GROUP" from rfl]
        have hparse : parse_ply_val acc "MAT_GROUP" ("  " ++ intToStr v) =
            some { acc with MAT_GROUP := some v } := by
          simp [parse_ply_val, pySplit_pad (intToStr_wfTok v), pyInt?_intToStr]
        rw [read_ply_sec_val_run f acc { acc with MAT_GROUP := some v } "MAT_GROUP"
          (by decide) (by decide) ("  " ++ intToStr v) w1 ws1 hparse]
        rw [ih hks' ply hwf { acc with MAT_GROUP := some v } t0 ht0 ts w1 ws1 hw f
          (by simp only [List.length_append, List.length_cons,
            List.length_nil] at hfuel
              omega)]
        rw [show mergePly acc ply ("MAT_GROUP" :: ks) =
          mergePly { acc with MAT_GROUP := some v } ply ks from by
          simp [mergePly, hv]]
        show Except.ok ((mergePly { acc with MAT_GROUP := some v } ply ks, t0),
          2 + (ks.flatMap (ply_key_lines ply)).length) = _
        congr 2
        all_goals try simp only [List.length_append, List.length_cons,
          List.length_nil, List.length_map]
        all_goals omega
    · -- POINT_VECTOR
      rcases hv : ply.POINT_VECTOR with _ | v
      · have hbl : ply_key_lines ply "POINT_VECTOR" = [] := by
          simp [ply_key_lines, hv]
        rw [List.flatMap_cons, hbl, List.nil_append] at hsh hfuel ⊢
        rw [show mergePly acc ply ("POINT_VECTOR" :: ks) = mergePly acc ply ks from by
          simp [mergePly, hv]]
        exact ih hks' ply hwf acc t0 ht0 ts l0 r0 hsh fuel hfuel
      · have hbl : ply_key_lines ply "POINT_VECTOR" = [" $POINT_VECTOR", "  " ++ v] := by
          simp [ply_key_lines, hv]
        rw [List.flatMap_cons, hbl] at hsh hfuel ⊢
        simp only [List.cons_append, List.nil_append] at hsh
        obtain ⟨w1, ws1, hw, hwx1, hwx2⟩ := ply_flat_ex ks hks' ply t0 ht0 ts
        rw [hw] at hsh
        injection hsh with h1 h2
        subst h1
        subst h2
        rcases fuel with _ | f
        · simp only [List.length_append, List.length_cons,
            List.length_nil] at hfuel
          omega
        rw [show pyStrip " $POINT_VECTOR" = "$" ++ "POINT_VECTOR" from rfl]
        have hwfv : wfTok v = true := by
          have hh := hparts.2.1
          rw [hv] at hh
          exact hh
        have hparse : parse_ply_val acc "POINT_VECTOR" ("  " ++ v) =
            some { acc with POINT_VECTOR := some v } := by
          simp [parse_ply_val, pySplit_pad hwfv]
        rw [read_ply_sec_val_run f acc { acc with POINT_VECTOR := some v } "POINT_VECTOR"
          (by decide) (by decide) ("  " ++ v) w1 ws1 hparse]
        rw [ih hks' ply hwf { acc with POINT_VECTOR := some v } t0 ht0 ts w1 ws1 hw f
          (by simp only [List.length_append, List.length_cons,
            List.length_nil] at hfuel
              omega)]
        rw [show mergePly acc ply ("POINT_VECTOR" :: ks) =
          mergePly { acc with POINT_VECTOR := some v } ply ks from by
          simp [mergePly, hv]]
        show Except.ok ((mergePly { acc with POINT_VECTOR := some v } ply ks, t0),
          2 + (ks.flatMap (ply_key_lines ply)).length) = _
        congr 2
        all_goals try simp only [List.length_append, List.length_cons,
          List.length_nil, List.length_map]
        all_goals omega

theorem read_srf_sec_writer :
    ∀ (ks : List String), (∀ k ∈ ks, k ∈ SRF_KEY_LIST) →
    ∀ (ply : Srf), wfSrf ply = true →
    ∀ (acc : Srf) (t0 : String), t0 ∈ GLI_KEY_LIST →
    ∀ (ts : List String) (l0 : String) (r0 : List String),
    ks.flatMap (srf_key_lines ply) ++ t0 :: ts = l0 :: r0 →
    ∀ (fuel : ℕ), (ks.flatMap (srf_key_lines ply)).length + 1 ≤ fuel →
    read_srf_sec fuel acc (pyStrip l0) r0 =
      Except.ok ((mergeSrf acc ply ks, t0),
        (ks.flatMap (srf_key_lines ply)).length) := by
  intro ks
  induction ks with
  | nil =>
    intro _ ply hwf acc t0 ht0 ts l0 r0 hsh fuel hfuel
    rcases fuel with _ | f
    · omega
    rw [List.flatMap_nil, List.nil_append] at hsh
    injection hsh with h1 h2
    subst h1
    subst h2
    rw [gli_strip t0 ht0, read_srf_sec_stop f acc t0 ts (gli_any_self t0 ht0)]
    rfl
  | cons k ks ih =>
    intro hks ply hwf acc t0 ht0 ts l0 r0 hsh fuel hfuel
    have hk : k ∈ SRF_KEY_LIST := hks k (List.mem_cons_self _ _)
    have hks' : ∀ x ∈ ks, x ∈ SRF_KEY_LIST :=
      fun x hx => hks x (List.mem_cons_of_mem _ hx)
    have hparts := wfSrf_parts hwf
    fin_cases hk
    · -- ID
      rcases hv : ply.ID with _ | v
      · have hbl : srf_key_lines ply "ID" = [] := by
          simp [srf_key_lines, hv]
        rw [List.flatMap_cons, hbl, List.nil_append] at hsh hfuel ⊢
        rw [show mergeSrf acc ply ("ID" :: ks) = mergeSrf acc ply ks from by
          simp [mergeSrf, hv]]
        exact ih hks' ply hwf acc t0 ht0 ts l0 r0 hsh fuel hfuel
      · have hbl : srf_key_lines ply "ID" = [" $ID", "  " ++ intToStr v] := by
          simp [srf_key_lines, hv]
        rw [List.flatMap_cons, hbl] at hsh hfuel ⊢
        simp only [List.cons_append, List.nil_append] at hsh
        obtain ⟨w1, ws1, hw, -⟩ := srf_flat_ex ks hks' ply t0 ht0 ts
        rw [hw] at hsh
        injection hsh with h1 h2
        subst h1
        subst h2
        rcases fuel with _ | f
        · simp only [List.length_append, List.length_cons,
            List.length_nil] at hfuel
          omega
        rw [show pyStrip " $ID" = "$" ++ "ID" from rfl]
        have hparse : parse_srf_val acc "ID" ("  " ++ intToStr v) =
            some { acc with ID := some v } := by
          simp [parse_srf_val, pySplit_pad (intToStr_wfTok v), pyInt?_intToStr]
        rw [read_srf_sec_val_run f acc { acc with ID := some v } "ID"
          (by decide) (by decide) ("  " ++ intToStr v) w1 ws1 hparse]
        rw [ih hks' ply hwf { acc with ID := some v } t0 ht0 ts w1 ws1 hw f
          (by simp only [List.length_append, List.length_cons,
            List.length_nil] at hfuel
              omega)]
        rw [show mergeSrf acc ply ("ID" :: ks) =
          mergeSrf { acc with ID := some v } ply ks from by
          simp [mergeSrf, hv]]
        show Except.ok ((mergeSrf { acc with ID := some v } ply ks, t0),
          2 + (ks.flatMap (srf_key_lines ply)).length) = _
        congr 2
        all_goals try simp only [List.length_append, List.length_cons,
          List.length_nil, List.length_map]
        all_goals omega
    · -- NAME
      rcases hv : ply.NAME with _ | v
      · have hbl : srf_key_lines ply "NAME" = [] := by
          simp [srf_key_lines, hv]
        rw [List.flatMap_cons, hbl, List.nil_append] at hsh hfuel ⊢
        rw [show mergeSrf acc ply ("NAME" :: ks) = mergeSrf acc ply ks from by
          simp [mergeSrf, hv]]
        exact ih hks' ply hwf acc t0 ht0 ts l0 r0 hsh fuel hfuel
      · have hbl : srf_key_lines ply "NAME" = [" $NAME", "  " ++ v] := by
          simp [srf_key_lines, hv]
        rw [List.flatMap_cons, hbl] at hsh hfuel ⊢
        simp only [List.cons_append, List.nil_append] at hsh
        obtain ⟨w1, ws1, hw, -⟩ := srf_flat_ex ks hks' ply t0 ht0 ts
        rw [hw] at hsh
        injection hsh with h1 h2
        subst h1
        subst h2
        rcases fuel with _ | f
        · simp only [List.length_append, List.length_cons,
            List.length_nil] at hfuel
          omega
        rw [show pyStrip " $NAME" = "$" ++ "NAME" from rfl]
        have hwfv : wfTok v = true := by
          have hh := hparts.1
          rw [hv] at hh
          exact hh
        have hparse : parse_srf_val acc "NAME" ("  " ++ v) =
            some { acc with NAME := some v } := by
          simp [parse_srf_val, pySplit_pad hwfv]
        rw [read_srf_sec_val_run f acc { acc with NAME := some v } "NAME"
          (by decide) (by decide) ("  " ++ v) w1 ws1 hparse]
        rw [ih hks' ply hwf { acc with NAME := some v } t0 ht0 ts w1 ws1 hw f
          (by simp only [List.length_append, List.length_cons,
            List.length_nil] at hfuel
              omega)]
        rw [show mergeSrf acc ply ("NAME" :: ks) =
          mergeSrf { acc with NAME := some v } ply ks from by
          simp [mergeSrf, hv]]
        show Except.ok ((mergeSrf { acc with NAME := some v } ply ks, t0),
          2 + (ks.flatMap (srf_key_lines ply)).length) = _
        congr 2
        all_goals try simp only [List.length_append, List.length_cons,
          List.length_nil, List.length_map]
        all_goals omega
    · -- POLYLINES (reference run)
      rcases hv : ply.POLYLINES with _ | ps
      · have hbl : srf_key_lines ply "POLYLINES" = [] := by
          simp [srf_key_lines, hv]
        rw [List.flatMap_cons, hbl, List.nil_append] at hsh hfuel ⊢
        rw [show mergeSrf acc ply ("POLYLINES" :: ks) = mergeSrf acc ply ks from by
          simp [mergeSrf, hv]]
        exact ih hks' ply hwf acc t0 ht0 ts l0 r0 hsh fuel hfuel
      · have hbl : srf_key_lines ply "POLYLINES" =
            " $POLYLINES" :: (ps.map fun t => "  " ++ t) := by
          simp [srf_key_lines, hv]
        rw [List.flatMap_cons, hbl] at hsh hfuel ⊢
        simp only [List.cons_append, List.append_assoc] at hsh
        obtain ⟨w1, ws1, hw, hwexit⟩ := srf_flat_ex ks hks' ply t0 ht0 ts
        rw [hw] at hsh
        injection hsh with h1 h2
        subst h1
        subst h2
        rcases fuel with _ | f
        · simp only [List.length_append, List.length_cons,
            List.length_map] at hfuel
          omega
        rw [show pyStrip " $POLYLINES" = "$POLYLINES" from rfl]
        obtain ⟨a0, as0, ha⟩ := cons_of_append_cons
          (ps.map fun t => "  " ++ t) w1 ws1
        rw [ha]
        have htoks : ∀ x ∈ ps, wfTok x = true ∧ x ∉ srf_exit_keys :=
          hparts.2.2.2 ps hv
        have hrun := read_str_run_writer srf_exit_keys ps htoks w1 ws1 hwexit
          a0 as0 ha
        have hdrop : as0.drop ps.length = ws1 := by
          have hd := drop_block ha
          rwa [List.length_map] at hd
        rw [read_srf_sec_polylines_run f acc a0 as0 ps (pyStrip w1) ps.length
          hrun hwexit, hdrop]
        rw [ih hks' ply hwf { acc with POLYLINES := some ps } t0 ht0 ts w1 ws1 hw f
          (by simp only [List.length_append, List.length_cons,
            List.length_map] at hfuel
              omega)]
        rw [show mergeSrf acc ply ("POLYLINES" :: ks) =
          mergeSrf { acc with POLYLINES := some ps } ply ks from by
          simp [mergeSrf, hv]]
        show Except.ok ((mergeSrf { acc with POLYLINES := some ps } ply ks, t0),
          1 + ps.length + (ks.flatMap (srf_key_lines ply)).length) = _
        congr 2
        all_goals try simp only [List.length_append, List.length_cons,
          List.length_nil, List.length_map]
        all_goals omega
    · -- EPSILON
      rcases hv : ply.EPSILON with _ | v
      · have hbl : srf_key_lines ply "EPSILON" = [] := by
          simp [srf_key_lines, hv]
        rw [List.flatMap_cons, hbl, List.nil_append] at hsh hfuel ⊢
        rw [show mergeSrf acc ply ("EPSILON" :: ks) = mergeSrf acc ply ks from by
          simp [mergeSrf, hv]]
        exact ih hks' ply hwf acc t0 ht0 ts l0 r0 hsh fuel hfuel
      · have hbl : srf_key_lines ply "EPSILON" = [" $EPSILON", "  " ++ ratStr v] := by
          simp [srf_key_lines, hv]
        rw [List.flatMap_cons, hbl] at hsh hfuel ⊢
        simp only [List.cons_append, List.nil_append] at hsh
        obtain ⟨w1, ws1, hw, -⟩ := srf_flat_ex ks hks' ply t0 ht0 ts
        rw [hw] at hsh
        injection hsh with h1 h2
        subst h1
        subst h2
        rcases fuel with _ | f
        · simp only [List.length_append, List.length_cons,
            List.length_nil] at hfuel
          omega
        rw [show pyStrip " $EPSILON" = "$" ++ "EPSILON" from rfl]
        have hdec : IsDec v := by
          have hh := hparts.2.2.1
          rw [hv] at hh
          exact wfOptDec_some hh
        have hparse : parse_srf_val acc "EPSILON" ("  " ++ ratStr v) =
            some { acc with EPSILON := some v } := by
          simp [parse_srf_val, pySplit_pad (ratStr_wfTok v), strRat?_ratStr hdec]
        rw [read_srf_sec_val_run f acc { acc with EPSILON := some v } "EPSILON"
          (by decide) (by decide) ("  " ++ ratStr v) w1 ws1 hparse]
        rw [ih hks' ply hwf { acc with EPSILON := some v } t0 ht0 ts w1 ws1 hw f
          (by simp only [List.length_append, List.length_cons,
            List.length_nil] at hfuel
              omega)]
        rw [show mergeSrf acc ply ("EPSILON" :: ks) =
          mergeSrf { acc with EPSILON := some v } ply ks from by
          simp [mergeSrf, hv]]
        show Except.ok ((mergeSrf { acc with EPSILON := some v } ply ks, t0),
          2 + (ks.flatMap (srf_key_lines ply)).length) = _
        congr 2
        all_goals try simp only [List.length_append, List.length_cons,
          List.length_nil, List.length_map]
        all_goals omega
    · -- TYPE
      rcases hv : ply.TYPE with _ | v
      · have hbl : srf_key_lines ply "TYPE" = [] := by
          simp [srf_key_lines, hv]
        rw [List.flatMap_cons, hbl, List.nil_append] at hsh hfuel ⊢
        rw [show mergeSrf acc ply ("TYPE" :: ks) = mergeSrf acc ply ks from by
          simp [mergeSrf, hv]]
        exact ih hks' ply hwf acc t0 ht0 ts l0 r0 hsh fuel hfuel
      · have hbl : srf_key_lines ply "TYPE" = [" $TYPE", "  " ++ intToStr v] := by
          simp [srf_key_lines, hv]
        rw [List.flatMap_cons, hbl] at hsh hfuel ⊢
        simp only [List.cons_append, List.nil_append] at hsh
        obtain ⟨w1, ws1, hw, -⟩ := srf_flat_ex ks hks' ply t0 ht0 ts
        rw [hw] at hsh
        injection hsh with h1 h2
        subst h1
        subst h2
        rcases fuel with _ | f
        · simp only [List.length_append, List.length_cons,
            List.length_nil] at hfuel
          omega
        rw [show pyStrip " $TYPE" = "$" ++ "TYPE" from rfl]
        have hparse : parse_srf_val acc "TYPE" ("  " ++ intToStr v) =
            some { acc with TYPE := some v } := by
          simp [parse_srf_val, pySplit_pad (intToStr_wfTok v), pyInt?_intToStr]
        rw [read_srf_sec_val_run f acc { acc with TYPE := some v } "TYPE"
          (by decide) (by decide) ("  " ++ intToStr v) w1 ws1 hparse]
        rw [ih hks' ply hwf { acc with TYPE := some v } t0 ht0 ts w1 ws1 hw f
          (by simp only [List.length_append, List.length_cons,
            List.length_nil] at hfuel
              omega)]
        rw [show mergeSrf acc ply ("TYPE" :: ks) =
          mergeSrf { acc with TYPE := some v } ply ks from by
          simp [mergeSrf, hv]]
        show Except.ok ((mergeSrf { acc with TYPE := some v } ply ks, t0),
          2 + (ks.flatMap (srf_key_lines ply)).length) = _
        congr 2
        all_goals try simp only [List.length_append, List.length_cons,
          List.length_nil, List.length_map]
        all_goals omega
    · -- MAT_GROUP
      rcases hv : ply.MAT_GROUP with _ | v
      · have hbl : srf_key_lines ply "MAT_GROUP" = [] := by
          simp [srf_key_lines, hv]
        rw [List.flatMap_cons, hbl, List.nil_append] at hsh hfuel ⊢
        rw [show mergeSrf acc ply ("MAT_GROUP" :: ks) = mergeSrf acc ply ks from by
          simp [mergeSrf, hv]]
        exact ih hks' ply hwf acc t0 ht0 ts l0 r0 hsh fuel hfuel
      · have hbl : srf_key_lines ply "MAT_GROUP" = [" $MAT_GROUP", "  " ++ intToStr v] := by
          simp [srf_key_lines, hv]
        rw [List.flatMap_cons, hbl] at hsh hfuel ⊢
        simp only [List.cons_append, List.nil_append] at hsh
        obtain ⟨w1, ws1, hw, -⟩ := srf_flat_ex ks hks' ply t0 ht0 ts
        rw [hw] at hsh
        injection hsh with h1 h2
        subst h1
        subst h2
        rcases fuel with _ | f
        · simp only [List.length_append, List.length_cons,
            List.length_nil] at hfuel
          omega
        rw [show pyStrip " $MAT_GROUP" = "$" ++ "MAT_GROUP" from rfl]
        have hparse : parse_srf_val acc "MAT_GROUP" ("  " ++ intToStr v) =
            some { acc with MAT_GROUP := some v } := by
          simp [parse_srf_val, pySplit_pad (intToStr_wfTok v), pyInt?_intToStr]
        rw [read_srf_sec_val_run f acc { acc with MAT_GROUP := some v } "MAT_GROUP"
          (by decide) (by decide) ("  " ++ intToStr v) w1 ws1 hparse]
        rw [ih hks' ply hwf { acc with MAT_GROUP := some v } t0 ht0 ts w1 ws1 hw f
          (by simp only [List.length_append, List.length_cons,
            List.length_nil] at hfuel
              omega)]
        rw [show mergeSrf acc ply ("MAT_GROUP" :: ks) =
          mergeSrf { acc with MAT_GROUP := some v } ply ks from by
          simp [mergeSrf, hv]]
        show Except.ok ((mergeSrf { acc with MAT_GROUP := some v } ply ks, t0),
          2 + (ks.flatMap (srf_key_lines ply)).length) = _
        congr 2
        all_goals try simp only [List.length_append, List.length_cons,
          List.length_nil, List.length_map]
        all_goals omega
    · -- TIN
      rcases hv : ply.TIN with _ | v
      · have hbl : srf_key_lines ply "TIN" = [] := by
          simp [srf_key_lines, hv]
        rw [List.flatMap_cons, hbl, List.nil_append] at hsh hfuel ⊢
        rw [show mergeSrf acc ply ("TIN" :: ks) = mergeSrf acc ply ks from by
          simp [mergeSrf, hv]]
        exact ih hks' ply hwf acc t0 ht0 ts l0 r0 hsh fuel hfuel
      · have hbl : srf_key_lines ply "TIN" = [" $TIN", "  " ++ v] := by
          simp [srf_key_lines, hv]
        rw [List.flatMap_cons, hbl] at hsh hfuel ⊢
        simp only [List.cons_append, List.nil_append] at hsh
        obtain ⟨w1, ws1, hw, -⟩ := srf_flat_ex ks hks' ply t0 ht0 ts
        rw [hw] at hsh
        injection hsh with h1 h2
        subst h1
        subst h2
        rcases fuel with _ | f
        · simp only [List.length_append, List.length_cons,
            List.length_nil] at hfuel
          omega
        rw [show pyStrip " $TIN" = "$" ++ "TIN" from rfl]
        have hwfv : wfTok v = true := by
          have hh := hparts.2.1
          rw [hv] at hh
          exact hh
        have hparse : parse_srf_val acc "TIN" ("  " ++ v) =
            some { acc with TIN := some v } := by
          simp [parse_srf_val, pySplit_pad hwfv]
        rw [read_srf_sec_val_run f acc { acc with TIN := some v } "TIN"
          (by decide) (by decide) ("  " ++ v) w1 ws1 hparse]
        rw [ih hks' ply hwf { acc with TIN := some v } t0 ht0 ts w1 ws1 hw f
          (by simp only [List.length_append, List.length_cons,
            List.length_nil] at hfuel
              omega)]
        rw [show mergeSrf acc ply ("TIN" :: ks) =
          mergeSrf { acc with TIN := some v } ply ks from by
          simp [mergeSrf, hv]]
        show Except.ok ((mergeSrf { acc with TIN := some v } ply ks, t0),
          2 + (ks.flatMap (srf_key_lines ply)).length) = _
        congr 2
        all_goals try simp only [List.length_append, List.length_cons,
          List.length_nil, List.length_map]
        all_goals omega

theorem read_vol_sec_writer :
    ∀ (ks : List String), (∀ k ∈ ks, k ∈ VOL_KEY_LIST) →
    ∀ (ply : Vol), wfVol ply = true →
    ∀ (acc : Vol) (t0 : String), t0 ∈ GLI_KEY_LIST →
    ∀ (ts : List String) (l0 : String) (r0 : List String),
    ks.flatMap (vol_key_lines ply) ++ t0 :: ts = l0 :: r0 →
    ∀ (fuel : ℕ), (ks.flatMap (vol_key_lines ply)).length + 1 ≤ fuel →
    read_vol_sec fuel acc (pyStrip l0) r0 =
      Except.ok ((mergeVol acc ply ks, t0),
        (ks.flatMap (vol_key_lines ply)).length) := by
  intro ks
  induction ks with
  | nil =>
    intro _ ply hwf acc t0 ht0 ts l0 r0 hsh fuel hfuel
    rcases fuel with _ | f
    · omega
    rw [List.flatMap_nil, List.nil_append] at hsh
    injection hsh with h1 h2
    subst h1
    subst h2
    rw [gli_strip t0 ht0, read_vol_sec_stop f acc t0 ts (gli_any_self t0 ht0)]
    rfl
  | cons k ks ih =>
    intro hks ply hwf acc t0 ht0 ts l0 r0 hsh fuel hfuel
    have hk : k ∈ VOL_KEY_LIST := hks k (List.mem_cons_self _ _)
    have hks' : ∀ x ∈ ks, x ∈ VOL_KEY_LIST :=
      fun x hx => hks x (List.mem_cons_of_mem _ hx)
    have hparts := wfVol_parts hwf
    fin_cases hk
    · -- NAME
      rcases hv : ply.NAME with _ | v
      · have hbl : vol_key_lines ply "NAME" = [] := by
          simp [vol_key_lines, hv]
        rw [List.flatMap_cons, hbl, List.nil_append] at hsh hfuel ⊢
        rw [show mergeVol acc ply ("NAME" :: ks) = mergeVol acc ply ks from by
          simp [mergeVol, hv]]
        exact ih hks' ply hwf acc t0 ht0 ts l0 r0 hsh fuel hfuel
      · have hbl : vol_key_lines ply "NAME" = [" $NAME", "  " ++ v] := by
          simp [vol_key_lines, hv]
        rw [List.flatMap_cons, hbl] at hsh hfuel ⊢
        simp only [List.cons_append, List.nil_append] at hsh
        obtain ⟨w1, ws1, hw, -⟩ := vol_flat_ex ks hks' ply t0 ht0 ts
        rw [hw] at hsh
        injection hsh with h1 h2
        subst h1
        subst h2
        rcases fuel with _ | f
        · simp only [List.length_append, List.length_cons,
            List.length_nil] at hfuel
          omega
        rw [show pyStrip " $NAME" = "$" ++ "NAME" from rfl]
        have hwfv : wfTok v = true := by
          have hh := hparts.1
          rw [hv] at hh
          exact hh
        have hparse : parse_vol_val acc "NAME" ("  " ++ v) =
            some { acc with NAME := some v } := by
          simp [parse_vol_val, pySplit_pad hwfv]
        rw [read_vol_sec_val_run f acc { acc with NAME := some v } "NAME"
          (by decide) (by decide) ("  " ++ v) w1 ws1 hparse]
        rw [ih hks' ply hwf { acc with NAME := some v } t0 ht0 ts w1 ws1 hw f
          (by simp only [List.length_append, List.length_cons,
            List.length_nil] at hfuel
              omega)]
        rw [show mergeVol acc ply ("NAME" :: ks) =
          mergeVol { acc with NAME := some v } ply ks from by
          simp [mergeVol, hv]]
        show Except.ok ((mergeVol { acc with NAME := some v } ply ks, t0),
          2 + (ks.flatMap (vol_key_lines ply)).length) = _
        congr 2
        all_goals try simp only [List.length_append, List.length_cons,
          List.length_nil, List.length_map]
        all_goals omega
    · -- SURFACES (reference run)
      rcases hv : ply.SURFACES with _ | ps
      · have hbl : vol_key_lines ply "SURFACES" = [] := by
          simp [vol_key_lines, hv]
        rw [List.flatMap_cons, hbl, List.nil_append] at hsh hfuel ⊢
        rw [show mergeVol acc ply ("SURFACES" :: ks) = mergeVol acc ply ks from by
          simp [mergeVol, hv]]
        exact ih hks' ply hwf acc t0 ht0 ts l0 r0 hsh fuel hfuel
      · have hbl : vol_key_lines ply "SURFACES" =
            " $SURFACES" :: (ps.map fun t => "  " ++ t) := by
          simp [vol_key_lines, hv]
        rw [List.flatMap_cons, hbl] at hsh hfuel ⊢
        simp only [List.cons_append, List.append_assoc] at hsh
        obtain ⟨w1, ws1, hw, hwexit⟩ := vol_flat_ex ks hks' ply t0 ht0 ts
        rw [hw] at hsh
        injection hsh with h1 h2
        subst h1
        subst h2
        rcases fuel with _ | f
        · simp only [List.length_append, List.length_cons,
            List.length_map] at hfuel
          omega
        rw [show pyStrip " $SURFACES" = "$SURFACES" from rfl]
        obtain ⟨a0, as0, ha⟩ := cons_of_append_cons
          (ps.map fun t => "  " ++ t) w1 ws1
        rw [ha]
        have htoks : ∀ x ∈ ps, wfTok x = true ∧ x ∉ vol_exit_keys :=
          hparts.2 ps hv
        have hrun := read_str_run_writer vol_exit_keys ps htoks w1 ws1 hwexit
          a0 as0 ha
        have hdrop : as0.drop ps.length = ws1 := by
          have hd := drop_block ha
          rwa [List.length_map] at hd
        rw [read_vol_sec_surfaces_run f acc a0 as0 ps (pyStrip w1) ps.length
          hrun hwexit, hdrop]
        rw [ih hks' ply hwf { acc with SURFACES := some ps } t0 ht0 ts w1 ws1 hw f
          (by simp only [List.length_append, List.length_cons,
            List.length_map] at hfuel
              omega)]
        rw [show mergeVol acc ply ("SURFACES" :: ks) =
          mergeVol { acc with SURFACES := some ps } ply ks from by
          simp [mergeVol, hv]]
        show Except.ok ((mergeVol { acc with SURFACES := some ps } ply ks, t0),
          1 + ps.length + (ks.flatMap (vol_key_lines ply)).length) = _
        congr 2
        all_goals try simp only [List.length_append, List.length_cons,
          List.length_nil, List.length_map]
        all_goals omega
    · -- TYPE
      rcases hv : ply.TYPE with _ | v
      · have hbl : vol_key_lines ply "TYPE" = [] := by
          simp [vol_key_lines, hv]
        rw [List.flatMap_cons, hbl, List.nil_append] at hsh hfuel ⊢
        rw [show mergeVol acc ply ("TYPE" :: ks) = mergeVol acc ply ks from by
          simp [mergeVol, hv]]
        exact ih hks' ply hwf acc t0 ht0 ts l0 r0 hsh fuel hfuel
      · have hbl : vol_key_lines ply "TYPE" = [" $TYPE", "  " ++ intToStr v] := by
          simp [vol_key_lines, hv]
        rw [List.flatMap_cons, hbl] at hsh hfuel ⊢
        simp only [List.cons_append, List.nil_append] at hsh
        obtain ⟨w1, ws1, hw, -⟩ := vol_flat_ex ks hks' ply t0 ht0 ts
        rw [hw] at hsh
        injection hsh with h1 h2
        subst h1
        subst h2
        rcases fuel with _ | f
        · simp only [List.length_append, List.length_cons,
            List.length_nil] at hfuel
          omega
        rw [show pyStrip " $TYPE" = "$" ++ "TYPE" from rfl]
        have hparse : parse_vol_val acc "TYPE" ("  " ++ intToStr v) =
            some { acc with TYPE := some v } := by
          simp [parse_vol_val, pySplit_pad (intToStr_wfTok v), pyInt?_intToStr]
        rw [read_vol_sec_val_run f acc { acc with TYPE := some v } "TYPE"
          (by decide) (by decide) ("  " ++ intToStr v) w1 ws1 hparse]
        rw [ih hks' ply hwf { acc with TYPE := some v } t0 ht0 ts w1 ws1 hw f
          (by simp only [List.length_append, List.length_cons,
            List.length_nil] at hfuel
              omega)]
        rw [show mergeVol acc ply ("TYPE" :: ks) =
          mergeVol { acc with TYPE := some v } ply ks from by
          simp [mergeVol, hv]]
        show Except.ok ((mergeVol { acc with TYPE := some v } ply ks, t0),
          2 + (ks.flatMap (vol_key_lines ply)).length) = _
        congr 2
        all_goals try simp only [List.length_append, List.length_cons,
          List.length_nil, List.length_map]
        all_goals omega
    · -- MAT_GROUP
      rcases hv : ply.MAT_GROUP with _ | v
      · have hbl : vol_key_lines ply "MAT_GROUP" = [] := by
          simp [vol_key_lines, hv]
        rw [List.flatMap_cons, hbl, List.nil_append] at hsh hfuel ⊢
        rw [show mergeVol acc ply ("MAT_GROUP" :: ks) = mergeVol acc ply ks from by
          simp [mergeVol, hv]]
        exact ih hks' ply hwf acc t0 ht0 ts l0 r0 hsh fuel hfuel
      · have hbl : vol_key_lines ply "MAT_GROUP" = [" $MAT_GROUP", "  " ++ intToStr v] := by
          simp [vol_key_lines, hv]
        rw [List.flatMap_cons, hbl] at hsh hfuel ⊢
        simp only [List.cons_append, List.nil_append] at hsh
        obtain ⟨w1, ws1, hw, -⟩ := vol_flat_ex ks hks' ply t0 ht0 ts
        rw [hw] at hsh
        injection hsh with h1 h2
        subst h1
        subst h2
        rcases fuel with _ | f
        · simp only [List.length_append, List.length_cons,
            List.length_nil] at hfuel
          omega
        rw [show pyStrip " $MAT_GROUP" = "$" ++ "MAT_GROUP" from rfl]
        have hparse : parse_vol_val acc "MAT_GROUP" ("  " ++ intToStr v) =
            some { acc with MAT_GROUP := some v } := by
          simp [parse_vol_val, pySplit_pad (intToStr_wfTok v), pyInt?_intToStr]
        rw [read_vol_sec_val_run f acc { acc with MAT_GROUP := some v } "MAT_GROUP"
          (by decide) (by decide) ("  " ++ intToStr v) w1 ws1 hparse]
        rw [ih hks' ply hwf { acc with MAT_GROUP := some v } t0 ht0 ts w1 ws1 hw f
          (by simp only [List.length_append, List.length_cons,
            List.length_nil] at hfuel
              omega)]
        rw [show mergeVol acc ply ("MAT_GROUP" :: ks) =
          mergeVol { acc with MAT_GROUP := some v } ply ks from by
          simp [mergeVol, hv]]
        show Except.ok ((mergeVol { acc with MAT_GROUP := some v } ply ks, t0),
          2 + (ks.flatMap (vol_key_lines ply)).length) = _
        congr 2
        all_goals try simp only [List.length_append, List.length_cons,
          List.length_nil, List.length_map]
        all_goals omega
    · -- LAYER
      rcases hv : ply.LAYER with _ | v
      · have hbl : vol_key_lines ply "LAYER" = [] := by
          simp [vol_key_lines, hv]
        rw [List.flatMap_cons, hbl, List.nil_append] at hsh hfuel ⊢
        rw [show mergeVol acc ply ("LAYER" :: ks) = mergeVol acc ply ks from by
          simp [mergeVol, hv]]
        exact ih hks' ply hwf acc t0 ht0 ts l0 r0 hsh fuel hfuel
      · have hbl : vol_key_lines ply "LAYER" = [" $LAYER", "  " ++ intToStr v] := by
          simp [vol_key_lines, hv]
        rw [List.flatMap_cons, hbl] at hsh hfuel ⊢
        simp only [List.cons_append, List.nil_append] at hsh
        obtain ⟨w1, ws1, hw, -⟩ := vol_flat_ex ks hks' ply t0 ht0 ts
        rw [hw] at hsh
        injection hsh with h1 h2
        subst h1
        subst h2
        rcases fuel with _ | f
        · simp only [List.length_append, List.length_cons,
            List.length_nil] at hfuel
          omega
        rw [show pyStrip " $LAYER" = "$" ++ "LAYER" from rfl]
        have hparse : parse_vol_val acc "LAYER" ("  " ++ intToStr v) =
            some { acc with LAYER := some v } := by
          simp [parse_vol_val, pySplit_pad (intToStr_wfTok v), pyInt?_intToStr]
        rw [read_vol_sec_val_run f acc { acc with LAYER := some v } "LAYER"
          (by decide) (by decide) ("  " ++ intToStr v) w1 ws1 hparse]
        rw [ih hks' ply hwf { acc with LAYER := some v } t0 ht0 ts w1 ws1 hw f
          (by simp only [List.length_append, List.length_cons,
            List.length_nil] at hfuel
              omega)]
        rw [show mergeVol acc ply ("LAYER" :: ks) =
          mergeVol { acc with LAYER := some v } ply ks from by
          simp [mergeVol, hv]]
        show Except.ok ((mergeVol { acc with LAYER := some v } ply ks, t0),
          2 + (ks.flatMap (vol_key_lines ply)).length) = _
        congr 2
        all_goals try simp only [List.length_append, List.length_cons,
          List.length_nil, List.length_map]
        all_goals omega

-- ---- helper lemmas: the top-level reading loop on writer output ----

theorem load_step_stop (f : ℕ) (out : Gli) (rest : List String) :
    load_gli_loop (f + 1) out "#STOP" rest = Except.ok out := by
  rcases rest with _ | ⟨a, as⟩ <;> rfl

theorem load_step_points (f : ℕ) (out : Gli) (l0 : String)
    (r0 : List String) :
    load_gli_loop (f + 1) out "#POINTS" (l0 :: r0) =
      match read_points (pyStrip l0) r0 with
      | Except.error e => Except.error e
      | Except.ok ((prs, line'), k) =>
        load_gli_loop f { out with
          points := prs.map (fun p => p.1),
          point_names := prs.map (fun p => p.2.1),
          point_md := prs.map (fun p => p.2.2) } line' (r0.drop k) := rfl

theorem load_step_ply (f : ℕ) (out : Gli) (l0 : String) (r0 : List String) :
    load_gli_loop (f + 1) out "#POLYLINE" (l0 :: r0) =
      match read_ply_sec (r0.length + 1) EMPTY_PLY (pyStrip l0) r0 with
      | Except.error e => Except.error e
      | Except.ok ((ply, line'), k) =>
        load_gli_loop f { out with polylines := out.polylines ++ [ply] }
          line' (r0.drop k) := rfl

theorem load_step_srf (f : ℕ) (out : Gli) (l0 : String) (r0 : List String) :
    load_gli_loop (f + 1) out "#SURFACE" (l0 :: r0) =
      match read_srf_sec (r0.length + 1) EMPTY_SRF (pyStrip l0) r0 with
      | Except.error e => Except.error e
      | Except.ok ((srf, line'), k) =>
        load_gli_loop f { out with surfaces := out.surfaces ++ [srf] }
          line' (r0.drop k) := rfl

theorem load_step_vol (f : ℕ) (out : Gli) (l0 : String) (r0 : List String) :
    load_gli_loop (f + 1) out "#VOLUME" (l0 :: r0) =
      match read_vol_sec (r0.length + 1) EMPTY_VOL (pyStrip l0) r0 with
      | Except.error e => Except.error e
      | Except.ok ((vol, line'), k) =>
        load_gli_loop f { out with volumes := out.volumes ++ [vol] }
          line' (r0.drop k) := rfl

theorem vols_shape (vols : List Vol) :
    ∃ w ws, vols.flatMap vol_lines ++ ["#STOP"] = w :: ws ∧
      w ∈ GLI_KEY_LIST := by
  rcases vols with _ | ⟨vv, vs⟩
  · exact ⟨"#STOP", [], rfl, by decide⟩
  · exact ⟨"#VOLUME",
      VOL_KEY_LIST.flatMap (vol_key_lines vv) ++
        (vs.flatMap vol_lines ++ ["#STOP"]),
      by simp [vol_lines, List.flatMap_cons, List.append_assoc], by decide⟩

theorem srfs_shape (srfs : List Srf) (vols : List Vol) :
    ∃ w ws, srfs.flatMap srf_lines ++ vols.flatMap vol_lines ++ ["#STOP"] =
      w :: ws ∧ w ∈ GLI_KEY_LIST := by
  rcases srfs with _ | ⟨sf, ss⟩
  · obtain ⟨w, ws, hw, hg⟩ := vols_shape vols
    exact ⟨w, ws, by simpa using hw, hg⟩
  · exact ⟨"#SURFACE",
      SRF_KEY_LIST.flatMap (srf_key_lines sf) ++
        (ss.flatMap srf_lines ++ vols.flatMap vol_lines ++ ["#STOP"]),
      by simp [srf_lines, List.flatMap_cons, List.append_assoc], by decide⟩

theorem plys_shape (plys : List Ply) (srfs : List Srf) (vols : List Vol) :
    ∃ w ws, plys.flatMap ply_lines ++ srfs.flatMap srf_lines ++
      vols.flatMap vol_lines ++ ["#STOP"] = w :: ws ∧ w ∈ GLI_KEY_LIST := by
  rcases plys with _ | ⟨pp, ps⟩
  · obtain ⟨w, ws, hw, hg⟩ := srfs_shape srfs vols
    exact ⟨w, ws, by simpa using hw, hg⟩
  · exact ⟨"#POLYLINE",
      PLY_KEY_LIST.flatMap (ply_key_lines pp) ++
        (ps.flatMap ply_lines ++ srfs.flatMap srf_lines ++
          vols.flatMap vol_lines ++ ["#STOP"]),
      by simp [ply_lines, List.flatMap_cons, List.append_assoc], by decide⟩

theorem pointLinesFrom_length :
    ∀ (pts : List (ℚ × ℚ × ℚ)) (nms : List String) (mds : List (Option ℚ))
      (i0 : ℕ), (pointLinesFrom i0 pts nms mds).length = pts.length := by
  intro pts
  induction pts with
  | nil => intro nms mds i0; rfl
  | cons p ps ih =>
    intro nms mds i0
    simp only [pointLinesFrom, List.length_cons, ih]

theorem zip3_fst {α β γ : Type*} :
    ∀ (pts : List α) (nms : List β) (mds : List γ),
    nms.length = pts.length → mds.length = pts.length →
    (pts.zip (nms.zip mds)).map (fun p => p.1) = pts := by
  intro pts
  induction pts with
  | nil => intro nms mds _ _; rfl
  | cons p ps ih =>
    intro nms mds h1 h2
    rcases nms with _ | ⟨n, ns⟩
    · simp at h1
    rcases mds with _ | ⟨m, ms⟩
    · simp at h2
    simp only [List.zip_cons_cons, List.map_cons]
    rw [ih ns ms (by simpa using h1) (by simpa using h2)]

theorem zip3_snd1 {α β γ : Type*} :
    ∀ (pts : List α) (nms : List β) (mds : List γ),
    nms.length = pts.length → mds.length = pts.length →
    (pts.zip (nms.zip mds)).map (fun p => p.2.1) = nms := by
  intro pts
  induction pts with
  | nil =>
    intro nms mds h1 _
    rcases nms with _ | ⟨n, ns⟩
    · rfl
    · simp at h1
  | cons p ps ih =>
    intro nms mds h1 h2
    rcases nms with _ | ⟨n, ns⟩
    · simp at h1
    rcases mds with _ | ⟨m, ms⟩
    · simp at h2
    simp only [List.zip_cons_cons, List.map_cons]
    rw [ih ns ms (by simpa using h1) (by simpa using h2)]

theorem zip3_snd2 {α β γ : Type*} :
    ∀ (pts : List α) (nms : List β) (mds : List γ),
    nms.length = pts.length → mds.length = pts.length →
    (pts.zip (nms.zip mds)).map (fun p => p.2.2) = mds := by
  intro pts
  induction pts with
  | nil =>
    intro nms mds _ h2
    rcases mds with _ | ⟨m, ms⟩
    · rfl
    · simp at h2
  | cons p ps ih =>
    intro nms mds h1 h2
    rcases nms with _ | ⟨n, ns⟩
    · simp at h1
    rcases mds with _ | ⟨m, ms⟩
    · simp at h2
    simp only [List.zip_cons_cons, List.map_cons]
    rw [ih ns ms (by simpa using h1) (by simpa using h2)]

theorem writer_points_eq0 (pts : List (ℚ × ℚ × ℚ)) (nms : List String)
    (mds : List (Option ℚ)) :
    (List.range pts.length).map (fun i =>
      point_line i (pts.getD i (0, 0, 0)) (nms.getD i "") (mds.getD i none)) =
      pointLinesFrom 0 pts nms mds := by
  rw [← writer_points_eq pts nms mds 0]
  apply List.map_congr_left
  intro a _
  rw [Nat.zero_add]

theorem wfGli_parts {g : Gli} (h : wfGli g = true) :
    g.point_names.length = g.points.length ∧
    g.point_md.length = g.points.length ∧
    (∀ p ∈ g.points, IsDec p.1 ∧ IsDec p.2.1 ∧ IsDec p.2.2) ∧
    (∀ n ∈ g.point_names, wfPointName n = true) ∧
    (∀ m ∈ g.point_md, wfOptDec m = true) ∧
    (∀ p ∈ g.polylines, wfPly p = true) ∧
    (∀ s ∈ g.surfaces, wfSrf s = true) ∧
    (∀ v ∈ g.volumes, wfVol v = true) := by
  rw [wfGli] at h
  simp only [Bool.and_eq_true, List.all_eq_true, decide_eq_true_eq] at h
  obtain ⟨⟨⟨⟨⟨⟨⟨hl1, hl2⟩, hdec⟩, hn⟩, hm⟩, hply⟩, hsrf⟩, hvol⟩ := h
  exact ⟨hl1, hl2,
    fun p hp => ⟨(hdec p hp).1.1, (hdec p hp).1.2, (hdec p hp).2⟩,
    hn, hm, hply, hsrf, hvol⟩

theorem load_vols :
    ∀ (vols : List Vol), (∀ v ∈ vols, wfVol v = true) →
    ∀ (out : Gli) (w0 : String) (ws : List String),
    vols.flatMap vol_lines ++ ["#STOP"] = w0 :: ws →
    ∀ fuel, ws.length + 1 ≤ fuel →
    load_gli_loop fuel out w0 ws =
      Except.ok { out with volumes := out.volumes ++ vols } := by
  intro vols
  induction vols with
  | nil =>
    intro _ out w0 ws hsh fuel hfuel
    simp only [List.flatMap_nil, List.nil_append] at hsh
    injection hsh with h1 h2
    subst h1
    subst h2
    rcases fuel with _ | f
    · omega
    rw [load_step_stop]
    simp
  | cons vv vs ih =>
    intro hwfs out w0 ws hsh fuel hfuel
    rw [List.flatMap_cons,
      show vol_lines vv = "#VOLUME" :: VOL_KEY_LIST.flatMap (vol_key_lines vv)
        from rfl] at hsh
    simp only [List.cons_append, List.append_assoc] at hsh
    injection hsh with h1 h2
    subst h1
    obtain ⟨w1, ws1, hw1, hw1g⟩ := vols_shape vs
    rw [hw1] at h2
    subst h2
    rcases fuel with _ | f
    · simp only [List.length_append, List.length_cons] at hfuel
      omega
    obtain ⟨a0, as0, ha⟩ := cons_of_append_cons
      (VOL_KEY_LIST.flatMap (vol_key_lines vv)) w1 ws1
    rw [ha, load_step_vol f out a0 as0]
    have hlen : (VOL_KEY_LIST.flatMap (vol_key_lines vv)).length + 1 ≤
        as0.length + 1 := by
      have hc := congrArg List.length ha
      simp only [List.length_append, List.length_cons] at hc
      omega
    have hsec := read_vol_sec_writer VOL_KEY_LIST (fun k hk => hk) vv
      (hwfs vv (List.mem_cons_self _ _)) EMPTY_VOL w1 hw1g ws1 a0 as0 ha
      (as0.length + 1) hlen
    rw [hsec, mergeVol_full vv]
    show load_gli_loop f { out with volumes := out.volumes ++ [vv] } w1
      (as0.drop (VOL_KEY_LIST.flatMap (vol_key_lines vv)).length) = _
    rw [drop_block ha]
    rw [ih (fun x hx => hwfs x (List.mem_cons_of_mem _ hx))
      { out with volumes := out.volumes ++ [vv] } w1 ws1 hw1 f
      (by have hc := congrArg List.length ha
          simp only [List.length_append, List.length_cons] at hc hfuel
          omega)]
    simp

theorem load_srfs :
    ∀ (srfs : List Srf), (∀ s ∈ srfs, wfSrf s = true) →
    ∀ (vols : List Vol), (∀ v ∈ vols, wfVol v = true) →
    ∀ (out : Gli) (w0 : String) (ws : List String),
    srfs.flatMap srf_lines ++ vols.flatMap vol_lines ++ ["#STOP"] = w0 :: ws →
    ∀ fuel, ws.length + 1 ≤ fuel →
    load_gli_loop fuel out w0 ws =
      Except.ok { out with
        surfaces := out.surfaces ++ srfs,
        volumes := out.volumes ++ vols } := by
  intro srfs
  induction srfs with
  | nil =>
    intro _ vols hwv out w0 ws hsh fuel hfuel
    simp only [List.flatMap_nil, List.nil_append] at hsh
    rw [load_vols vols hwv out w0 ws hsh fuel hfuel]
    simp
  | cons sf ss ih =>
    intro hwfs vols hwv out w0 ws hsh fuel hfuel
    rw [List.flatMap_cons,
      show srf_lines sf = "#SURFACE" :: SRF_KEY_LIST.flatMap (srf_key_lines sf)
        from rfl] at hsh
    simp only [List.cons_append, List.append_assoc] at hsh
    injection hsh with h1 h2
    subst h1
    obtain ⟨w1, ws1, hw1, hw1g⟩ := srfs_shape ss vols
    rw [List.append_assoc] at hw1
    rw [hw1] at h2
    subst h2
    rcases fuel with _ | f
    · simp only [List.length_append, List.length_cons] at hfuel
      omega
    obtain ⟨a0, as0, ha⟩ := cons_of_append_cons
      (SRF_KEY_LIST.flatMap (srf_key_lines sf)) w1 ws1
    rw [ha, load_step_srf f out a0 as0]
    have hlen : (SRF_KEY_LIST.flatMap (srf_key_lines sf)).length + 1 ≤
        as0.length + 1 := by
      have hc := congrArg List.length ha
      simp only [List.length_append, List.length_cons] at hc
      omega
    have hsec := read_srf_sec_writer SRF_KEY_LIST (fun k hk => hk) sf
      (hwfs sf (List.mem_cons_self _ _)) EMPTY_SRF w1 hw1g ws1 a0 as0 ha
      (as0.length + 1) hlen
    rw [hsec, mergeSrf_full sf]
    show load_gli_loop f { out with surfaces := out.surfaces ++ [sf] } w1
      (as0.drop (SRF_KEY_LIST.flatMap (srf_key_lines sf)).length) = _
    rw [drop_block ha]
    rw [ih (fun x hx => hwfs x (List.mem_cons_of_mem _ hx)) vols hwv
      { out with surfaces := out.surfaces ++ [sf] } w1 ws1
      (by rw [← List.append_assoc] at hw1; exact hw1) f
      (by have hc := congrArg List.length ha
          simp only [List.length_append, List.length_cons] at hc hfuel
          omega)]
    simp

theorem load_plys :
    ∀ (plys : List Ply), (∀ p ∈ plys, wfPly p = true) →
    ∀ (srfs : List Srf), (∀ s ∈ srfs, wfSrf s = true) →
    ∀ (vols : List Vol), (∀ v ∈ vols, wfVol v = true) →
    ∀ (out : Gli) (w0 : String) (ws : List String),
    plys.flatMap ply_lines ++ srfs.flatMap srf_lines ++
      vols.flatMap vol_lines ++ ["#STOP"] = w0 :: ws →
    ∀ fuel, ws.length + 1 ≤ fuel →
    load_gli_loop fuel out w0 ws =
      Except.ok { out with
        polylines := out.polylines ++ plys,
        surfaces := out.surfaces ++ srfs,
        volumes := out.volumes ++ vols } := by
  intro plys
  induction plys with
  | nil =>
    intro _ srfs hws vols hwv out w0 ws hsh fuel hfuel
    simp only [List.flatMap_nil, List.nil_append] at hsh
    rw [load_srfs srfs hws vols hwv out w0 ws hsh fuel hfuel]
    simp
  | cons pp ps ih =>
    intro hwfs srfs hws vols hwv out w0 ws hsh fuel hfuel
    rw [List.flatMap_cons,
      show ply_lines pp = "#POLYLINE" :: PLY_KEY_LIST.flatMap (ply_key_lines pp)
        from rfl] at hsh
    simp only [List.cons_append, List.append_assoc] at hsh
    injection hsh with h1 h2
    subst h1
    obtain ⟨w1, ws1, hw1, hw1g⟩ := plys_shape ps srfs vols
    rw [List.append_assoc, List.append_assoc] at hw1
    rw [hw1] at h2
    subst h2
    rcases fuel with _ | f
    · simp only [List.length_append, List.length_cons] at hfuel
      omega
    obtain ⟨a0, as0, ha⟩ := cons_of_append_cons
      (PLY_KEY_LIST.flatMap (ply_key_lines pp)) w1 ws1
    rw [ha, load_step_ply f out a0 as0]
    have hlen : (PLY_KEY_LIST.flatMap (ply_key_lines pp)).length + 1 ≤
        as0.length + 1 := by
      have hc := congrArg List.length ha
      simp only [List.length_append, List.length_cons] at hc
      omega
    have hsec := read_ply_sec_writer PLY_KEY_LIST (fun k hk => hk) pp
      (hwfs pp (List.mem_cons_self _ _)) EMPTY_PLY w1 hw1g ws1 a0 as0 ha
      (as0.length + 1) hlen
    rw [hsec, mergePly_full pp]
    show load_gli_loop f { out with polylines := out.polylines ++ [pp] } w1
      (as0.drop (PLY_KEY_LIST.flatMap (ply_key_lines pp)).length) = _
    rw [drop_block ha]
    rw [ih (fun x hx => hwfs x (List.mem_cons_of_mem _ hx)) srfs hws vols hwv
      { out with polylines := out.polylines ++ [pp] } w1 ws1
      (by rw [← List.append_assoc, ← List.append_assoc] at hw1; exact hw1) f
      (by have hc := congrArg List.length ha
          simp only [List.length_append, List.length_cons] at hc hfuel
          omega)]
    simp

theorem load_save_aux (pts : List (ℚ × ℚ × ℚ)) (nms : List String)
    (mds : List (Option ℚ)) (plys : List Ply) (srfs : List Srf)
    (vols : List Vol)
    (hwf : wfGli (Gli.mk pts nms mds plys srfs vols) = true) :
    load_ogs5gli (save_ogs5gli (Gli.mk pts nms mds plys srfs vols) none) =
      Except.ok (Gli.mk pts nms mds plys srfs vols) := by
  obtain ⟨hl1, hl2, hdec, hn, hm, hply, hsrf, hvol⟩ := wfGli_parts hwf
  have hsave : save_ogs5gli (Gli.mk pts nms mds plys srfs vols) none =
      "#POINTS" :: (pointLinesFrom 0 pts nms mds ++
        (plys.flatMap ply_lines ++ (srfs.flatMap srf_lines ++
          (vols.flatMap vol_lines ++ ["#STOP"])))) := by
    simp only [save_ogs5gli, List.nil_append, List.cons_append,
      List.append_assoc, writer_points_eq0]
  rw [hsave]
  simp only [load_ogs5gli]
  rw [show pyStrip "#POINTS" = "#POINTS" from rfl]
  obtain ⟨wB, wsB, hB, hBg⟩ := plys_shape plys srfs vols
  have hB' := hB
  simp only [List.append_assoc] at hB'
  rw [hB']
  obtain ⟨a0, as0, ha⟩ := cons_of_append_cons
    (pointLinesFrom 0 pts nms mds) wB wsB
  rw [ha]
  simp only [List.length_cons]
  rw [load_step_points (as0.length + 1) EMPTY_GLI a0 as0]
  have hstopd : firstCharDigit (pyStrip wB) = false := by
    rw [gli_strip wB hBg]
    exact gli_not_firstDigit wB hBg
  have hrp := read_points_writer wB wsB hstopd pts nms mds hdec hn hm hl1 hl2
    0 a0 as0 ha
  rw [hrp]
  show load_gli_loop (as0.length + 1)
      { EMPTY_GLI with
        points := (pts.zip (nms.zip mds)).map (fun p => p.1),
        point_names := (pts.zip (nms.zip mds)).map (fun p => p.2.1),
        point_md := (pts.zip (nms.zip mds)).map (fun p => p.2.2) }
      (pyStrip wB) (as0.drop pts.length) = _
  rw [zip3_fst pts nms mds hl1 hl2, zip3_snd1 pts nms mds hl1 hl2,
    zip3_snd2 pts nms mds hl1 hl2, gli_strip wB hBg]
  have hdrop : as0.drop pts.length = wsB := by
    have hd := drop_block ha
    rwa [pointLinesFrom_length] at hd
  rw [hdrop]
  rw [load_plys plys hply srfs hsrf vols hvol
    { EMPTY_GLI with points := pts, point_names := nms, point_md := mds }
    wB wsB hB (as0.length + 1)
    (by have hc := congrArg List.length ha
        simp only [List.length_append, List.length_cons,
          pointLinesFrom_length] at hc
        omega)]
  simp [EMPTY_GLI]

theorem vols_shape_cont (vols : List Vol) (t0 : String)
    (ht0 : t0 ∈ GLI_KEY_LIST) (ts : List String) :
    ∃ w ws, vols.flatMap vol_lines ++ t0 :: ts = w :: ws ∧
      w ∈ GLI_KEY_LIST := by
  rcases vols with _ | ⟨vv, vs⟩
  · exact ⟨t0, ts, by simp, ht0⟩
  · exact ⟨"#VOLUME",
      VOL_KEY_LIST.flatMap (vol_key_lines vv) ++
        (vs.flatMap vol_lines ++ t0 :: ts),
      by simp [vol_lines, List.flatMap_cons, List.append_assoc], by decide⟩

theorem srfs_shape_cont (srfs : List Srf) (vols : List Vol) (t0 : String)
    (ht0 : t0 ∈ GLI_KEY_LIST) (ts : List String) :
    ∃ w ws, srfs.flatMap srf_lines ++ vols.flatMap vol_lines ++ t0 :: ts =
      w :: ws ∧ w ∈ GLI_KEY_LIST := by
  rcases srfs with _ | ⟨sf, ss⟩
  · obtain ⟨w, ws, hw, hg⟩ := vols_shape_cont vols t0 ht0 ts
    exact ⟨w, ws, by simpa using hw, hg⟩
  · exact ⟨"#SURFACE",
      SRF_KEY_LIST.flatMap (srf_key_lines sf) ++
        (ss.flatMap srf_lines ++ (vols.flatMap vol_lines ++ t0 :: ts)),
      by simp [srf_lines, List.flatMap_cons, List.append_assoc], by decide⟩

theorem plys_shape_cont (plys : List Ply) (srfs : List Srf)
    (vols : List Vol) (t0 : String) (ht0 : t0 ∈ GLI_KEY_LIST)
    (ts : List String) :
    ∃ w ws, plys.flatMap ply_lines ++ srfs.flatMap srf_lines ++
      vols.flatMap vol_lines ++ t0 :: ts = w :: ws ∧ w ∈ GLI_KEY_LIST := by
  rcases plys with _ | ⟨pp, ps⟩
  · obtain ⟨w, ws, hw, hg⟩ := srfs_shape_cont srfs vols t0 ht0 ts
    exact ⟨w, ws, by simpa using hw, hg⟩
  · exact ⟨"#POLYLINE",
      PLY_KEY_LIST.flatMap (ply_key_lines pp) ++
        (ps.flatMap ply_lines ++ (srfs.flatMap srf_lines ++
          (vols.flatMap vol_lines ++ t0 :: ts))),
      by simp [ply_lines, List.flatMap_cons, List.append_assoc], by decide⟩

theorem load_vols_cont :
    ∀ (vols : List Vol), (∀ v ∈ vols, wfVol v = true) →
    ∀ (out : Gli) (t0 : String), t0 ∈ GLI_KEY_LIST →
    ∀ (ts : List String) (w0 : String) (ws : List String),
    vols.flatMap vol_lines ++ t0 :: ts = w0 :: ws →
    ∀ (R : Except GliErr Gli) (fuel : ℕ), ws.length + 1 ≤ fuel →
    (∀ f', ts.length + 1 ≤ f' →
      load_gli_loop f' { out with volumes := out.volumes ++ vols } t0 ts = R) →
    load_gli_loop fuel out w0 ws = R := by
  intro vols
  induction vols with
  | nil =>
    intro _ out t0 ht0 ts w0 ws hsh R fuel hfuel hcont
    simp only [List.flatMap_nil, List.nil_append] at hsh
    injection hsh with h1 h2
    subst h1
    subst h2
    have hres := hcont fuel hfuel
    simpa using hres
  | cons vv vs ih =>
    intro hwfs out t0 ht0 ts w0 ws hsh R fuel hfuel hcont
    rw [List.flatMap_cons,
      show vol_lines vv = "#VOLUME" :: VOL_KEY_LIST.flatMap (vol_key_lines vv)
        from rfl] at hsh
    simp only [List.cons_append, List.append_assoc] at hsh
    injection hsh with h1 h2
    subst h1
    obtain ⟨w1, ws1, hw1, hw1g⟩ := vols_shape_cont vs t0 ht0 ts
    rw [hw1] at h2
    subst h2
    rcases fuel with _ | f
    · simp only [List.length_append, List.length_cons] at hfuel
      omega
    obtain ⟨a0, as0, ha⟩ := cons_of_append_cons
      (VOL_KEY_LIST.flatMap (vol_key_lines vv)) w1 ws1
    rw [ha, load_step_vol f out a0 as0]
    have hlen : (VOL_KEY_LIST.flatMap (vol_key_lines vv)).length + 1 ≤
        as0.length + 1 := by
      have hc := congrArg List.length ha
      simp only [List.length_append, List.length_cons] at hc
      omega
    have hsec := read_vol_sec_writer VOL_KEY_LIST (fun k hk => hk) vv
      (hwfs vv (List.mem_cons_self _ _)) EMPTY_VOL w1 hw1g ws1 a0 as0 ha
      (as0.length + 1) hlen
    rw [hsec, mergeVol_full vv]
    show load_gli_loop f { out with volumes := out.volumes ++ [vv] } w1
      (as0.drop (VOL_KEY_LIST.flatMap (vol_key_lines vv)).length) = R
    rw [drop_block ha]
    refine ih (fun x hx => hwfs x (List.mem_cons_of_mem _ hx))
      { out with volumes := out.volumes ++ [vv] } t0 ht0 ts w1 ws1 hw1 R f
      (by have hc := congrArg List.length ha
          simp only [List.length_append, List.length_cons] at hc hfuel
          omega) ?_
    intro f' hf'
    have hres := hcont f' hf'
    simpa [List.append_assoc] using hres

theorem load_srfs_cont :
    ∀ (srfs : List Srf), (∀ s ∈ srfs, wfSrf s = true) →
    ∀ (vols : List Vol), (∀ v ∈ vols, wfVol v = true) →
    ∀ (out : Gli) (t0 : String), t0 ∈ GLI_KEY_LIST →
    ∀ (ts : List String) (w0 : String) (ws : List String),
    srfs.flatMap srf_lines ++ vols.flatMap vol_lines ++ t0 :: ts = w0 :: ws →
    ∀ (R : Except GliErr Gli) (fuel : ℕ), ws.length + 1 ≤ fuel →
    (∀ f', ts.length + 1 ≤ f' →
      load_gli_loop f' { out with
        surfaces := out.surfaces ++ srfs,
        volumes := out.volumes ++ vols } t0 ts = R) →
    load_gli_loop fuel out w0 ws = R := by
  intro srfs
  induction srfs with
  | nil =>
    intro _ vols hwv out t0 ht0 ts w0 ws hsh R fuel hfuel hcont
    simp only [List.flatMap_nil, List.nil_append] at hsh
    refine load_vols_cont vols hwv out t0 ht0 ts w0 ws hsh R fuel hfuel ?_
    intro f' hf'
    have hres := hcont f' hf'
    simpa using hres
  | cons sf ss ih =>
    intro hwfs vols hwv out t0 ht0 ts w0 ws hsh R fuel hfuel hcont
    rw [List.flatMap_cons,
      show srf_lines sf = "#SURFACE" :: SRF_KEY_LIST.flatMap (srf_key_lines sf)
        from rfl] at hsh
    simp only [List.cons_append, List.append_assoc] at hsh
    injection hsh with h1 h2
    subst h1
    obtain ⟨w1, ws1, hw1, hw1g⟩ := srfs_shape_cont ss vols t0 ht0 ts
    rw [List.append_assoc] at hw1
    rw [hw1] at h2
    subst h2
    rcases fuel with _ | f
    · simp only [List.length_append, List.length_cons] at hfuel
      omega
    obtain ⟨a0, as0, ha⟩ := cons_of_append_cons
      (SRF_KEY_LIST.flatMap (srf_key_lines sf)) w1 ws1
    rw [ha, load_step_srf f out a0 as0]
    have hlen : (SRF_KEY_LIST.flatMap (srf_key_lines sf)).length + 1 ≤
        as0.length + 1 := by
      have hc := congrArg List.length ha
      simp only [List.length_append, List.length_cons] at hc
      omega
    have hsec := read_srf_sec_writer SRF_KEY_LIST (fun k hk => hk) sf
      (hwfs sf (List.mem_cons_self _ _)) EMPTY_SRF w1 hw1g ws1 a0 as0 ha
      (as0.length + 1) hlen
    rw [hsec, mergeSrf_full sf]
    show load_gli_loop f { out with surfaces := out.surfaces ++ [sf] } w1
      (as0.drop (SRF_KEY_LIST.flatMap (srf_key_lines sf)).length) = R
    rw [drop_block ha]
    refine ih (fun x hx => hwfs x (List.mem_cons_of_mem _ hx)) vols hwv
      { out with surfaces := out.surfaces ++ [sf] } t0 ht0 ts w1 ws1
      (by rw [← List.append_assoc] at hw1; exact hw1) R f
      (by have hc := congrArg List.length ha
          simp only [List.length_append, List.length_cons] at hc hfuel
          omega) ?_
    intro f' hf'
    have hres := hcont f' hf'
    simpa [List.append_assoc] using hres

theorem load_plys_cont :
    ∀ (plys : List Ply), (∀ p ∈ plys, wfPly p = true) →
    ∀ (srfs : List Srf), (∀ s ∈ srfs, wfSrf s = true) →
    ∀ (vols : List Vol), (∀ v ∈ vols, wfVol v = true) →
    ∀ (out : Gli) (t0 : String), t0 ∈ GLI_KEY_LIST →
    ∀ (ts : List String) (w0 : String) (ws : List String),
    plys.flatMap ply_lines ++ srfs.flatMap srf_lines ++
      vols.flatMap vol_lines ++ t0 :: ts = w0 :: ws →
    ∀ (R : Except GliErr Gli) (fuel : ℕ), ws.length + 1 ≤ fuel →
    (∀ f', ts.length + 1 ≤ f' →
      load_gli_loop f' { out with
        polylines := out.polylines ++ plys,
        surfaces := out.surfaces ++ srfs,
        volumes := out.volumes ++ vols } t0 ts = R) →
    load_gli_loop fuel out w0 ws = R := by
  intro plys
  induction plys with
  | nil =>
    intro _ srfs hws vols hwv out t0 ht0 ts w0 ws hsh R fuel hfuel hcont
    simp only [List.flatMap_nil, List.nil_append] at hsh
    refine load_srfs_cont srfs hws vols hwv out t0 ht0 ts w0 ws hsh R fuel
      hfuel ?_
    intro f' hf'
    have hres := hcont f' hf'
    simpa using hres
  | cons pp ps ih =>
    intro hwfs srfs hws vols hwv out t0 ht0 ts w0 ws hsh R fuel hfuel hcont
    rw [List.flatMap_cons,
      show ply_lines pp = "#POLYLINE" :: PLY_KEY_LIST.flatMap (ply_key_lines pp)
        from rfl] at hsh
    simp only [List.cons_append, List.append_assoc] at hsh
    injection hsh with h1 h2
    subst h1
    obtain ⟨w1, ws1, hw1, hw1g⟩ := plys_shape_cont ps srfs vols t0 ht0 ts
    rw [List.append_assoc, List.append_assoc] at hw1
    rw [hw1] at h2
    subst h2
    rcases fuel with _ | f
    · simp only [List.length_append, List.length_cons] at hfuel
      omega
    obtain ⟨a0, as0, ha⟩ := cons_of_append_cons
      (PLY_KEY_LIST.flatMap (ply_key_lines pp)) w1 ws1
    rw [ha, load_step_ply f out a0 as0]
    have hlen : (PLY_KEY_LIST.flatMap (ply_key_lines pp)).length + 1 ≤
        as0.length + 1 := by
      have hc := congrArg List.length ha
      simp only [List.length_append, List.length_cons] at hc
      omega
    have hsec := read_ply_sec_writer PLY_KEY_LIST (fun k hk => hk) pp
      (hwfs pp (List.mem_cons_self _ _)) EMPTY_PLY w1 hw1g ws1 a0 as0 ha
      (as0.length + 1) hlen
    rw [hsec, mergePly_full pp]
    show load_gli_loop f { out with polylines := out.polylines ++ [pp] } w1
      (as0.drop (PLY_KEY_LIST.flatMap (ply_key_lines pp)).length) = R
    rw [drop_block ha]
    refine ih (fun x hx => hwfs x (List.mem_cons_of_mem _ hx)) srfs hws vols
      hwv { out with polylines := out.polylines ++ [pp] } t0 ht0 ts w1 ws1
      (by rw [← List.append_assoc, ← List.append_assoc] at hw1; exact hw1) R f
      (by have hc := congrArg List.length ha
          simp only [List.length_append, List.length_cons] at hc hfuel
          omega) ?_
    intro f' hf'
    have hres := hcont f' hf'
    simpa [List.append_assoc] using hres

theorem load_points_sec (pts : List (ℚ × ℚ × ℚ)) (nms : List String)
    (mds : List (Option ℚ))
    (hdec : ∀ p ∈ pts, IsDec p.1 ∧ IsDec p.2.1 ∧ IsDec p.2.2)
    (hn : ∀ n ∈ nms, wfPointName n = true)
    (hm : ∀ m ∈ mds, wfOptDec m = true)
    (hl1 : nms.length = pts.length) (hl2 : mds.length = pts.length)
    (out : Gli) (t0 : String) (ht0 : t0 ∈ GLI_KEY_LIST)
    (ts : List String) (fuel : ℕ) :
    load_gli_loop (fuel + 1) out "#POINTS"
        (pointLinesFrom 0 pts nms mds ++ t0 :: ts) =
      load_gli_loop fuel
        { out with points := pts, point_names := nms, point_md := mds }
        t0 ts := by
  obtain ⟨a0, as0, ha⟩ := cons_of_append_cons
    (pointLinesFrom 0 pts nms mds) t0 ts
  rw [ha, load_step_points fuel out a0 as0]
  have hstopd : firstCharDigit (pyStrip t0) = false := by
    rw [gli_strip t0 ht0]
    exact gli_not_firstDigit t0 ht0
  rw [read_points_writer t0 ts hstopd pts nms mds hdec hn hm hl1 hl2
    0 a0 as0 ha]
  show load_gli_loop fuel
      { out with
        points := (pts.zip (nms.zip mds)).map (fun p => p.1),
        point_names := (pts.zip (nms.zip mds)).map (fun p => p.2.1),
        point_md := (pts.zip (nms.zip mds)).map (fun p => p.2.2) }
      (pyStrip t0) (as0.drop pts.length) = _
  rw [zip3_fst pts nms mds hl1 hl2, zip3_snd1 pts nms mds hl1 hl2,
    zip3_snd2 pts nms mds hl1 hl2, gli_strip t0 ht0]
  have hdrop : as0.drop pts.length = ts := by
    have hd := drop_block ha
    rwa [pointLinesFrom_length] at hd
  rw [hdrop]

-- ---- helper lemmas: the unique_rows pipeline ----

theorem firstIdx_lt_length {α : Type*} [DecidableEq α] {l : List α} {w : α}
    (h : w ∈ l) : firstIdx l w < l.length := by
  induction l with
  | nil => cases h
  | cons x xs ih =>
    by_cases hx : x = w
    · simp [firstIdx, hx]
    · have h' : w ∈ xs := by
        rcases List.mem_cons.mp h with hxw | hxs
        · exact absurd hxw.symm hx
        · exact hxs
      have := ih h'
      simp only [firstIdx, hx, if_false, List.length_cons]
      omega

theorem firstIdx_getD {α : Type*} [DecidableEq α] {l : List α} {w : α}
    {dflt : α} (h : w ∈ l) : l.getD (firstIdx l w) dflt = w := by
  induction l with
  | nil => cases h
  | cons x xs ih =>
    by_cases hx : x = w
    · simp [firstIdx, hx]
    · have h' : w ∈ xs := by
        rcases List.mem_cons.mp h with hxw | hxs
        · exact absurd hxw.symm hx
        · exact hxs
      simp only [firstIdx, hx, if_false]
      simpa using ih h'

theorem ur_tmp_length (data : List (List ℚ)) (d : ℤ) :
    (ur_tmp data d).length = data.length := by
  simp [ur_tmp]

theorem ur_tmp_getD (data : List (List ℚ)) (d : ℤ) (m : ℕ)
    (hm : m < data.length) :
    (ur_tmp data d).getD m [] = np_around_row d (data.getD m []) :=
  getD_map_of_lt _ data m hm [] []

theorem ur_u_perm_dedup (data : List (List ℚ)) (d : ℤ) :
    List.Perm (ur_u data d) (ur_tmp data d).dedup :=
  insertionSortB_perm _ _

theorem ur_u_nodup (data : List (List ℚ)) (d : ℤ) : (ur_u data d).Nodup :=
  ((ur_u_perm_dedup data d).nodup_iff).mpr (List.nodup_dedup _)

theorem ur_mem_u_iff (data : List (List ℚ)) (d : ℤ) {x : List ℚ} :
    x ∈ ur_u data d ↔ x ∈ ur_tmp data d := by
  rw [(ur_u_perm_dedup data d).mem_iff, List.mem_dedup]

theorem ur_ix_length (data : List (List ℚ)) (d : ℤ) :
    (ur_ix data d).length = (ur_u data d).length := by
  simp [ur_ix]

theorem ur_ix_getD (data : List (List ℚ)) (d : ℤ) (s : ℕ)
    (hs : s < (ur_ix data d).length) :
    (ur_ix data d).getD s 0 =
      firstIdx (ur_tmp data d) ((ur_u data d).getD s []) := by
  rw [ur_ix] at hs ⊢
  exact getD_map_of_lt _ _ s (by simpa using hs) 0 []

theorem ur_u_getD_mem (data : List (List ℚ)) (d : ℤ) (s : ℕ)
    (hs : s < (ur_ix data d).length) :
    (ur_u data d).getD s [] ∈ ur_u data d := by
  rw [ur_ix_length] at hs
  rw [List.getD_eq_getElem _ _ hs]
  exact List.getElem_mem _

theorem ur_ix_mem_lt (data : List (List ℚ)) (d : ℤ) :
    ∀ i ∈ ur_ix data d, i < data.length := by
  intro i hi
  rw [ur_ix, List.mem_map] at hi
  obtain ⟨v, hv, rfl⟩ := hi
  have hvm : v ∈ ur_tmp data d := (ur_mem_u_iff data d).mp hv
  have := firstIdx_lt_length hvm
  simpa [ur_tmp_length] using this

theorem ur_ix_nodup (data : List (List ℚ)) (d : ℤ) : (ur_ix data d).Nodup := by
  rw [ur_ix]
  refine List.Nodup.map_on ?_ (ur_u_nodup data d)
  intro v hv w hw hvw
  have h1 : (ur_tmp data d).getD (firstIdx (ur_tmp data d) v) [] = v :=
    firstIdx_getD ((ur_mem_u_iff data d).mp hv)
  have h2 : (ur_tmp data d).getD (firstIdx (ur_tmp data d) w) [] = w :=
    firstIdx_getD ((ur_mem_u_iff data d).mp hw)
  rw [← h1, ← h2, hvw]

theorem ur_sort_perm (data : List (List ℚ)) (d : ℤ) :
    List.Perm (ur_sort data d) (List.range (ur_ix data d).length) :=
  np_argsort_perm _

theorem ur_sort_length (data : List (List ℚ)) (d : ℤ) :
    (ur_sort data d).length = (ur_ix data d).length := by
  simpa using (ur_sort_perm data d).length_eq

theorem ur_sort_mem_lt (data : List (List ℚ)) (d : ℤ) :
    ∀ s ∈ ur_sort data d, s < (ur_ix data d).length := by
  intro s hs
  exact List.mem_range.mp ((ur_sort_perm data d).mem_iff.mp hs)

theorem ur_sort_getD_lt (data : List (List ℚ)) (d : ℤ) (j : ℕ)
    (hj : j < (ur_sort data d).length) :
    (ur_sort data d).getD j 0 < (ur_ix data d).length := by
  refine ur_sort_mem_lt data d _ ?_
  rw [List.getD_eq_getElem _ _ hj]
  exact List.getElem_mem _

theorem ur_out_getD (data : List (List ℚ)) (d : ℤ) (s : ℕ)
    (hs : s < (ur_ix data d).length) :
    (ur_out data d).getD s [] = data.getD ((ur_ix data d).getD s 0) [] := by
  rw [ur_out]
  exact getD_map_of_lt _ _ s hs [] 0

theorem ur_result_getD (data : List (List ℚ)) (d : ℤ) (j : ℕ)
    (hj : j < (ur_sort data d).length) :
    (unique_rows_core data d).1.getD j [] =
      (ur_out data d).getD ((ur_sort data d).getD j 0) [] := by
  simp only [unique_rows_core]
  exact getD_map_of_lt _ _ j hj [] 0

theorem ur_ixsort_getD (data : List (List ℚ)) (d : ℤ) (j : ℕ)
    (hj : j < (ur_sort data d).length) :
    (unique_rows_core data d).2.1.getD j 0 =
      (ur_ix data d).getD ((ur_sort data d).getD j 0) 0 := by
  simp only [unique_rows_core]
  exact getD_map_of_lt _ _ j hj 0 0

/-- The rounded rows of the `unique_rows` result are the unique rows
re-ordered by `sort`. -/
theorem ur_result_round (data : List (List ℚ)) (d : ℤ) (j : ℕ)
    (hj : j < (ur_sort data d).length) :
    np_around_row d ((unique_rows_core data d).1.getD j []) =
      (ur_u data d).getD ((ur_sort data d).getD j 0) [] := by
  have hs := ur_sort_getD_lt data d j hj
  rw [ur_result_getD data d j hj, ur_out_getD data d _ hs, ur_ix_getD data d _ hs]
  have hwmem : (ur_u data d).getD ((ur_sort data d).getD j 0) [] ∈ ur_tmp data d :=
    (ur_mem_u_iff data d).mp (ur_u_getD_mem data d _ hs)
  have hidx' : firstIdx (ur_tmp data d)
      ((ur_u data d).getD ((ur_sort data d).getD j 0) []) < data.length := by
    rw [← ur_tmp_length data d]
    exact firstIdx_lt_length hwmem
  rw [← ur_tmp_getD data d _ hidx']
  exact firstIdx_getD hwmem

theorem ur_ixr_length (data : List (List ℚ)) (d : ℤ) :
    (ur_ixr data d).length = data.length := by
  simp [ur_ixr, ur_tmp]

theorem ur_ixr_getD (data : List (List ℚ)) (d : ℤ) (i : ℕ)
    (hi : i < data.length) :
    (ur_ixr data d).getD i 0 =
      firstIdx (ur_u data d) ((ur_tmp data d).getD i []) := by
  rw [ur_ixr]
  exact getD_map_of_lt _ _ i (by rw [ur_tmp_length]; exact hi) 0 []

theorem ur_tmp_getD_mem_u (data : List (List ℚ)) (d : ℤ) (i : ℕ)
    (hi : i < data.length) :
    (ur_tmp data d).getD i [] ∈ ur_u data d := by
  refine (ur_mem_u_iff data d).mpr ?_
  rw [List.getD_eq_getElem _ _ (by rw [ur_tmp_length]; exact hi)]
  exact List.getElem_mem _

/-- C4 (amended theorem): for exactly-2-D `data` and any precision `d`,
`unique_rows` succeeds and its triple `(result, forward, reverse)`
satisfies the contracts of its docstring: `data[forward] = result` exact
and unrounded; `result[reverse[i]]` rounds to the same row as `data[i]`
for every input row `i`; `result` has no two rows equal after rounding;
`forward` is strictly increasing and `forward[j]` is the index of the
first input row rounding like `result[j]` (first-appearance order);
plus the length contracts.  (The claim as frozen swaps the two index
arrays: `result[forward]` and `input[reverse[i]]` vs
`result[reverse[i]]`; see the counterexample.) -/
theorem unique_rows_contract (data : List (List ℚ)) (d : ℤ)
    (h2 : is2D data = true) :
    unique_rows data d = some (unique_rows_core data d) ∧
    (unique_rows_core data d).2.1.map (fun i => data.getD i []) =
      (unique_rows_core data d).1 ∧
    (∀ i, i < data.length →
      np_around_row d ((unique_rows_core data d).1.getD
        ((unique_rows_core data d).2.2.getD i 0) []) =
      np_around_row d (data.getD i [])) ∧
    ((unique_rows_core data d).1.map (np_around_row d)).Nodup ∧
    List.Sorted (· < ·) (unique_rows_core data d).2.1 ∧
    (∀ j, j < (unique_rows_core data d).1.length →
      (unique_rows_core data d).2.1.getD j 0 =
        firstIdx (ur_tmp data d)
          (np_around_row d ((unique_rows_core data d).1.getD j []))) ∧
    (unique_rows_core data d).1.length = (unique_rows_core data d).2.1.length ∧
    (unique_rows_core data d).2.2.length = data.length := by
  refine ⟨?_, ?_, ?_, ?_, ?_, ?_, ?_, ?_⟩
  · simp [unique_rows, h2]
  · simp only [unique_rows_core, List.map_map]
    apply List.ext_getElem (by simp)
    intro i h1 h1'
    have hi : i < (ur_sort data d).length := by simpa using h1'
    simp only [List.getElem_map, Function.comp]
    have hsl : (ur_sort data d)[i] < (ur_ix data d).length :=
      ur_sort_mem_lt data d _ (List.getElem_mem hi)
    rw [ur_out_getD data d _ hsl]
  · intro i hi
    have hi' : i < (ur_ixr data d).length := by rw [ur_ixr_length]; exact hi
    have hmemu := ur_tmp_getD_mem_u data d i hi
    have hvlt : (ur_ixr data d).getD i 0 < (ur_ix data d).length := by
      rw [ur_ixr_getD data d i hi, ur_ix_length]
      exact firstIdx_lt_length hmemu
    obtain ⟨⟨hplt, hback⟩, _⟩ :=
      np_replace_sort_spec (ur_sort_perm data d) (ur_ixr data d) i hi' hvlt
    have hcore22 : (unique_rows_core data d).2.2 =
        np_replace (ur_ixr data d) (ur_sort data d)
          (List.range (ur_ix data d).length) := rfl
    have hplt' : (np_replace (ur_ixr data d) (ur_sort data d)
        (List.range (ur_ix data d).length)).getD i 0 <
        (ur_sort data d).length := by
      rw [ur_sort_length]
      exact hplt
    rw [hcore22, ur_result_round data d _ hplt', hback,
      ur_ixr_getD data d i hi, firstIdx_getD hmemu]
    exact ur_tmp_getD data d i hi
  · have hmapeq : (unique_rows_core data d).1.map (np_around_row d) =
        (ur_sort data d).map (fun s => (ur_u data d).getD s []) := by
      apply List.ext_getElem (by simp [unique_rows_core])
      intro i h1 h1'
      have hi : i < (ur_sort data d).length := by simpa using h1'
      have hib : i < (unique_rows_core data d).1.length := by
        simpa [unique_rows_core] using hi
      simp only [List.getElem_map]
      rw [← List.getD_eq_getElem (unique_rows_core data d).1 [] hib,
        ur_result_round data d i hi]
      congr 1
      exact List.getD_eq_getElem _ _ hi
    rw [hmapeq]
    have hperm := (ur_sort_perm data d).map (fun s => (ur_u data d).getD s [])
    rw [ur_ix_length data d, map_getD_range (ur_u data d) []] at hperm
    exact hperm.nodup_iff.mpr (ur_u_nodup data d)
  · have hixsort : (unique_rows_core data d).2.1 =
        insertionSortB natLeB (ur_ix data d) := by
      simp only [unique_rows_core, ur_sort]
      exact np_argsort_map_getD (ur_ix data d)
    rw [hixsort]
    have hle : List.Sorted (· ≤ ·) (insertionSortB natLeB (ur_ix data d)) :=
      sortedB_natLe_sorted
        (insertionSortB_pairwise natLeB_total natLeB_trans (ur_ix data d))
    have hnd : (insertionSortB natLeB (ur_ix data d)).Nodup :=
      (insertionSortB_perm natLeB (ur_ix data d)).nodup_iff.mpr
        (ur_ix_nodup data d)
    exact hle.lt_of_le hnd
  · intro j hj
    have hj' : j < (ur_sort data d).length := by
      simpa [unique_rows_core] using hj
    rw [ur_result_round data d j hj', ur_ixsort_getD data d j hj']
    exact ur_ix_getD data d _ (ur_sort_getD_lt data d j hj')
  · simp [unique_rows_core]
  · simp [unique_rows_core, np_replace, ur_ixr, ur_tmp]

/-- Evaluation of the rounding key on the sample array (the rationals 0
and 1 are fixed by rounding at precision 0). -/
theorem ur_ex_tmp_eval : ur_tmp [[(0:ℚ)], [0], [1]] 0 = [[0], [0], [1]] := by
  norm_num [ur_tmp, np_around_row, np_around, round_half_even]

/-- Evaluation of the `unique_rows` pipeline on the sample array. -/
theorem ur_ex_core_eval :
    unique_rows_core [[(0:ℚ)], [0], [1]] 0 = ([[0], [1]], [0, 2], [0, 0, 1]) := by
  simp only [unique_rows_core, ur_sort, ur_out, ur_ix, ur_ixr, ur_u,
    ur_ex_tmp_eval]
  decide

/-- C4 (counterexample): at `data = [[0], [0], [1]]`, `d = 0` the routine
returns `(result, forward, reverse) = ([[0], [1]], [0, 2], [0, 0, 1])`.
The claim as stated fails at input row `i = 2`: it requires
`input[reverse[2]] = input[1] = [0]` to round like
`result[reverse[2]] = result[1] = [1]`, which is false (`0 ≠ 1`).
(Its other part, `result[forward] = data`, is also shape-invalid here:
`forward = [0, 2]` indexes the 2-row `result` out of range.) -/
theorem unique_rows_claim_false :
    unique_rows [[(0:ℚ)], [0], [1]] 0 = some ([[0], [1]], [0, 2], [0, 0, 1]) ∧
    ¬ (np_around_row 0 ([[(0:ℚ)], [0], [1]].getD ([0, 0, 1].getD 2 0) []) =
       np_around_row 0 ([[(0:ℚ)], [1]].getD ([0, 0, 1].getD 2 0) [])) := by
  constructor
  · have h1 : is2D [[(0:ℚ)], [0], [1]] = true := by decide
    simp [unique_rows, h1, ur_ex_core_eval]
  · norm_num [np_around_row, np_around, round_half_even]

/-- C4 witness: the amended contract applied at the concrete 2-D input
`[[0], [0], [1]]` with precision 0, whose outputs evaluate to
`([[0], [1]], [0, 2], [0, 0, 1])`. -/
theorem unique_rows_contract_witness :
    is2D [[(0:ℚ)], [0], [1]] = true ∧
    unique_rows [[(0:ℚ)], [0], [1]] 0 =
      some (unique_rows_core [[(0:ℚ)], [0], [1]] 0) ∧
    unique_rows_core [[(0:ℚ)], [0], [1]] 0 = ([[0], [1]], [0, 2], [0, 0, 1]) :=
  ⟨by decide, (unique_rows_contract [[(0:ℚ)], [0], [1]] 0 (by decide)).1,
    ur_ex_core_eval⟩

/-- C7: rotating any point list by angle 0 around any axis and base point
is the identity: `cos 0 = 1` and `sin 0 = 0` collapse the Rodrigues matrix
to the identity, and the two shifts cancel.  (Real-number idealisation of
the floating-point routine.) -/
theorem rotate_points_zero_angle (points : List (Fin 3 → ℝ))
    (axis base : Fin 3 → ℝ) :
    rotate_points points 0 axis base = points := by
  have hrot : rotation_matrix axis 0 = 1 := by
    simp [rotation_matrix]
  simp only [rotate_points, hrot, Matrix.one_mulVec, shift_points,
    List.map_map]
  have : ∀ p : Fin 3 → ℝ, p + (-1 : ℝ) • base + base = p := by
    intro p
    funext i
    simp
  calc points.map ((fun p => p + base) ∘ fun p => p + (-1 : ℝ) • base)
      = points.map id := List.map_congr_left (fun p _ => this p)
    _ = points := List.map_id points

/-- C6: the downloader's pure URL/name resolution: "5.8"/"Darwin" is
absent from the fixed table and fails (KeyError) before any fetch;
"5.7"/"Linux" resolves to the fixed tar.gz URL with default binary name
"ogs" (no extension); on "Windows" the default name gains ".exe". -/
theorem download_ogs_resolve_contract :
    download_ogs_resolve "5.8" "Darwin" none =
      Except.error "KeyError: 5.8/Darwin" ∧
    download_ogs_resolve "5.7" "Linux" none =
      Except.ok ("https://ogsstorage.blob.core.windows.net/binaries/ogs5/" ++
        "ogs-5.7.0-Linux-2.6.32-573.8.1.el6.x86_64-x64.tar.gz",
        ".tar.gz", "ogs") ∧
    download_ogs_resolve "5.7" "Windows" none =
      Except.ok ("https://ogsstorage.blob.core.windows.net/binaries/ogs5/" ++
        "ogs-5.7.0-Windows-6.1.7601-x64.zip", ".zip", "ogs" ++ ".exe") := by
  refine ⟨rfl, ?_, ?_⟩ <;> rfl

/-- C1 (counterexample): the claim quantifies over documents with "any
polylines/surfaces/volumes", but the round-trip fails for a polyline
whose name contains a blank — the writer emits the name verbatim while
the reader keeps only `line.split()[0]`, so `"a b"` comes back as `"a"`
and the loaded document differs from the saved one. -/
theorem save_load_claim_false :
    ¬ (load_ogs5gli (save_ogs5gli
        (Gli.mk [(0, 0, 0)] [""] [Option.none]
          [{ EMPTY_PLY with NAME := some "a b" }] [] []) none) =
      Except.ok (Gli.mk [(0, 0, 0)] [""] [Option.none]
        [{ EMPTY_PLY with NAME := some "a b" }] [] [])) := by
  decide

/-- C1 (amended): for every well-formed geometry document — parallel
point arrays of equal length, finite-decimal coordinates, densities and
epsilons (as every floating value is), whitespace-free names and
reference tokens that do not collide with the reader's keywords, and
non-negative polyline point indices — loading the writer's output
reproduces the document exactly: an unset material density round-trips
through omission of the `$MD` suffix and an empty point name through
omission of the `$NAME` suffix. -/
theorem save_load_roundtrip (gli : Gli) (hwf : wfGli gli = true) :
    load_ogs5gli (save_ogs5gli gli none) = Except.ok gli := by
  rcases gli with ⟨pts, nms, mds, plys, srfs, vols⟩
  exact load_save_aux pts nms mds plys srfs vols hwf

/-- C1 witness: the round-trip theorem applied to a concrete document
populating every optional field (ids, names, points, epsilon, types,
material groups, point vector, polyline/surface references, TIN, layer,
one set and one unset material density, one named and one unnamed
point). -/
theorem save_load_roundtrip_witness :
    wfGli gtest_gli = true ∧
    load_ogs5gli (save_ogs5gli gtest_gli none) = Except.ok gtest_gli :=
  ⟨by decide, save_load_roundtrip gtest_gli (by decide)⟩

/-- C5 (counterexample): neither error is universal.  A file that ends
inside a `#POLYLINE` section body (`$POINTS` run) reaches end of file
without `#STOP`, yet the source does not raise `EOFError` — its inner
`while` loop re-reads the empty string forever (modelled `hang`).  And a
file containing a top-level junk line after `#STOP` loads successfully:
the reader stops at `#STOP` and never sees the junk, so no
`ValueError` is raised. -/
theorem load_gli_errors_claim_false :
    load_ogs5gli ["#POLYLINE", "$POINTS", "1"] =
      Except.error GliErr.hang ∧
    load_ogs5gli ["#STOP", "junk no keyword"] = Except.ok EMPTY_GLI := by
  constructor
  · decide
  · decide

/-- C5 (amended): the reader's top-level error behaviour.  At each
iteration the source peeks one line ahead: if the input is exhausted
while the current line does not start with `#STOP`, it raises
`EOFError` (`eof`); if input remains and the current non-blank line
starts with no recognised keyword, it raises
`ValueError("file contains unknown infos")` (`unknown`).  (Inside a
section body, end of file instead makes the source loop forever, and
lines after `#STOP` are never read — see the counterexample.) -/
theorem load_gli_error_contract (out : Gli) (line : String)
    (rest : List String) (fuel : ℕ) :
    (rest = [] → pyStartsWith line "#STOP" = false →
      load_gli_loop (fuel + 1) out line rest = Except.error GliErr.eof) ∧
    (line ≠ "" → rest ≠ [] →
      pyStartsWith line "#POINTS" = false →
      pyStartsWith line "#POLYLINE" = false →
      pyStartsWith line "#SURFACE" = false →
      pyStartsWith line "#VOLUME" = false →
      pyStartsWith line "#STOP" = false →
      load_gli_loop (fuel + 1) out line rest =
        Except.error (GliErr.unknown line)) := by
  constructor
  · intro h1 h2
    subst h1
    simp only [load_gli_loop]
    rw [if_pos (by simp [h2])]
  · intro h1 h2 h3 h4 h5 h6 h7
    rcases rest with _ | ⟨a, as⟩
    · exact absurd rfl h2
    simp only [load_gli_loop]
    rw [if_neg (by simp), if_neg h1, if_neg (by simp [h3]),
      if_neg (by simp [h4]), if_neg (by simp [h5]), if_neg (by simp [h6]),
      if_neg (by simp [h7])]

/-- C5 witness: the amended contract applied at concrete inputs — an
exhausted input at a non-`#STOP` line gives `eof`, and a junk top-level
line with input remaining gives `unknown`. -/
theorem load_gli_error_contract_witness :
    load_gli_loop 1 EMPTY_GLI "#POINTS" [] = Except.error GliErr.eof ∧
    load_gli_loop 1 EMPTY_GLI "junk" ["x"] =
      Except.error (GliErr.unknown "junk") :=
  ⟨(load_gli_error_contract EMPTY_GLI "#POINTS" [] 0).1 rfl (by decide),
   (load_gli_error_contract EMPTY_GLI "junk" ["x"] 0).2 (by decide)
     (by decide) (by decide) (by decide) (by decide) (by decide) (by decide)⟩

/-- C10: `#POINTS` assigns, the block sections append.  Concatenating a
well-formed document's text (with its terminal `#STOP` removed) in front
of a second well-formed document's text yields a file with two `#POINTS`
sections; loading it returns the SECOND document's point arrays only
(each `#POINTS` section overwrites the three parallel arrays), while the
polyline, surface and volume lists of both documents accumulate in
order. -/
theorem load_points_assign_blocks_append (g1 g2 : Gli)
    (hwf1 : wfGli g1 = true) (hwf2 : wfGli g2 = true) :
    load_ogs5gli ((save_ogs5gli g1 none).dropLast ++ save_ogs5gli g2 none) =
      Except.ok { g2 with
        polylines := g1.polylines ++ g2.polylines,
        surfaces := g1.surfaces ++ g2.surfaces,
        volumes := g1.volumes ++ g2.volumes } := by
  rcases g1 with ⟨pts1, nms1, mds1, plys1, srfs1, vols1⟩
  rcases g2 with ⟨pts2, nms2, mds2, plys2, srfs2, vols2⟩
  obtain ⟨hl11, hl12, hdec1, hn1, hm1, hply1, hsrf1, hvol1⟩ := wfGli_parts hwf1
  obtain ⟨hl21, hl22, hdec2, hn2, hm2, hply2, hsrf2, hvol2⟩ := wfGli_parts hwf2
  have hsave1 : save_ogs5gli (Gli.mk pts1 nms1 mds1 plys1 srfs1 vols1) none =
      "#POINTS" :: (pointLinesFrom 0 pts1 nms1 mds1 ++
        (plys1.flatMap ply_lines ++ (srfs1.flatMap srf_lines ++
          (vols1.flatMap vol_lines ++ ["#STOP"])))) := by
    simp only [save_ogs5gli, List.nil_append, List.cons_append,
      List.append_assoc, writer_points_eq0]
  have hsave2 : save_ogs5gli (Gli.mk pts2 nms2 mds2 plys2 srfs2 vols2) none =
      "#POINTS" :: (pointLinesFrom 0 pts2 nms2 mds2 ++
        (plys2.flatMap ply_lines ++ (srfs2.flatMap srf_lines ++
          (vols2.flatMap vol_lines ++ ["#STOP"])))) := by
    simp only [save_ogs5gli, List.nil_append, List.cons_append,
      List.append_assoc, writer_points_eq0]
  have hdrop1 : (save_ogs5gli (Gli.mk pts1 nms1 mds1 plys1 srfs1 vols1)
      none).dropLast =
      "#POINTS" :: (pointLinesFrom 0 pts1 nms1 mds1 ++
        (plys1.flatMap ply_lines ++ (srfs1.flatMap srf_lines ++
          vols1.flatMap vol_lines))) := by
    rw [hsave1,
      show "#POINTS" :: (pointLinesFrom 0 pts1 nms1 mds1 ++
          (plys1.flatMap ply_lines ++ (srfs1.flatMap srf_lines ++
            (vols1.flatMap vol_lines ++ ["#STOP"])))) =
        ("#POINTS" :: (pointLinesFrom 0 pts1 nms1 mds1 ++
          (plys1.flatMap ply_lines ++ (srfs1.flatMap srf_lines ++
            vols1.flatMap vol_lines)))) ++ ["#STOP"] from by
        simp [List.append_assoc],
      List.dropLast_concat]
  rw [hdrop1, hsave2, List.cons_append]
  simp only [load_ogs5gli]
  rw [show pyStrip "#POINTS" = "#POINTS" from rfl]
  simp only [List.append_assoc, List.cons_append]
  obtain ⟨wC, wsC, hC, hCg⟩ := plys_shape_cont plys1 srfs1 vols1 "#POINTS"
    (by decide)
    (pointLinesFrom 0 pts2 nms2 mds2 ++
      (plys2.flatMap ply_lines ++ (srfs2.flatMap srf_lines ++
        (vols2.flatMap vol_lines ++ ["#STOP"]))))
  have hC' := hC
  simp only [List.append_assoc] at hC'
  rw [hC']
  rw [load_points_sec pts1 nms1 mds1 hdec1 hn1 hm1 hl11 hl12 EMPTY_GLI
    wC hCg wsC]
  refine load_plys_cont plys1 hply1 srfs1 hsrf1 vols1 hvol1
    { EMPTY_GLI with points := pts1, point_names := nms1, point_md := mds1 }
    "#POINTS" (by decide)
    (pointLinesFrom 0 pts2 nms2 mds2 ++
      (plys2.flatMap ply_lines ++ (srfs2.flatMap srf_lines ++
        (vols2.flatMap vol_lines ++ ["#STOP"]))))
    wC wsC hC _ _
    (by have hc := congrArg List.length hC'
        simp only [List.length_append, List.length_cons] at hc ⊢
        omega) ?_
  intro f' hf'
  rcases f' with _ | f2
  · omega
  obtain ⟨wB, wsB, hB, hBg⟩ := plys_shape plys2 srfs2 vols2
  have hB' := hB
  simp only [List.append_assoc] at hB'
  rw [hB'] at hf' ⊢
  rw [load_points_sec pts2 nms2 mds2 hdec2 hn2 hm2 hl21 hl22 _ wB hBg wsB f2]
  rw [load_plys plys2 hply2 srfs2 hsrf2 vols2 hvol2 _ wB wsB hB f2
    (by have hc := congrArg List.length hB'
        simp only [List.length_append, List.length_cons,
          pointLinesFrom_length] at hc hf'
        omega)]
  simp [EMPTY_GLI]

/-- C10 witness: the assign/append theorem applied to two concrete
one-point documents, each carrying one polyline: the loaded result of
the doubled file has the second document's single point and both
polylines. -/
theorem load_points_assign_blocks_append_witness :
    wfGli (Gli.mk [(0, 0, 0)] [""] [Option.none]
      [Ply.mk none (some "p1") none none none none none] [] []) = true ∧
    wfGli (Gli.mk [(1, 1, 1)] [""] [Option.none]
      [Ply.mk none (some "p2") none none none none none] [] []) = true ∧
    load_ogs5gli ((save_ogs5gli (Gli.mk [(0, 0, 0)] [""] [Option.none]
        [Ply.mk none (some "p1") none none none none none] [] [])
        none).dropLast ++
      save_ogs5gli (Gli.mk [(1, 1, 1)] [""] [Option.none]
        [Ply.mk none (some "p2") none none none none none] [] []) none) =
      Except.ok (Gli.mk [(1, 1, 1)] [""] [Option.none]
        [Ply.mk none (some "p1") none none none none none,
         Ply.mk none (some "p2") none none none none none] [] []) :=
  ⟨by decide, by decide, by
    have h := load_points_assign_blocks_append
      (Gli.mk [(0, 0, 0)] [""] [Option.none]
        [Ply.mk none (some "p1") none none none none none] [] [])
      (Gli.mk [(1, 1, 1)] [""] [Option.none]
        [Ply.mk none (some "p2") none none none none none] [] [])
      (by decide) (by decide)
    simpa using h⟩
